import Mathlib

/-!
# Verification of the discrete-math lab scheduling engine

Shallow embedding of the scheduling engine found in `src/models.py` and
`src/scheduler.py` of the repository: the time-conflict model, the entity
model, the greedy constructor and the local swap optimizer, together with
proofs of the specified invariants and functional-correctness properties.

Modelling conventions:
* Python `int` is modelled as `Int`; Python `float` arithmetic on scores and
  ratios is modelled as exact rational arithmetic (`ℚ`);
* Python `Set[int]` / `Set[str]` become `Finset ℕ` / `Finset String`;
* Python `Optional[str]` attributes become `Option String`, and Python
  truthiness of such a value (`if peer.clazz:`) is `strTruthy`;
* the mutable `Scheduler` object (students dict, sessions list and the
  configuration) becomes an explicit state record threaded through every
  function; dict lookups become association-list lookups (keys are unique
  in every reachable run, which the well-formedness predicate records);
* the process-wide seeded random stream becomes an explicit stream
  `Nat → Nat` together with a counter for the number of values consumed.
-/

/-- `src/models.py` `TimeSlot`: a concrete stretch of class time used for
conflict detection. -/
structure TimeSlot where
  weeks : Finset ℕ
  weekday : Int
  start_period : Int
  end_period : Int
  deriving DecidableEq

/-- `src/models.py` `TimeSlot.conflicts_with`: week sets intersect, same
weekday, and the period intervals overlap. An empty week set on either side
means no conflict. -/
def TimeSlot.conflicts_with (a b : TimeSlot) : Bool :=
  if a.weeks = ∅ ∨ b.weeks = ∅ then false
  else if a.weekday ≠ b.weekday then false
  else if a.weeks ∩ b.weeks = ∅ then false
  else ! decide (a.end_period < b.start_period ∨ b.end_period < a.start_period)

/-- `src/models.py` `LabSession`: one concrete lab group in the schedule. -/
structure LabSession where
  session_id : Int
  group_name : String
  project_name : String
  weeks : Finset ℕ
  weekday : Int
  start_period : Int
  end_period : Int
  teacher : String
  capacity : Int
  hours : Int
  assigned_students : List String
  deriving DecidableEq

/-- `src/models.py` `LabSession.remaining`: free seats, clamped at zero. -/
def LabSession.remaining (s : LabSession) : Int :=
  max (s.capacity - (s.assigned_students.length : Int)) 0

/-- `src/models.py` `LabSession.main_week`: minimal week, or 0 when the week
set is empty. -/
def LabSession.main_week (s : LabSession) : Int :=
  if h : s.weeks.Nonempty then (s.weeks.min' h : Int) else 0

/-- `src/models.py` `LabSession.to_timeslot`. -/
def LabSession.to_timeslot (s : LabSession) : TimeSlot :=
  ⟨s.weeks, s.weekday, s.start_period, s.end_period⟩

/-- `src/models.py` `Student`: a student with timetable state. -/
structure Student where
  student_id : String
  name : String
  dept : Option String
  major : Option String
  clazz : Option String
  required_hours : Int
  busy_slots : List TimeSlot
  assigned : List Int
  taken_projects : Finset String
  deriving DecidableEq

/-- Python truthiness of an `Optional[str]`: `None` and the empty string are
falsy. -/
def strTruthy : Option String → Bool
  | none => false
  | some s => s ≠ ""

/-- Extract the string of a truthy `Optional[str]` (used only under
`strTruthy`). -/
def strVal : Option String → String
  | none => ""
  | some s => s

/-- The whole mutable `Scheduler` object of `src/scheduler.py`: entity state
plus run configuration. -/
structure Scheduler where
  students : List (String × Student)
  sessions : List LabSession
  required_hours : Int
  w_occupancy : ℚ
  w_class : ℚ
  w_hetero : ℚ
  w_spread : ℚ
  w_slot : ℚ
  swap_iterations : Int
  deriving DecidableEq

namespace Scheduler

/-- `self.students[sid]` / `self.students.get(sid)`: dict lookup by student
id (keys are unique in every run we consider). -/
def findStudent (st : Scheduler) (sid : String) : Option Student :=
  (st.students.find? (fun p => p.1 == sid)).map (fun p => p.2)

/-- `self.session_lookup[sid]`: the dict built in `__init__` from the
sessions list, keyed by `session_id` (ids are unique in every run we
consider). -/
def session_lookup (st : Scheduler) (sid : Int) : Option LabSession :=
  st.sessions.find? (fun s => s.session_id == sid)

/-- Derived slot of an assigned session id (`session_lookup[sid].to_timeslot()`;
a missing id would raise `KeyError` in Python and never happens in a
well-formed state). -/
def slotOf (st : Scheduler) (sid : Int) : Option TimeSlot :=
  (st.session_lookup sid).map LabSession.to_timeslot

/-- `session_lookup[sid].hours` (0 for a missing id, which Python would
refuse with `KeyError` and which never happens in a well-formed state). -/
def hoursOf (st : Scheduler) (sid : Int) : Int :=
  match st.session_lookup sid with
  | some s => s.hours
  | none => 0

/-- `session_lookup[sid].project_name == name` (false for a missing id). -/
def projectIs (st : Scheduler) (sid : Int) (name : String) : Bool :=
  match st.session_lookup sid with
  | some s => s.project_name == name
  | none => false

/-- `session_lookup[sid].main_week` (0 for a missing id). -/
def mainWeekOf (st : Scheduler) (sid : Int) : Int :=
  match st.session_lookup sid with
  | some s => s.main_week
  | none => 0

/-- `session_lookup[sid].to_timeslot().conflicts_with(slot)` (false for a
missing id). -/
def slotConflictB (st : Scheduler) (sid : Int) (slot : TimeSlot) : Bool :=
  match st.slotOf sid with
  | some other => other.conflicts_with slot
  | none => false

/-- The body of the `_same_slot_count` loop: identical weekday and period
range (false for a missing id). -/
def slotSameB (st : Scheduler) (sid : Int) (slot : TimeSlot) : Bool :=
  match st.session_lookup sid with
  | some other =>
    let other_slot := other.to_timeslot
    other_slot.weekday == slot.weekday &&
      other_slot.start_period == slot.start_period &&
      other_slot.end_period == slot.end_period
  | none => false

end Scheduler

/-- `src/models.py` `Student.has_conflict`: the slot clashes with a busy slot
or with the derived slot of an already-assigned session. -/
def Student.has_conflict (stu : Student) (slot : TimeSlot) (st : Scheduler) : Bool :=
  stu.busy_slots.any (fun busy => busy.conflicts_with slot) ||
    stu.assigned.any (fun sid => st.slotConflictB sid slot)

namespace Scheduler

/-- `Scheduler._student_hours`: sum of `hours` over the student's assigned
sessions (a missing id would raise `KeyError` in Python; it contributes 0
here and never occurs in a well-formed state). -/
def _student_hours (st : Scheduler) (stu : Student) : Int :=
  (stu.assigned.map (fun sid => st.hoursOf sid)).sum

/-- `Scheduler._target_hours`: `student.required_hours or self.required_hours`
(Python `or`: 0 is falsy, so 0 falls back to the global default). -/
def _target_hours (st : Scheduler) (stu : Student) : Int :=
  if stu.required_hours = 0 then st.required_hours else stu.required_hours

/-- `Scheduler._same_slot_count`: assigned sessions sharing weekday and
period range with the candidate. -/
def _same_slot_count (st : Scheduler) (stu : Student) (sess : LabSession) : Nat :=
  let new_slot := sess.to_timeslot
  stu.assigned.countP (fun sid => st.slotSameB sid new_slot)

/-- `Scheduler._spread_distance`: minimal week distance between the
candidate and the already assigned sessions, 0 when nothing is assigned. -/
def _spread_distance (st : Scheduler) (stu : Student) (sess : LabSession) : Int :=
  if stu.assigned.isEmpty then 0
  else
    let target_week := sess.main_week
    let distances := stu.assigned.map (fun sid => |target_week - st.mainWeekOf sid|)
    (distances.min?).getD 0

/-- `Scheduler._class_match_ratio`: share of current roster members in the
same class (checked first) or the same major, over roster size + 1. -/
def _class_match_ratio (st : Scheduler) (stu : Student) (sess : LabSession) : ℚ :=
  if sess.assigned_students.isEmpty then 0
  else
    let same := sess.assigned_students.countP (fun sid =>
      match st.findStudent sid with
      | none => false
      | some peer =>
        (strTruthy peer.clazz && strTruthy stu.clazz &&
          strVal peer.clazz == strVal stu.clazz) ||
        (strTruthy peer.major && strTruthy stu.major &&
          strVal peer.major == strVal stu.major))
    (same : ℚ) / ((sess.assigned_students.length : ℚ) + 1)

/-- Roster loop shared by `_hetero_level` (no skip) and `_session_diversity`
(skipping every occurrence of the outgoing student): collects the sets of
truthy classes and majors of the roster members found in the students dict. -/
def rosterSets (st : Scheduler) (roster : List String) (skip : Option String) :
    Finset String × Finset String :=
  roster.foldl
    (fun acc sid =>
      if skip == some sid then acc
      else
        match st.findStudent sid with
        | none => acc
        | some peer =>
          ((if strTruthy peer.clazz then insert (strVal peer.clazz) acc.1 else acc.1),
           (if strTruthy peer.major then insert (strVal peer.major) acc.2 else acc.2)))
    (∅, ∅)

/-- Adding the incoming student's truthy class and major to the collected
sets (the `if incoming:` block of `_hetero_level` / `swap_in` block of
`_session_diversity`). -/
def addIncoming (sets : Finset String × Finset String) (inc : Option Student) :
    Finset String × Finset String :=
  match inc with
  | none => sets
  | some s =>
    ((if strTruthy s.clazz then insert (strVal s.clazz) sets.1 else sets.1),
     (if strTruthy s.major then insert (strVal s.major) sets.2 else sets.2))

/-- The loop body of `rosterSets`, named for the proof layer. -/
def rosterStep (st : Scheduler) (skip : Option String) :
    (Finset String × Finset String) → String → (Finset String × Finset String) :=
  fun acc sid =>
    if skip == some sid then acc
    else
      match st.findStudent sid with
      | none => acc
      | some peer =>
        ((if strTruthy peer.clazz then insert (strVal peer.clazz) acc.1 else acc.1),
         (if strTruthy peer.major then insert (strVal peer.major) acc.2 else acc.2))

/-- `Scheduler._hetero_level`: `max(|classes|, |majors|) / size` with the
optional incoming student counted, 0 for an empty group. -/
def _hetero_level (st : Scheduler) (sess : LabSession) (incoming : Option Student) : ℚ :=
  let sets := addIncoming (rosterSets st sess.assigned_students none) incoming
  let size : Int := (sess.assigned_students.length : Int) +
    (if incoming.isSome then 1 else 0)
  if size = 0 then 0
  else ((max sets.1.card sets.2.card : Nat) : ℚ) / ((size : Int) : ℚ)

/-- `Scheduler._session_diversity`: like `_hetero_level` but with an optional
outgoing member removed from both the sets and the size. -/
def _session_diversity (st : Scheduler) (sess : LabSession)
    (swap_out swap_in : Option Student) : ℚ :=
  let sets := addIncoming
    (rosterSets st sess.assigned_students (swap_out.map (fun o => o.student_id))) swap_in
  let size : Int := (sess.assigned_students.length : Int) -
    (match swap_out with
     | some o => if o.student_id ∈ sess.assigned_students then 1 else 0
     | none => 0) +
    (if swap_in.isSome then 1 else 0)
  if size ≤ 0 then 0
  else ((max sets.1.card sets.2.card : Nat) : ℚ) / ((size : Int) : ℚ)

/-- `Scheduler._score`: the 4-tuple compared lexicographically, lower is
better (float arithmetic modelled as exact rationals). -/
def _score (st : Scheduler) (stu : Student) (sess : LabSession) : ℚ × ℚ × ℚ × ℚ :=
  let occupancy_ratio : ℚ :=
    if sess.capacity ≠ 0 then
      (((sess.capacity - sess.remaining : Int)) : ℚ) / ((sess.capacity : Int) : ℚ)
    else 1
  let spread_bonus : ℚ := -((st._spread_distance stu sess : Int) : ℚ)
  let class_bonus : ℚ := -st.w_class * st._class_match_ratio stu sess
  let hetero_penalty : ℚ := st.w_hetero * st._hetero_level sess (some stu)
  let slot_bonus : ℚ := -st.w_slot * ((st._same_slot_count stu sess : Nat) : ℚ)
  (occupancy_ratio * st.w_occupancy, class_bonus + hetero_penalty,
    st.w_spread * spread_bonus, slot_bonus)

/-- `Scheduler._candidate_sessions`: sessions with a free seat, a project not
yet taken by the student, and no time conflict, in original iteration
order. -/
def _candidate_sessions (st : Scheduler) (stu : Student) : List LabSession :=
  st.sessions.filter (fun sess =>
    decide (sess.remaining > 0) &&
      ! decide (sess.project_name ∈ stu.taken_projects) &&
      ! stu.has_conflict sess.to_timeslot st)

/-- Strict lexicographic order on score tuples: Python tuple `<`. -/
def scoreLt (x y : ℚ × ℚ × ℚ × ℚ) : Bool :=
  decide (x.1 < y.1) ||
    (x.1 == y.1 && (decide (x.2.1 < y.2.1) ||
      (x.2.1 == y.2.1 && (decide (x.2.2.1 < y.2.2.1) ||
        (x.2.2.1 == y.2.2.1 && decide (x.2.2.2 < y.2.2.2))))))

/-- First element with minimal score: `best` is the running leftmost
minimum; a later candidate replaces it only when strictly smaller. -/
def firstMinBy (f : LabSession → ℚ × ℚ × ℚ × ℚ) :
    LabSession → List LabSession → LabSession
  | best, [] => best
  | best, c :: cs => firstMinBy f (if scoreLt (f c) (f best) then c else best) cs

/-- `candidates.sort(key=score)` (a stable sort) followed by
`candidates[0]`: the head of a stable sort is the first element attaining
the minimal key, i.e. `firstMinBy`. -/
def chooseCandidate (st : Scheduler) (stu : Student) : Option LabSession :=
  match st._candidate_sessions stu with
  | [] => none
  | c :: cs => some (firstMinBy (st._score stu) c cs)

/-- Mutation of the roster of the session object with the given id (Python
mutates the object shared by `self.sessions` and `self.session_lookup`). -/
def updSessionRoster (st : Scheduler) (sid : Int) (f : List String → List String) :
    Scheduler :=
  { st with sessions := st.sessions.map (fun s =>
      if s.session_id == sid then { s with assigned_students := f s.assigned_students }
      else s) }

/-- Mutation of the student object stored under the given dict key. -/
def updStudentAt (st : Scheduler) (key : String) (f : Student → Student) : Scheduler :=
  { st with students := st.students.map (fun p =>
      if p.1 == key then (p.1, f p.2) else p) }

/-- The commit block of `Scheduler.assign`: append the student to the chosen
session's roster, the session id to the student's list, and the project to
`taken_projects`. -/
def commit (st : Scheduler) (key : String) (stu : Student) (chosen : LabSession) :
    Scheduler :=
  let st1 := updSessionRoster st chosen.session_id (fun r => r ++ [stu.student_id])
  updStudentAt st1 key (fun s =>
    { s with assigned := s.assigned ++ [chosen.session_id],
             taken_projects := insert chosen.project_name s.taken_projects })

/-- One test-and-commit iteration of the inner `while` loop of
`Scheduler.assign` for the student stored under `key`: `none` when the loop
stops (hours reached, or no candidate). -/
def constructorStep (st : Scheduler) (key : String) : Option (Scheduler × (String × Int)) :=
  match st.findStudent key with
  | none => none
  | some stu =>
    if st._student_hours stu < st._target_hours stu then
      match chooseCandidate st stu with
      | none => none
      | some chosen => some (commit st key stu chosen, (stu.student_id, chosen.session_id))
    else none

/-- The inner `while` loop of `Scheduler.assign`. Fuel bounds the number of
iterations: every commit inserts a project name not yet in `taken_projects`,
so at most `|sessions|` commits can happen for one student; the callers pass
`|sessions| + 1`, which the loop can therefore never exhaust. -/
def assignStudentLoop : Nat → Scheduler → String → List (String × Int) →
    Scheduler × List (String × Int)
  | 0, st, _, acc => (st, acc)
  | Nat.succ fuel, st, key, acc =>
    match constructorStep st key with
    | none => (st, acc)
    | some (st1, ev) => assignStudentLoop fuel st1 key (acc ++ [ev])

/-- The grouping key of `Scheduler.assign`:
`stu.clazz or stu.major or "_misc"`. -/
def groupKey (stu : Student) : String :=
  if strTruthy stu.clazz then strVal stu.clazz
  else if strTruthy stu.major then strVal stu.major
  else "_misc"

/-- Appending a member to its group in the insertion-ordered
`defaultdict(list)`. -/
def addToGroup (gs : List (String × List String)) (k sid : String) :
    List (String × List String) :=
  if gs.any (fun g => g.1 == k) then
    gs.map (fun g => if g.1 == k then (g.1, g.2 ++ [sid]) else g)
  else gs ++ [(k, [sid])]

/-- The `class_groups` dict of `Scheduler.assign`, in key insertion order. -/
def buildGroups (st : Scheduler) : List (String × List String) :=
  st.students.foldl (fun gs p => addToGroup gs (groupKey p.2) p.1) []

/-- Stable insertion (descending by group size) used to model Python's
stable `sorted(..., key=lambda item: -len(item[1]))`. -/
def insertGroupDesc (g : String × List String) :
    List (String × List String) → List (String × List String)
  | [] => [g]
  | h :: t => if h.2.length < g.2.length then g :: h :: t else h :: insertGroupDesc g t

/-- Stable descending sort of the groups by size. -/
def sortGroupsDesc (gs : List (String × List String)) : List (String × List String) :=
  gs.foldl (fun acc g => insertGroupDesc g acc) []

/-- Exchange the elements at two positions (no-op when out of range). -/
def listSwap (l : List String) (i j : Nat) : List String :=
  match l.get? i, l.get? j with
  | some a, some b => (l.set i b).set j a
  | _, _ => l

/-- Modelled from the spec: `random.shuffle` is standard-library code outside
the repository; the spec only requires a seed-deterministic permutation
drawn from the shared stream. Fisher–Yates driven by the stream. -/
def shuffleAux (r : Nat → Nat) : Nat → List String → Nat → List String × Nat
  | 0, l, k => (l, k)
  | Nat.succ i, l, k => shuffleAux r i (listSwap l (i + 1) (r k % (i + 2))) (k + 1)

/-- Modelled from the spec: seed-deterministic shuffle of one group,
consuming `length - 1` stream values. -/
def shuffle (r : Nat → Nat) (l : List String) (k : Nat) : List String × Nat :=
  shuffleAux r (l.length - 1) l k

/-- The student visiting order of `Scheduler.assign`: groups sorted by
descending size, each shuffled with the shared stream, concatenated. -/
def orderedStudents (r : Nat → Nat) (st : Scheduler) (k : Nat) : List String × Nat :=
  (sortGroupsDesc (buildGroups st)).foldl
    (fun acc g =>
      let p := shuffle r g.2 acc.2
      (acc.1 ++ p.1, p.2))
    ([], k)

/-- The outer `for sid in ordered_students` loop of `Scheduler.assign`. -/
def assignAll (st : Scheduler) (order : List String) : Scheduler × List (String × Int) :=
  order.foldl (fun acc key => assignStudentLoop (acc.1.sessions.length + 1) acc.1 key acc.2)
    (st, [])

/-- `Scheduler._has_project`: some assigned session other than the excluded
one carries the project. -/
def _has_project (st : Scheduler) (stu : Student) (project_name : String)
    (exclude_session_id : Option Int) : Bool :=
  stu.assigned.any (fun sid =>
    !(exclude_session_id == some sid) && st.projectIs sid project_name)

/-- `Scheduler._conflicts_with_other_assignments`: the target session's slot
clashes with an assigned session other than the excluded one, or with a busy
slot. -/
def _conflicts_with_other_assignments (st : Scheduler) (stu : Student)
    (target : LabSession) (exclude_session_id : Option Int) : Bool :=
  let slot := target.to_timeslot
  stu.assigned.any (fun sid =>
    !(exclude_session_id == some sid) && st.slotConflictB sid slot) ||
  stu.busy_slots.any (fun busy => busy.conflicts_with slot)

/-- `Scheduler._can_swap`: the feasibility gate of the optimizer. -/
def _can_swap (st : Scheduler) (a : Student) (sA : LabSession)
    (b : Student) (sB : LabSession) : Bool :=
  if sA.session_id == sB.session_id then false
  else if st._has_project a sB.project_name (some sA.session_id) then false
  else if st._has_project b sA.project_name (some sB.session_id) then false
  else if st._conflicts_with_other_assignments a sB (some sA.session_id) then false
  else if st._conflicts_with_other_assignments b sA (some sB.session_id) then false
  else
    let new_hours_a := st._student_hours a - sA.hours + sB.hours
    let new_hours_b := st._student_hours b - sB.hours + sA.hours
    if new_hours_a < st._target_hours a then false
    else if new_hours_b < st._target_hours b then false
    else true

/-- `Scheduler._drop_project_if_unused`, applied to the student currently
stored under `key` (it runs after the assignment lists were updated). -/
def _drop_project_if_unused (st : Scheduler) (key : String) (project_name : String)
    (removed_session_id : Int) : Scheduler :=
  match st.findStudent key with
  | none => st
  | some stu =>
    if stu.assigned.any (fun sid =>
        !(sid == removed_session_id) && st.projectIs sid project_name) then st
    else updStudentAt st key (fun s =>
      { s with taken_projects := s.taken_projects.erase project_name })

/-- `Scheduler._perform_swap`: the accepted-swap mutation, in source
order (roster removals, roster appends, assignment lists, project sets).
Python guards each removal with a membership test; `List.erase` is already a
no-op on a missing element. -/
def _perform_swap (st : Scheduler) (keyA keyB : String) (a : Student) (sA : LabSession)
    (b : Student) (sB : LabSession) : Scheduler :=
  let st1 := updSessionRoster st sA.session_id (fun r => r.erase a.student_id)
  let st2 := updSessionRoster st1 sB.session_id (fun r => r.erase b.student_id)
  let st3 := updSessionRoster st2 sA.session_id (fun r => r ++ [b.student_id])
  let st4 := updSessionRoster st3 sB.session_id (fun r => r ++ [a.student_id])
  let st5 := updStudentAt st4 keyA (fun s =>
    { s with assigned := (s.assigned.erase sA.session_id) ++ [sB.session_id] })
  let st6 := updStudentAt st5 keyB (fun s =>
    { s with assigned := (s.assigned.erase sB.session_id) ++ [sA.session_id] })
  let st7 := st6._drop_project_if_unused keyA sA.project_name sA.session_id
  let st8 := st7._drop_project_if_unused keyB sB.project_name sB.session_id
  let st9 := updStudentAt st8 keyA (fun s =>
    { s with taken_projects := insert sB.project_name s.taken_projects })
  updStudentAt st9 keyB (fun s =>
    { s with taken_projects := insert sA.project_name s.taken_projects })

/-- The body of one optimizer trial after the two students and the two
session ids have been sampled: the id guard, the feasibility gate and the
improvement gate of `Scheduler._local_optimize`. -/
def swapTrial (st : Scheduler) (keyA keyB : String) (sAId sBId : Int) : Scheduler :=
  if sAId == sBId then st
  else
    match st.findStudent keyA, st.findStudent keyB,
        st.session_lookup sAId, st.session_lookup sBId with
    | some a, some b, some sA, some sB =>
      if st._can_swap a sA b sB then
        let before_div := st._session_diversity sA none none +
          st._session_diversity sB none none
        let after_div := st._session_diversity sA (some a) (some b) +
          st._session_diversity sB (some b) (some a)
        if after_div < before_div then st._perform_swap keyA keyB a sA b sB else st
      else st
    | _, _, _, _ => st

/-- Modelled from the spec: `random.sample(ids, 2)` is standard-library code
outside the repository; the spec only requires two distinct students drawn
deterministically from the shared stream (two values consumed). Callers
guarantee `ids.length ≥ 2`. -/
def sampleTwo (r : Nat → Nat) (ids : List String) (k : Nat) : (String × String) × Nat :=
  let n := ids.length
  let i := r k % n
  let j0 := r (k + 1) % (n - 1)
  let j := if j0 ≥ i then j0 + 1 else j0
  ((ids.getD i "", ids.getD j ""), k + 2)

/-- Modelled from the spec: `random.choice` over an assignment list, one
stream value consumed; callers guarantee the list is non-empty. -/
def choiceFrom (r : Nat → Nat) (l : List Int) (k : Nat) : Int × Nat :=
  (l.getD (r k % l.length) 0, k + 1)

/-- One full optimizer trial: sampling plus `swapTrial` (a student whose
assignment list is empty aborts the trial before the session draws). -/
def trialOnce (r : Nat → Nat) (ids : List String) (p : Scheduler × Nat) :
    Scheduler × Nat :=
  let st := p.1
  let q := sampleTwo r ids p.2
  match st.findStudent q.1.1, st.findStudent q.1.2 with
  | some a, some b =>
    if a.assigned.isEmpty || b.assigned.isEmpty then (st, q.2)
    else
      let c1 := choiceFrom r a.assigned q.2
      let c2 := choiceFrom r b.assigned c1.2
      (swapTrial st q.1.1 q.1.2 c1.1 c2.1, c2.2)
  | _, _ => (st, q.2)

/-- The `student_ids` list frozen at the start of `_local_optimize`:
students with at least one assignment, in dict order. -/
def activeStudentIds (st : Scheduler) : List String :=
  (st.students.filter (fun p => !p.2.assigned.isEmpty)).map (fun p => p.1)

/-- The `for _ in range(self.swap_iterations)` loop. -/
def runTrials (r : Nat → Nat) (ids : List String) :
    Nat → Scheduler × Nat → Scheduler × Nat
  | 0, p => p
  | Nat.succ n, p => runTrials r ids n (trialOnce r ids p)

/-- `Scheduler._local_optimize`: freeze the list of students with at least
one assignment, skip everything when fewer than two, then run the trials. -/
def _local_optimize (r : Nat → Nat) (st : Scheduler) (k : Nat) : Scheduler × Nat :=
  let student_ids := st.activeStudentIds
  if student_ids.length < 2 then (st, k)
  else runTrials r student_ids st.swap_iterations.toNat (st, k)

/-- `Scheduler.assign`: ordering, greedy construction, optional local
optimization. Returns the final state, the commit list and the stream
counter. -/
def assign (r : Nat → Nat) (st : Scheduler) : Scheduler × List (String × Int) × Nat :=
  let o := orderedStudents r st 0
  let res := assignAll st o.1
  if st.swap_iterations > 0 then
    let fin := _local_optimize r res.1 o.2
    (fin.1, res.2, fin.2)
  else (res.1, res.2, o.2)

/-- `Scheduler.report_unfilled`: the Python f-string
`"学生 {sid} 还缺少 {need} 学时..."` is abstracted to the data it carries,
the pair `(sid, need)`, emitted exactly when `need > 0` with
`need = self.required_hours - self._student_hours(stu)`. -/
def report_unfilled (st : Scheduler) : List (String × Int) :=
  st.students.filterMap (fun p =>
    let need := st.required_hours - st._student_hours p.2
    if need > 0 then some (p.1, need) else none)

end Scheduler

/-- Modelled from the spec: the process-wide Mersenne-Twister stream seeded
by `random.seed(seed)` is standard-library code outside the repository; the
spec only requires one seed-deterministic pseudo-random stream consumed in a
fixed sequence. A 64-bit linear congruential stream stands in. -/
def lcgNext (x : Nat) : Nat :=
  (6364136223846793005 * x + 1442695040888963407) % (2 ^ 64)

/-- Modelled from the spec: the seed-determined stream of values. -/
def randomStream (seed : Int) : Nat → Nat
  | 0 => lcgNext (seed.natAbs % 2 ^ 64)
  | Nat.succ n => lcgNext (randomStream seed n)

/-- A whole engine run: seed the stream, then `Scheduler.assign`. -/
def runScheduler (seed : Int) (st : Scheduler) : Scheduler × List (String × Int) × Nat :=
  Scheduler.assign (randomStream seed) st

namespace Scheduler

/-- The slots of §3 of the spec drawn from `assigned ∪ busy_slots`: the busy
slots together with the derived slots of the assigned sessions. -/
def studentSlots (st : Scheduler) (stu : Student) : List TimeSlot :=
  stu.busy_slots ++ stu.assigned.filterMap (fun sid => st.slotOf sid)

end Scheduler

/-- Every pair of slots drawn from the list is conflict-free. -/
def conflictFreeSlots : List TimeSlot → Bool
  | [] => true
  | s :: rest => rest.all (fun t => ! s.conflicts_with t) && conflictFreeSlots rest

namespace Scheduler

/-- Structural well-formedness of a scheduler state, as maintained by every
reachable run: unique session ids and student keys, students stored under
their own id, assigned ids resolvable, duplicate-free assignment lists and
rosters, bidirectional student/session membership, and `taken_projects`
covering the projects of the assigned sessions. -/
structure WFcore (st : Scheduler) : Prop where
  sessIds : (st.sessions.map (fun s => s.session_id)).Nodup
  stuKeys : (st.students.map (fun p => p.1)).Nodup
  keyMatch : ∀ p ∈ st.students, p.2.student_id = p.1
  assignedSess : ∀ p ∈ st.students, ∀ sid ∈ p.2.assigned,
    ∃ sess ∈ st.sessions, sess.session_id = sid
  assignedNodup : ∀ p ∈ st.students, p.2.assigned.Nodup
  rosterNodup : ∀ sess ∈ st.sessions, sess.assigned_students.Nodup
  bidir : ∀ p ∈ st.students, ∀ sess ∈ st.sessions,
    (sess.session_id ∈ p.2.assigned ↔ p.1 ∈ sess.assigned_students)
  takenSup : ∀ p ∈ st.students, ∀ sid ∈ p.2.assigned, ∀ sess ∈ st.sessions,
    sess.session_id = sid → sess.project_name ∈ p.2.taken_projects

/-- The capacity invariant: every roster fits its session's capacity. -/
def CapInv (st : Scheduler) : Prop :=
  ∀ sess ∈ st.sessions, (sess.assigned_students.length : Int) ≤ sess.capacity

/-- The no-conflict invariant: every student's combined slot list
(busy ∪ assigned-derived) is pairwise conflict-free. -/
def NoConfInv (st : Scheduler) : Prop :=
  ∀ p ∈ st.students, conflictFreeSlots (st.studentSlots p.2) = true

/-- Sum of the per-session heterogeneity metric over all sessions. -/
def totalDiversity (st : Scheduler) : ℚ :=
  (st.sessions.map (fun sess => st._session_diversity sess none none)).sum

/-- The state right after the greedy construction phase of
`Scheduler.assign`, before the optimizer. -/
def constructionState (r : Nat → Nat) (st : Scheduler) : Scheduler :=
  (assignAll st (orderedStudents r st 0).1).1

/-- The state after the construction phase and the first `n` optimizer
trials (with the student-id list and stream counter exactly as in
`Scheduler.assign`); for `n = swap_iterations.toNat` this is the final state
of the optimizing run. -/
def optimizerState (r : Nat → Nat) (st : Scheduler) (n : Nat) : Scheduler :=
  let st1 := constructionState r st
  let ids := st1.activeStudentIds
  if ids.length < 2 then st1
  else (runTrials r ids n (st1, (orderedStudents r st 0).2)).1

end Scheduler

/-- The score tuple recast as a nested lexicographic product; Python
compares score tuples exactly lexicographically. -/
def lexScore (x : ℚ × ℚ × ℚ × ℚ) : ℚ ×ₗ (ℚ ×ₗ (ℚ ×ₗ ℚ)) :=
  toLex (x.1, toLex (x.2.1, toLex (x.2.2.1, x.2.2.2)))

/-! ### Proof-layer normal forms for the swap mutation -/

namespace Scheduler

/-- Normal form of a students-dict update touching two distinct keys. -/
def twoStudentUpd (keyA : String) (fA : Student → Student) (keyB : String)
    (fB : Student → Student) : (String × Student) → (String × Student) :=
  fun p => if p.1 == keyA then (p.1, fA p.2)
    else if p.1 == keyB then (p.1, fB p.2) else p

/-- Normal form of a session-store update touching two distinct ids. -/
def twoSessionUpd (idA : Int) (gA : List String → List String) (idB : Int)
    (gB : List String → List String) : LabSession → LabSession :=
  fun s => if s.session_id == idA then
      { s with assigned_students := gA s.assigned_students }
    else if s.session_id == idB then
      { s with assigned_students := gB s.assigned_students }
    else s

/-- State whose session store is updated at two distinct ids (proof-layer
normal form). -/
def twoSessState (st : Scheduler) (idA : Int) (gA : List String → List String)
    (idB : Int) (gB : List String → List String) : Scheduler :=
  { st with sessions := st.sessions.map (twoSessionUpd idA gA idB gB) }

/-- State whose students dict is updated at two distinct keys (proof-layer
normal form). -/
def twoStuState (st : Scheduler) (keyA : String) (fA : Student → Student)
    (keyB : String) (fB : Student → Student) : Scheduler :=
  { st with students := st.students.map (twoStudentUpd keyA fA keyB fB) }

/-- The condition under which `_drop_project_if_unused` keeps the given-up
project for the first student: some post-swap assignment other than the
given-up session still carries it. -/
def dropCondA (st : Scheduler) (a : Student) (sA sB : LabSession) : Bool :=
  ((a.assigned.erase sA.session_id) ++ [sB.session_id]).any
    (fun sid => !(sid == sA.session_id) && st.projectIs sid sA.project_name)

/-- Same for the second student. -/
def dropCondB (st : Scheduler) (b : Student) (sA sB : LabSession) : Bool :=
  ((b.assigned.erase sB.session_id) ++ [sA.session_id]).any
    (fun sid => !(sid == sB.session_id) && st.projectIs sid sB.project_name)

/-- The first student's `taken_projects` after the swap bookkeeping. -/
def swapTakenA (st : Scheduler) (a : Student) (sA sB : LabSession) : Finset String :=
  insert sB.project_name (if dropCondA st a sA sB then a.taken_projects
    else a.taken_projects.erase sA.project_name)

/-- The second student's `taken_projects` after the swap bookkeeping. -/
def swapTakenB (st : Scheduler) (b : Student) (sA sB : LabSession) : Finset String :=
  insert sA.project_name (if dropCondB st b sA sB then b.taken_projects
    else b.taken_projects.erase sB.project_name)

/-- The first student's transformation under the swap: give up `sA`,
receive `sB`, and take the given project set. -/
def swapStuA (sA sB : LabSession) (TA : Finset String) : Student → Student :=
  fun s => { s with
    assigned := (s.assigned.erase sA.session_id) ++ [sB.session_id],
    taken_projects := TA }

/-- The second student's transformation under the swap. -/
def swapStuB (sA sB : LabSession) (TB : Finset String) : Student → Student :=
  fun s => { s with
    assigned := (s.assigned.erase sB.session_id) ++ [sA.session_id],
    taken_projects := TB }

/-- Closed form of the state produced by `_perform_swap` (proved equal to it
in `performSwap_eq`): both rosters exchange their members, both students
exchange the session ids, and the project sets take the given values. -/
def swapOutcome (st : Scheduler) (keyA keyB : String) (a b : Student)
    (sA sB : LabSession) (TA TB : Finset String) : Scheduler :=
  { st with
    students := st.students.map
      (twoStudentUpd keyA (swapStuA sA sB TA) keyB (swapStuB sA sB TB)),
    sessions := st.sessions.map (twoSessionUpd sA.session_id
      (fun r => (r.erase a.student_id) ++ [b.student_id]) sB.session_id
      (fun r => (r.erase b.student_id) ++ [a.student_id])) }

end Scheduler

/-! ### Concrete inputs exercising the theorems -/

/-- A session with one seat, project `P1`, 10 hours, weeks `{5}`. -/
def sessW : LabSession := ⟨1, "G1", "P1", {5}, 1, 1, 2, "T", 1, 10, []⟩

/-- A student with personal target 10 hours and no busy slots. -/
def stuW : Student := ⟨"a", "A", none, some "M1", some "X1", 10, [], [], ∅⟩

/-- A one-student one-session scheduler with global default 30 hours and no
optimizer trials. -/
def stW : Scheduler := ⟨[("a", stuW)], [sessW], 30, 1, 1, 1, 1, 1, 0⟩

/-- Scenario C/D-style state: two sessions both named project `P`, each with
two members of opposite classes; swapping the cross-class pair strictly
reduces heterogeneity. All week sets are empty, so no slot ever conflicts. -/
def sessSwapA : LabSession := ⟨1, "G1", "P", ∅, 1, 1, 2, "T", 2, 10, ["a", "m1"]⟩

/-- Second session of the swap scenario, also project `P`. -/
def sessSwapB : LabSession := ⟨2, "G2", "P", ∅, 1, 1, 2, "T", 2, 10, ["b", "m2"]⟩

/-- Student `a`, class X1, assigned the `P` session 1. -/
def stuSwapA : Student := ⟨"a", "A", none, none, some "X1", 10, [], [1], {"P"}⟩

/-- Student `m1`, class X2, assigned session 1. -/
def stuSwapM1 : Student := ⟨"m1", "M1", none, none, some "X2", 10, [], [1], {"P"}⟩

/-- Student `b`, class X2, assigned the `P` session 2. -/
def stuSwapB : Student := ⟨"b", "B", none, none, some "X2", 10, [], [2], {"P"}⟩

/-- Student `m2`, class X1, assigned session 2. -/
def stuSwapM2 : Student := ⟨"m2", "M2", none, none, some "X1", 10, [], [2], {"P"}⟩

/-- The four-student two-session swap-scenario state. -/
def stSwap : Scheduler :=
  ⟨[("a", stuSwapA), ("m1", stuSwapM1), ("b", stuSwapB), ("m2", stuSwapM2)],
    [sessSwapA, sessSwapB], 30, 1, 1, 1/2, 1/5, 1/10, 200⟩

/-- Session 1 (project `P`) of the project-uniqueness scenario. -/
def sessQ1 : LabSession := ⟨1, "G1", "P", ∅, 1, 1, 2, "T", 2, 10, ["a"]⟩

/-- Session 2 (project `Q`) of the project-uniqueness scenario. -/
def sessQ2 : LabSession := ⟨2, "G2", "Q", ∅, 1, 1, 2, "T", 2, 10, ["b"]⟩

/-- Session 3 (also project `Q`) of the project-uniqueness scenario. -/
def sessQ3 : LabSession := ⟨3, "G3", "Q", ∅, 2, 1, 2, "T", 2, 10, ["a"]⟩

/-- Student `a` holding projects `P` (session 1) and `Q` (session 3). -/
def stuQA : Student := ⟨"a", "A", none, none, some "X1", 20, [], [1, 3], {"P", "Q"}⟩

/-- Student `b` holding project `Q` (session 2). -/
def stuQB : Student := ⟨"b", "B", none, none, some "X2", 10, [], [2], {"Q"}⟩

/-- State where a swap would hand student `a` a second `Q` project. -/
def stQ : Scheduler :=
  ⟨[("a", stuQA), ("b", stuQB)], [sessQ1, sessQ2, sessQ3], 30, 1, 1, 1, 1, 1, 200⟩

/-- Week-1 Monday periods 1–2. -/
def slotBad1 : TimeSlot := ⟨{1}, 1, 1, 2⟩

/-- Week-1 Monday periods 2–3: overlaps `slotBad1`. -/
def slotBad2 : TimeSlot := ⟨{1}, 1, 2, 3⟩

/-- A student whose own busy slots already conflict with each other. -/
def stuBad : Student := ⟨"a", "A", none, none, some "X1", 10, [slotBad1, slotBad2], [], ∅⟩

/-- A sessionless state whose single student carries two mutually
conflicting busy slots. -/
def stBad : Scheduler := ⟨[("a", stuBad)], [], 30, 1, 1, 1, 1, 1, 0⟩

/-! ## C4: the conflict predicate -/

/-- Propositional characterization of `TimeSlot.conflicts_with`: shared
helper for all claims that reason about conflicts. -/
lemma TimeSlot.conflicts_with_iff (a b : TimeSlot) :
    a.conflicts_with b = true ↔
      (a.weeks.Nonempty ∧ b.weeks.Nonempty ∧ a.weekday = b.weekday ∧
        (a.weeks ∩ b.weeks).Nonempty ∧
        ¬(a.end_period < b.start_period ∨ b.end_period < a.start_period)) := by
  simp only [TimeSlot.conflicts_with]
  split_ifs with h1 h2 h3
  · simp only [false_iff]
    rintro ⟨ha, hb, -, -, -⟩
    rcases h1 with h | h
    · exact ha.ne_empty h
    · exact hb.ne_empty h
  · simp only [false_iff]
    rintro ⟨-, -, hw, -, -⟩
    exact h2 hw
  · simp only [false_iff]
    rintro ⟨-, -, -, hi, -⟩
    exact hi.ne_empty h3
  · push_neg at h1 h2
    constructor
    · intro h
      refine ⟨Finset.nonempty_of_ne_empty h1.1, Finset.nonempty_of_ne_empty h1.2,
        h2, Finset.nonempty_of_ne_empty h3, ?_⟩
      simpa using h
    · rintro ⟨-, -, -, -, h⟩
      simpa using h

/-- Symmetry of the conflict predicate: shared helper. -/
lemma TimeSlot.conflicts_with_symm (a b : TimeSlot) :
    a.conflicts_with b = b.conflicts_with a := by
  rw [Bool.eq_iff_iff, TimeSlot.conflicts_with_iff, TimeSlot.conflicts_with_iff,
    Finset.inter_comm]
  constructor
  · rintro ⟨x1, x2, x3, x4, x5⟩
    exact ⟨x2, x1, x3.symm, x4, fun h => x5 (Or.symm h)⟩
  · rintro ⟨x1, x2, x3, x4, x5⟩
    exact ⟨x2, x1, x3.symm, x4, fun h => x5 (Or.symm h)⟩

/-- C4. `TimeSlot.conflicts_with a b` is true exactly when both week sets are
non-empty, the weekdays agree, the week sets intersect and the period ranges
overlap; an empty week set never conflicts; the predicate is symmetric. -/
theorem conflicts_with_characterization :
    (∀ a b : TimeSlot,
      a.conflicts_with b = true ↔
        (a.weeks.Nonempty ∧ b.weeks.Nonempty ∧ a.weekday = b.weekday ∧
          (a.weeks ∩ b.weeks).Nonempty ∧
          ¬(a.end_period < b.start_period ∨ b.end_period < a.start_period))) ∧
    (∀ a b : TimeSlot, a.weeks = ∅ → a.conflicts_with b = false) ∧
    (∀ a b : TimeSlot, a.conflicts_with b = b.conflicts_with a) := by
  refine ⟨TimeSlot.conflicts_with_iff, ?_, TimeSlot.conflicts_with_symm⟩
  intro a b h
  simp [TimeSlot.conflicts_with, h]

/-! ## State-access lemmas -/

/-- Association-list update lemma for the students dict. -/
lemma find?_studentUpdate (l : List (String × Student)) (key k : String)
    (f : Student → Student) :
    (l.map (fun p => if p.1 == key then (p.1, f p.2) else p)).find?
        (fun p => p.1 == k) =
      if k = key then (l.find? (fun p => p.1 == k)).map (fun p => (p.1, f p.2))
      else l.find? (fun p => p.1 == k) := by
  induction l with
  | nil => split <;> rfl
  | cons a l ih =>
    simp only [List.map_cons, List.find?_cons]
    by_cases hak : a.1 = key
    · by_cases hkk : a.1 = k
      · have hkey : k = key := by rw [← hkk, hak]
        subst hkey
        simp [hak, hkk]
      · have h1 : (a.1 == key) = true := by simp [hak]
        have h2 : (a.1 == k) = false := by simp [hkk]
        simp only [h1, if_true]
        have h3 : ((a.1, f a.2).1 == k) = false := h2
        simp only [h3, h2, ih]
    · have h1 : (a.1 == key) = false := by simp [hak]
      simp only [h1, Bool.false_eq_true, if_false]
      by_cases hkk : a.1 = k
      · have h2 : (a.1 == k) = true := by simp [hkk]
        have hne : ¬ k = key := fun h => hak (by rw [hkk, h])
        simp only [h2, if_neg hne]
      · have h2 : (a.1 == k) = false := by simp [hkk]
        simp only [h2, ih]

/-- Association-list update lemma for the session store. -/
lemma find?_sessionUpdate (l : List LabSession) (sid k : Int)
    (g : List String → List String) :
    (l.map (fun s => if s.session_id == sid then
        { s with assigned_students := g s.assigned_students } else s)).find?
        (fun s => s.session_id == k) =
      if k = sid then (l.find? (fun s => s.session_id == k)).map
        (fun s => { s with assigned_students := g s.assigned_students })
      else l.find? (fun s => s.session_id == k) := by
  induction l with
  | nil => split <;> rfl
  | cons a l ih =>
    simp only [List.map_cons, List.find?_cons]
    by_cases hak : a.session_id = sid
    · by_cases hkk : a.session_id = k
      · have hkey : k = sid := by rw [← hkk, hak]
        subst hkey
        simp [hak, hkk]
      · have h1 : (a.session_id == sid) = true := by simp [hak]
        have h2 : (a.session_id == k) = false := by simp [hkk]
        simp only [h1, if_true]
        have h3 : (({ a with assigned_students := g a.assigned_students } :
            LabSession).session_id == k) = false := h2
        simp only [h3, h2, ih]
    · have h1 : (a.session_id == sid) = false := by simp [hak]
      simp only [h1, Bool.false_eq_true, if_false]
      by_cases hkk : a.session_id = k
      · have h2 : (a.session_id == k) = true := by simp [hkk]
        have hne : ¬ k = sid := fun h => hak (by rw [hkk, h])
        simp only [h2, if_neg hne]
      · have h2 : (a.session_id == k) = false := by simp [hkk]
        simp only [h2, ih]

namespace Scheduler

lemma sessions_updStudentAt (st : Scheduler) (key : String) (f : Student → Student) :
    (st.updStudentAt key f).sessions = st.sessions := rfl

lemma students_updSessionRoster (st : Scheduler) (sid : Int) (g : List String → List String) :
    (st.updSessionRoster sid g).students = st.students := rfl

lemma findStudent_updStudentAt (st : Scheduler) (key k : String) (f : Student → Student) :
    (st.updStudentAt key f).findStudent k =
      if k = key then (st.findStudent key).map f else st.findStudent k := by
  simp only [findStudent, updStudentAt, find?_studentUpdate]
  split_ifs with h
  · subst h
    cases st.students.find? (fun p => p.1 == k) <;> rfl
  · rfl

lemma findStudent_updSessionRoster (st : Scheduler) (sid : Int)
    (g : List String → List String) (k : String) :
    (st.updSessionRoster sid g).findStudent k = st.findStudent k := rfl

lemma session_lookup_updSessionRoster (st : Scheduler) (sid k : Int)
    (g : List String → List String) :
    (st.updSessionRoster sid g).session_lookup k =
      if k = sid then (st.session_lookup k).map
        (fun s => { s with assigned_students := g s.assigned_students })
      else st.session_lookup k := by
  simp only [session_lookup, updSessionRoster, find?_sessionUpdate]

lemma session_lookup_updStudentAt (st : Scheduler) (key : String) (f : Student → Student)
    (k : Int) : (st.updStudentAt key f).session_lookup k = st.session_lookup k := rfl

lemma slotOf_updSessionRoster (st : Scheduler) (sid : Int) (g : List String → List String)
    (k : Int) : (st.updSessionRoster sid g).slotOf k = st.slotOf k := by
  simp only [slotOf, session_lookup_updSessionRoster]
  split_ifs with h
  · cases st.session_lookup k <;> rfl
  · rfl

lemma hoursOf_updSessionRoster (st : Scheduler) (sid : Int) (g : List String → List String)
    (k : Int) : (st.updSessionRoster sid g).hoursOf k = st.hoursOf k := by
  simp only [hoursOf, session_lookup_updSessionRoster]
  split_ifs with h
  · cases st.session_lookup k <;> rfl
  · rfl

lemma projectIs_updSessionRoster (st : Scheduler) (sid : Int) (g : List String → List String)
    (k : Int) (name : String) :
    (st.updSessionRoster sid g).projectIs k name = st.projectIs k name := by
  simp only [projectIs, session_lookup_updSessionRoster]
  split_ifs with h
  · cases st.session_lookup k <;> rfl
  · rfl

lemma slotConflictB_updSessionRoster (st : Scheduler) (sid : Int)
    (g : List String → List String) (k : Int) (slot : TimeSlot) :
    (st.updSessionRoster sid g).slotConflictB k slot = st.slotConflictB k slot := by
  simp only [slotConflictB, slotOf_updSessionRoster]

lemma _student_hours_updSessionRoster (st : Scheduler) (sid : Int)
    (g : List String → List String) (stu : Student) :
    (st.updSessionRoster sid g)._student_hours stu = st._student_hours stu := by
  simp only [_student_hours, hoursOf_updSessionRoster]

lemma _target_hours_updSessionRoster (st : Scheduler) (sid : Int)
    (g : List String → List String) (stu : Student) :
    (st.updSessionRoster sid g)._target_hours stu = st._target_hours stu := rfl

lemma _target_hours_updStudentAt (st : Scheduler) (key : String) (f : Student → Student)
    (stu : Student) :
    (st.updStudentAt key f)._target_hours stu = st._target_hours stu := rfl

end Scheduler

namespace Scheduler

lemma session_lookup_some {st : Scheduler} {sid : Int} {s : LabSession}
    (h : st.session_lookup sid = some s) : s ∈ st.sessions ∧ s.session_id = sid := by
  refine ⟨List.mem_of_find?_eq_some h, ?_⟩
  have := List.find?_some h
  simpa using this

lemma findStudent_some {st : Scheduler} {k : String} {stu : Student}
    (h : st.findStudent k = some stu) : ∃ p ∈ st.students, p.1 = k ∧ p.2 = stu := by
  simp only [findStudent, Option.map_eq_some'] at h
  obtain ⟨p, hp, hps⟩ := h
  refine ⟨p, List.mem_of_find?_eq_some hp, ?_, hps⟩
  have := List.find?_some hp
  simpa using this

/-- With duplicate-free keys, membership determines the dict lookup. -/
lemma find?_eq_of_mem_of_nodupKeys {α κ : Type} [BEq κ] [LawfulBEq κ]
    {l : List α} {kf : α → κ} (hnd : (l.map kf).Nodup) {a : α} (ha : a ∈ l) :
    l.find? (fun x => kf x == kf a) = some a := by
  induction l with
  | nil => cases ha
  | cons b l ih =>
    rcases List.mem_cons.mp ha with rfl | ha'
    · exact List.find?_cons_of_pos _ (by simp)
    · by_cases hb : kf b = kf a
      · exfalso
        have : kf a ∈ l.map kf := List.mem_map_of_mem kf ha'
        rw [List.map_cons, List.nodup_cons] at hnd
        exact hnd.1 (hb ▸ this)
      · rw [List.find?_cons_of_neg _ (by simp [hb])]
        exact ih (by rw [List.map_cons, List.nodup_cons] at hnd; exact hnd.2) ha'

lemma session_lookup_eq_of_mem {st : Scheduler}
    (hnd : (st.sessions.map (fun s => s.session_id)).Nodup) {s : LabSession}
    (hs : s ∈ st.sessions) : st.session_lookup s.session_id = some s :=
  find?_eq_of_mem_of_nodupKeys hnd hs

lemma findStudent_eq_of_mem {st : Scheduler}
    (hnd : (st.students.map (fun p => p.1)).Nodup) {p : String × Student}
    (hp : p ∈ st.students) : st.findStudent p.1 = some p.2 := by
  simp only [findStudent]
  rw [find?_eq_of_mem_of_nodupKeys hnd hp]
  rfl

end Scheduler

/-! ## The lexicographic score order -/

/-- `Scheduler.scoreLt` is the strict order of the lexicographic product. -/
lemma scoreLt_iff_lex (x y : ℚ × ℚ × ℚ × ℚ) :
    Scheduler.scoreLt x y = true ↔ lexScore x < lexScore y := by
  simp [Scheduler.scoreLt, lexScore, Prod.Lex.lt_iff, Bool.or_eq_true,
    Bool.and_eq_true, decide_eq_true_eq, beq_iff_eq]

lemma scoreLt_irrefl (x : ℚ × ℚ × ℚ × ℚ) : Scheduler.scoreLt x x = false := by
  rw [Bool.eq_false_iff, Ne, scoreLt_iff_lex]
  exact fun h => absurd h (lt_irrefl _)

lemma scoreLt_of_lt_of_not_lt {e b d : ℚ × ℚ × ℚ × ℚ}
    (h1 : Scheduler.scoreLt e b = true) (h2 : Scheduler.scoreLt d b = false) :
    Scheduler.scoreLt e d = true := by
  rw [scoreLt_iff_lex] at h1 ⊢
  rw [Bool.eq_false_iff, Ne, scoreLt_iff_lex] at h2
  exact lt_of_lt_of_le h1 (not_lt.mp h2)

lemma scoreLt_asymm {x y : ℚ × ℚ × ℚ × ℚ} (h : Scheduler.scoreLt x y = true) :
    Scheduler.scoreLt y x = false := by
  rw [scoreLt_iff_lex] at h
  rw [Bool.eq_false_iff, Ne, scoreLt_iff_lex]
  exact fun h2 => absurd h (asymm h2)

lemma scoreLt_false_trans {c b a : ℚ × ℚ × ℚ × ℚ}
    (h1 : Scheduler.scoreLt c b = false) (h2 : Scheduler.scoreLt b a = false) :
    Scheduler.scoreLt c a = false := by
  rw [Bool.eq_false_iff, Ne, scoreLt_iff_lex] at h1 h2 ⊢
  exact fun h => h1 (lt_of_lt_of_le h (not_lt.mp h2))

lemma scoreLt_trans {a b c : ℚ × ℚ × ℚ × ℚ} (h1 : Scheduler.scoreLt a b = true)
    (h2 : Scheduler.scoreLt b c = true) : Scheduler.scoreLt a c = true := by
  rw [scoreLt_iff_lex] at h1 h2 ⊢
  exact lt_trans h1 h2

lemma scoreLt_of_not_lt_of_lt {c r b : ℚ × ℚ × ℚ × ℚ}
    (h1 : Scheduler.scoreLt c r = false) (h2 : Scheduler.scoreLt c b = true) :
    Scheduler.scoreLt r b = true := by
  rw [Bool.eq_false_iff, Ne, scoreLt_iff_lex] at h1
  rw [scoreLt_iff_lex] at h2 ⊢
  exact lt_of_le_of_lt (not_lt.mp h1) h2

namespace Scheduler

lemma firstMinBy_mem (f : LabSession → ℚ × ℚ × ℚ × ℚ) (l : List LabSession) :
    ∀ best, firstMinBy f best l = best ∨ firstMinBy f best l ∈ l := by
  induction l with
  | nil => exact fun best => Or.inl rfl
  | cons c cs ih =>
    intro best
    simp only [firstMinBy]
    rcases ih (if scoreLt (f c) (f best) then c else best) with h | h
    · rw [h]
      split_ifs with hc
      · exact Or.inr (List.mem_cons_self c cs)
      · exact Or.inl rfl
    · exact Or.inr (List.mem_cons_of_mem c h)

lemma firstMinBy_min (f : LabSession → ℚ × ℚ × ℚ × ℚ) (l : List LabSession) :
    ∀ best, scoreLt (f best) (f (firstMinBy f best l)) = false ∧
      ∀ d ∈ l, scoreLt (f d) (f (firstMinBy f best l)) = false := by
  induction l with
  | nil => exact fun best => ⟨scoreLt_irrefl _, by simp⟩
  | cons c cs ih =>
    intro best
    simp only [firstMinBy]
    by_cases hc : scoreLt (f c) (f best) = true
    · rw [if_pos hc]
      obtain ⟨h1, h2⟩ := ih c
      refine ⟨?_, ?_⟩
      · rw [Bool.eq_false_iff, Ne]
        intro hb
        exact absurd (scoreLt_trans hc hb) (by rw [h1]; simp)
      · intro d hd
        rcases List.mem_cons.mp hd with rfl | hd'
        · exact h1
        · exact h2 d hd'
    · rw [if_neg hc]
      obtain ⟨h1, h2⟩ := ih best
      refine ⟨h1, ?_⟩
      intro d hd
      rcases List.mem_cons.mp hd with rfl | hd'
      · exact scoreLt_false_trans (Bool.eq_false_iff.mpr hc) h1
      · exact h2 d hd'

lemma firstMinBy_earliest (f : LabSession → ℚ × ℚ × ℚ × ℚ) (l : List LabSession) :
    ∀ best, ∃ l1 l2, best :: l = l1 ++ firstMinBy f best l :: l2 ∧
      ∀ d ∈ l1, scoreLt (f (firstMinBy f best l)) (f d) = true := by
  induction l with
  | nil => exact fun best => ⟨[], [], rfl, by simp⟩
  | cons c cs ih =>
    intro best
    simp only [firstMinBy]
    by_cases hc : scoreLt (f c) (f best) = true
    · rw [if_pos hc]
      obtain ⟨l1, l2, hdec, hlt⟩ := ih c
      refine ⟨best :: l1, l2, by rw [List.cons_append, ← hdec], ?_⟩
      intro d hd
      rcases List.mem_cons.mp hd with rfl | hd'
      · have hmin := (firstMinBy_min f cs c).1
        exact scoreLt_of_not_lt_of_lt hmin hc
      · exact hlt d hd'
    · rw [if_neg hc]
      obtain ⟨l1, l2, hdec, hlt⟩ := ih best
      cases l1 with
      | nil =>
        simp only [List.nil_append] at hdec
        obtain ⟨hb, hcs⟩ := List.cons_eq_cons.mp hdec
        refine ⟨[], c :: l2, ?_, by simp⟩
        rw [List.nil_append, ← hb]
        rw [hcs]
      | cons x t =>
        obtain ⟨hbx, htail⟩ := List.cons_eq_cons.mp hdec
        refine ⟨best :: c :: t, l2, ?_, ?_⟩
        · simp only [List.cons_append]
          conv_lhs => rw [htail]
          rfl
        · have hrb : scoreLt (f (firstMinBy f best cs)) (f best) = true := by
            apply hlt
            rw [hbx]
            exact List.mem_cons_self x t
          intro d hd
          rcases List.mem_cons.mp hd with rfl | hd2
          · exact hrb
          rcases List.mem_cons.mp hd2 with rfl | hd3
          · exact scoreLt_of_lt_of_not_lt hrb (Bool.eq_false_iff.mpr hc)
          · exact hlt d (List.mem_cons_of_mem x hd3)

end Scheduler

/-! ## C3: greedy selection -/

/-- C3. Whenever the constructor's inner loop commits a session for a
student whose accumulated hours are below target, the committed session (i)
belongs to the candidate set, which consists exactly of the sessions with
`remaining > 0`, a project not yet in `taken_projects` and no time conflict;
(ii) its score tuple is lexicographically minimal over all candidates; and
(iii) every candidate occurring earlier in the sessions iteration order has a
strictly larger score, i.e. ties go to the earliest candidate. -/
theorem constructor_pick_minimal (st : Scheduler) (key : String) (st1 : Scheduler)
    (sid : String) (cid : Int)
    (h : st.constructorStep key = some (st1, (sid, cid))) :
    ∃ stu chosen, st.findStudent key = some stu ∧
      st._student_hours stu < st._target_hours stu ∧
      sid = stu.student_id ∧ cid = chosen.session_id ∧
      st1 = st.commit key stu chosen ∧
      (∀ s : LabSession, s ∈ st._candidate_sessions stu ↔
        (s ∈ st.sessions ∧ s.remaining > 0 ∧ s.project_name ∉ stu.taken_projects ∧
          stu.has_conflict s.to_timeslot st = false)) ∧
      chosen ∈ st._candidate_sessions stu ∧
      (∀ d ∈ st._candidate_sessions stu,
        Scheduler.scoreLt (st._score stu d) (st._score stu chosen) = false) ∧
      ∃ l1 l2, st._candidate_sessions stu = l1 ++ chosen :: l2 ∧
        ∀ d ∈ l1, Scheduler.scoreLt (st._score stu chosen) (st._score stu d) = true := by
  unfold Scheduler.constructorStep at h
  cases heq : st.findStudent key with
  | none => rw [heq] at h; exact absurd h (by simp)
  | some stu =>
    rw [heq] at h
    dsimp only at h
    by_cases hlt : st._student_hours stu < st._target_hours stu
    · rw [if_pos hlt] at h
      cases hcc : Scheduler.chooseCandidate st stu with
      | none => rw [hcc] at h; exact absurd h (by simp)
      | some chosen =>
        rw [hcc] at h
        dsimp only at h
        simp only [Option.some.injEq, Prod.mk.injEq] at h
        obtain ⟨hst1, hsid, hcid⟩ := h
        refine ⟨stu, chosen, rfl, hlt, hsid.symm, hcid.symm, hst1.symm, ?_, ?_⟩
        · intro s
          simp only [Scheduler._candidate_sessions, List.mem_filter,
            Bool.and_eq_true, decide_eq_true_eq, Bool.not_eq_eq_eq_not,
            Bool.not_true, decide_eq_false_iff_not, Bool.not_eq_true']
          tauto
        · unfold Scheduler.chooseCandidate at hcc
          cases hcand : st._candidate_sessions stu with
          | nil => rw [hcand] at hcc; exact absurd hcc (by simp)
          | cons c cs =>
            rw [hcand] at hcc
            dsimp only at hcc
            simp only [Option.some.injEq] at hcc
            subst hcc
            obtain ⟨hm1, hm2⟩ := Scheduler.firstMinBy_min (st._score stu) cs c
            obtain ⟨l1, l2, hdec, hlt1⟩ := Scheduler.firstMinBy_earliest (st._score stu) cs c
            refine ⟨?_, ?_, l1, l2, hdec, hlt1⟩
            · rcases Scheduler.firstMinBy_mem (st._score stu) cs c with hm | hm
              · rw [hm]; exact List.mem_cons_self c cs
              · exact List.mem_cons_of_mem c hm
            · intro d hd
              rcases List.mem_cons.mp hd with rfl | hd'
              · exact hm1
              · exact hm2 d hd'
    · rw [if_neg hlt] at h
      exact absurd h (by simp)

/-- Witness for C3: in the one-student one-session state the constructor
step commits session 1 for student `a`. -/
theorem constructor_pick_minimal_witness :
    stW.constructorStep "a" = some (stW.commit "a" stuW sessW, ("a", 1)) ∧
      (∃ stu chosen, stW.findStudent "a" = some stu ∧
        stW._student_hours stu < stW._target_hours stu ∧
        "a" = stu.student_id ∧ 1 = chosen.session_id ∧
        stW.commit "a" stuW sessW = stW.commit "a" stu chosen ∧
        (∀ s : LabSession, s ∈ stW._candidate_sessions stu ↔
          (s ∈ stW.sessions ∧ s.remaining > 0 ∧ s.project_name ∉ stu.taken_projects ∧
            stu.has_conflict s.to_timeslot stW = false)) ∧
        chosen ∈ stW._candidate_sessions stu ∧
        (∀ d ∈ stW._candidate_sessions stu,
          Scheduler.scoreLt (stW._score stu d) (stW._score stu chosen) = false) ∧
        ∃ l1 l2, stW._candidate_sessions stu = l1 ++ chosen :: l2 ∧
          ∀ d ∈ l1, Scheduler.scoreLt (stW._score stu chosen) (stW._score stu d) = true) :=
  ⟨by decide, constructor_pick_minimal stW "a" (stW.commit "a" stuW sessW) "a" 1 (by decide)⟩

/-! ## C2: the shortfall report -/

/-- C2 (amended). The report emitted after a run contains `(sid, d)` exactly
when student `sid` has `d = required_hours_default - accumulated_hours > 0`:
the reporter measures every student against the global default
`self.required_hours`, not against the per-student fallback target used by
the constructor and the optimizer. -/
theorem report_unfilled_characterization (st : Scheduler) (sid : String) (d : Int) :
    (sid, d) ∈ st.report_unfilled ↔
      ∃ p ∈ st.students, p.1 = sid ∧
        d = st.required_hours - st._student_hours p.2 ∧ 0 < d := by
  simp only [Scheduler.report_unfilled, List.mem_filterMap]
  constructor
  · rintro ⟨p, hp, hf⟩
    by_cases hpos : st.required_hours - st._student_hours p.2 > 0
    · rw [if_pos hpos] at hf
      simp only [Option.some.injEq, Prod.mk.injEq] at hf
      exact ⟨p, hp, hf.1, hf.2.symm, hf.2 ▸ hpos⟩
    · rw [if_neg hpos] at hf
      cases hf
  · rintro ⟨p, hp, h1, h2, h3⟩
    subst h1
    subst h2
    exact ⟨p, hp, by rw [if_pos h3]⟩

/-- Counterexample for C2 as stated: after a full run, student `a` has 10
accumulated hours against a personal target of 10 (shortfall
`max(t - h, 0) = 0`, not under-served), yet the report flags the student
with a shortfall of 20 computed from the global default 30. -/
theorem report_unfilled_counterexample :
    ((runScheduler 0 stW).1.findStudent "a").map
        (fun stu => ((runScheduler 0 stW).1._student_hours stu,
          (runScheduler 0 stW).1._target_hours stu)) = some (10, 10) ∧
      (runScheduler 0 stW).1.report_unfilled = [("a", 20)] :=
  ⟨by decide, by decide⟩

/-! ## C9: determinism -/

/-- C9. The engine is deterministic: two runs with equal seed and equal
initial state (students, sessions, weights, configuration) produce the same
ordered commit list and the same final state. -/
theorem run_deterministic (seed1 seed2 : Int) (st1 st2 : Scheduler)
    (hs : seed1 = seed2) (hst : st1 = st2) :
    (runScheduler seed1 st1).2.1 = (runScheduler seed2 st2).2.1 ∧
      (runScheduler seed1 st1).1 = (runScheduler seed2 st2).1 := by
  subst hs
  subst hst
  exact ⟨rfl, rfl⟩

/-- Witness for C9 at seed 42 on the concrete one-student state. -/
theorem run_deterministic_witness :
    (42 : Int) = 42 ∧
      ((runScheduler 42 stW).2.1 = (runScheduler 42 stW).2.1 ∧
        (runScheduler 42 stW).1 = (runScheduler 42 stW).1) :=
  ⟨rfl, run_deterministic 42 42 stW stW rfl rfl⟩

/-! ## C5 and C6: the optimizer feasibility gate -/

attribute [local semireducible] Rat.mul Rat.add Rat.sub Rat.inv

namespace Scheduler

/-- Elimination form of the feasibility gate `_can_swap`. -/
lemma can_swap_elim {st : Scheduler} {a b : Student} {sA sB : LabSession}
    (h : st._can_swap a sA b sB = true) :
    sA.session_id ≠ sB.session_id ∧
      st._has_project a sB.project_name (some sA.session_id) = false ∧
      st._has_project b sA.project_name (some sB.session_id) = false ∧
      st._conflicts_with_other_assignments a sB (some sA.session_id) = false ∧
      st._conflicts_with_other_assignments b sA (some sB.session_id) = false ∧
      st._target_hours a ≤ st._student_hours a - sA.hours + sB.hours ∧
      st._target_hours b ≤ st._student_hours b - sB.hours + sA.hours := by
  unfold _can_swap at h
  simp only at h
  split_ifs at h with h1 h2 h3 h4 h5 h6 h7
  exact ⟨by simpa using h1, Bool.eq_false_iff.mpr h2, Bool.eq_false_iff.mpr h3,
    Bool.eq_false_iff.mpr h4, Bool.eq_false_iff.mpr h5,
    not_lt.mp h6, not_lt.mp h7⟩

/-- Introduction form of the feasibility gate `_can_swap`. -/
lemma can_swap_intro {st : Scheduler} {a b : Student} {sA sB : LabSession}
    (h1 : sA.session_id ≠ sB.session_id)
    (h2 : st._has_project a sB.project_name (some sA.session_id) = false)
    (h3 : st._has_project b sA.project_name (some sB.session_id) = false)
    (h4 : st._conflicts_with_other_assignments a sB (some sA.session_id) = false)
    (h5 : st._conflicts_with_other_assignments b sA (some sB.session_id) = false)
    (h6 : st._target_hours a ≤ st._student_hours a - sA.hours + sB.hours)
    (h7 : st._target_hours b ≤ st._student_hours b - sB.hours + sA.hours) :
    st._can_swap a sA b sB = true := by
  unfold _can_swap
  rw [if_neg (by simpa using h1), if_neg (by simp [h2]), if_neg (by simp [h3]),
    if_neg (by simp [h4]), if_neg (by simp [h5])]
  rw [if_neg (by simpa using not_lt.mpr h6), if_neg (by simpa using not_lt.mpr h7)]

end Scheduler

/-- C5. A swap trial that changes the state passed the whole feasibility
gate: the sampled session ids differ, both students and both sessions
resolve, neither student holds the project of the session they would receive
via an assignment other than the one given up, the received session
introduces no time conflict against the other remaining assignments and busy
slots, and both recomputed hour totals stay at or above the students'
targets. Contrapositively, a trial for which any condition fails is a
no-op. -/
theorem swap_trial_noop_unless_feasible (st : Scheduler) (keyA keyB : String)
    (sAId sBId : Int) (hne : st.swapTrial keyA keyB sAId sBId ≠ st) :
    sAId ≠ sBId ∧
      ∃ a b sA sB, st.findStudent keyA = some a ∧ st.findStudent keyB = some b ∧
        st.session_lookup sAId = some sA ∧ st.session_lookup sBId = some sB ∧
        st._has_project a sB.project_name (some sA.session_id) = false ∧
        st._has_project b sA.project_name (some sB.session_id) = false ∧
        st._conflicts_with_other_assignments a sB (some sA.session_id) = false ∧
        st._conflicts_with_other_assignments b sA (some sB.session_id) = false ∧
        st._target_hours a ≤ st._student_hours a - sA.hours + sB.hours ∧
        st._target_hours b ≤ st._student_hours b - sB.hours + sA.hours := by
  unfold Scheduler.swapTrial at hne
  by_cases hid : sAId == sBId
  · rw [if_pos hid] at hne
    exact absurd rfl hne
  · rw [if_neg hid] at hne
    refine ⟨by simpa using hid, ?_⟩
    cases ha : st.findStudent keyA with
    | none => rw [ha] at hne; exact absurd rfl hne
    | some a =>
      cases hb : st.findStudent keyB with
      | none => rw [ha, hb] at hne; exact absurd rfl hne
      | some b =>
        cases hsA : st.session_lookup sAId with
        | none => rw [ha, hb, hsA] at hne; exact absurd rfl hne
        | some sA =>
          cases hsB : st.session_lookup sBId with
          | none => rw [ha, hb, hsA, hsB] at hne; exact absurd rfl hne
          | some sB =>
            rw [ha, hb, hsA, hsB] at hne
            dsimp only at hne
            by_cases hcan : st._can_swap a sA b sB = true
            · obtain ⟨-, h2, h3, h4, h5, h6, h7⟩ := Scheduler.can_swap_elim hcan
              exact ⟨a, b, sA, sB, rfl, rfl, rfl, rfl, h2, h3, h4, h5, h6, h7⟩
            · rw [if_neg hcan] at hne
              exact absurd rfl hne

/-- Witness for C5: in the swap scenario the trial exchanging sessions 1 and
2 between students `a` and `b` does change the state, and all feasibility
conditions indeed hold. -/
theorem swap_trial_noop_unless_feasible_witness :
    stSwap.swapTrial "a" "b" 1 2 ≠ stSwap ∧
      ((1 : Int) ≠ 2 ∧
        ∃ a b sA sB, stSwap.findStudent "a" = some a ∧ stSwap.findStudent "b" = some b ∧
          stSwap.session_lookup 1 = some sA ∧ stSwap.session_lookup 2 = some sB ∧
          stSwap._has_project a sB.project_name (some sA.session_id) = false ∧
          stSwap._has_project b sA.project_name (some sB.session_id) = false ∧
          stSwap._conflicts_with_other_assignments a sB (some sA.session_id) = false ∧
          stSwap._conflicts_with_other_assignments b sA (some sB.session_id) = false ∧
          stSwap._target_hours a ≤ stSwap._student_hours a - sA.hours + sB.hours ∧
          stSwap._target_hours b ≤ stSwap._student_hours b - sB.hours + sA.hours) :=
  ⟨by decide, swap_trial_noop_unless_feasible stSwap "a" "b" 1 2 (by decide)⟩

/-- Counterexample for C6 as stated: in the swap scenario the project of the
received session (`P`) is already in the receiving student's
`taken_projects`, yet the trial is accepted and the state changes — because
the only assignment carrying `P` is exactly the session being given up. -/
theorem swap_taken_project_counterexample :
    sessSwapB.project_name ∈ stuSwapA.taken_projects ∧
      stSwap.findStudent "a" = some stuSwapA ∧
      stSwap.session_lookup 2 = some sessSwapB ∧
      stSwap.swapTrial "a" "b" 1 2 ≠ stSwap :=
  ⟨by decide, by decide, by decide, by decide⟩

/-- C6 (amended). A swap trial in which either student holds the project of
the session they would receive through an assignment *other than the one
given up* is rejected with no state change, regardless of any heterogeneity
improvement. -/
theorem swap_rejected_taken_project (st : Scheduler) (keyA keyB : String)
    (sAId sBId : Int) (a b : Student) (sA sB : LabSession)
    (ha : st.findStudent keyA = some a) (hb : st.findStudent keyB = some b)
    (hsA : st.session_lookup sAId = some sA) (hsB : st.session_lookup sBId = some sB)
    (hp : st._has_project a sB.project_name (some sA.session_id) = true ∨
      st._has_project b sA.project_name (some sB.session_id) = true) :
    st.swapTrial keyA keyB sAId sBId = st := by
  unfold Scheduler.swapTrial
  by_cases hid : sAId == sBId
  · rw [if_pos hid]
  · rw [if_neg hid, ha, hb, hsA, hsB]
    dsimp only
    have hcan : st._can_swap a sA b sB = false := by
      by_cases hids : sA.session_id == sB.session_id
      · unfold Scheduler._can_swap
        rw [if_pos hids]
      · unfold Scheduler._can_swap
        rw [if_neg hids]
        rcases hp with hp | hp
        · rw [if_pos hp]
        · rw [if_pos hp]
          split_ifs <;> rfl
    rw [if_neg (by simp [hcan])]

/-- Witness for the amended C6: student `a` gives up the `P` session 1 and
would receive the `Q` session 2, but already holds `Q` via session 3 — the
trial is a no-op. -/
theorem swap_rejected_taken_project_witness :
    stQ.findStudent "a" = some stuQA ∧ stQ.findStudent "b" = some stuQB ∧
      stQ.session_lookup 1 = some sessQ1 ∧ stQ.session_lookup 2 = some sessQ2 ∧
      stQ._has_project stuQA sessQ2.project_name (some sessQ1.session_id) = true ∧
      stQ.swapTrial "a" "b" 1 2 = stQ :=
  ⟨by decide, by decide, by decide, by decide, by decide,
    swap_rejected_taken_project stQ "a" "b" 1 2 stuQA stuQB sessQ1 sessQ2
      (by decide) (by decide) (by decide) (by decide) (Or.inl (by decide))⟩

/-! ## Preservation of well-formedness -/

namespace Scheduler

lemma commit_students (st : Scheduler) (key : String) (stu : Student)
    (chosen : LabSession) :
    (st.commit key stu chosen).students = st.students.map (fun p =>
      if p.1 == key then (p.1,
        { p.2 with assigned := p.2.assigned ++ [chosen.session_id],
                   taken_projects := insert chosen.project_name p.2.taken_projects })
      else p) := rfl

lemma commit_sessions (st : Scheduler) (key : String) (stu : Student)
    (chosen : LabSession) :
    (st.commit key stu chosen).sessions = st.sessions.map (fun s =>
      if s.session_id == chosen.session_id then
        { s with assigned_students := s.assigned_students ++ [stu.student_id] }
      else s) := rfl

lemma map_sessionId_roster_update (l : List LabSession) (sid : Int)
    (g : List String → List String) :
    (l.map (fun s => if s.session_id == sid then
        { s with assigned_students := g s.assigned_students } else s)).map
        (fun s => s.session_id) = l.map (fun s => s.session_id) := by
  rw [List.map_map]
  refine List.map_congr_left (fun s _ => ?_)
  show (if (s.session_id == sid) = true then
    { s with assigned_students := g s.assigned_students } else s).session_id =
    s.session_id
  split <;> rfl

lemma map_fst_student_update (l : List (String × Student)) (key : String)
    (f : Student → Student) :
    (l.map (fun p => if p.1 == key then (p.1, f p.2) else p)).map
        (fun p => p.1) = l.map (fun p => p.1) := by
  rw [List.map_map]
  refine List.map_congr_left (fun p _ => ?_)
  show (if (p.1 == key) = true then (p.1, f p.2) else p).1 = p.1
  split <;> rfl

lemma sessionId_commitIf (s : LabSession) (cid : Int) (x : String) :
    (if (s.session_id == cid) = true then
      { s with assigned_students := s.assigned_students ++ [x] } else s).session_id =
      s.session_id := by
  split <;> rfl

lemma projectName_commitIf (s : LabSession) (cid : Int) (x : String) :
    (if (s.session_id == cid) = true then
      { s with assigned_students := s.assigned_students ++ [x] } else s).project_name =
      s.project_name := by
  split <;> rfl

lemma roster_commitIf (s : LabSession) (cid : Int) (x : String) :
    (if (s.session_id == cid) = true then
      { s with assigned_students := s.assigned_students ++ [x] } else s).assigned_students =
      if (s.session_id == cid) = true then s.assigned_students ++ [x]
      else s.assigned_students := by
  split <;> rfl

lemma fst_commitIf (p : String × Student) (key : String) (cid : Int) (proj : String) :
    (if (p.1 == key) = true then (p.1,
      { p.2 with assigned := p.2.assigned ++ [cid],
                 taken_projects := insert proj p.2.taken_projects }) else p).1 = p.1 := by
  split <;> rfl

lemma snd_commitIf (p : String × Student) (key : String) (cid : Int) (proj : String) :
    (if (p.1 == key) = true then (p.1,
      { p.2 with assigned := p.2.assigned ++ [cid],
                 taken_projects := insert proj p.2.taken_projects }) else p).2 =
      if (p.1 == key) = true then
        { p.2 with assigned := p.2.assigned ++ [cid],
                   taken_projects := insert proj p.2.taken_projects }
      else p.2 := by
  split <;> rfl

lemma map_sessionId_commit (l : List LabSession) (cid : Int) (x : String) :
    ((l.map (fun s => if (s.session_id == cid) = true then
        { s with assigned_students := s.assigned_students ++ [x] } else s)).map
        (fun s => s.session_id)) = l.map (fun s => s.session_id) := by
  rw [List.map_map]
  refine List.map_congr_left (fun s _ => ?_)
  exact sessionId_commitIf s cid x

lemma map_fst_commit (l : List (String × Student)) (key : String) (cid : Int)
    (proj : String) :
    ((l.map (fun p => if (p.1 == key) = true then (p.1,
        { p.2 with assigned := p.2.assigned ++ [cid],
                   taken_projects := insert proj p.2.taken_projects }) else p)).map
        (fun p => p.1)) = l.map (fun p => p.1) := by
  rw [List.map_map]
  refine List.map_congr_left (fun p _ => ?_)
  exact fst_commitIf p key cid proj

/-- Unpacking of candidate membership. -/
lemma candidate_facts {st : Scheduler} {stu : Student} {chosen : LabSession}
    (hcand : chosen ∈ st._candidate_sessions stu) :
    chosen ∈ st.sessions ∧ 0 < chosen.remaining ∧
      chosen.project_name ∉ stu.taken_projects ∧
      stu.has_conflict chosen.to_timeslot st = false := by
  have h := List.mem_filter.mp hcand
  refine ⟨h.1, ?_⟩
  have h2 := h.2
  simp only [Bool.and_eq_true, decide_eq_true_eq, Bool.not_eq_eq_eq_not,
    Bool.not_true, decide_eq_false_iff_not, Bool.not_eq_true'] at h2
  exact ⟨h2.1.1, h2.1.2, h2.2⟩

lemma WFcore_commit {st : Scheduler} {key : String} {stu : Student} {chosen : LabSession}
    (hW : st.WFcore) (hstu : st.findStudent key = some stu)
    (hcand : chosen ∈ st._candidate_sessions stu) :
    (st.commit key stu chosen).WFcore := by
  obtain ⟨p0, hp0mem, hp0key, hp0val⟩ := findStudent_some hstu
  have hch := candidate_facts hcand
  have hstuid : stu.student_id = key := by
    rw [← hp0val, hW.keyMatch p0 hp0mem, hp0key]
  have hcid_not : chosen.session_id ∉ stu.assigned := by
    intro hmem
    exact hch.2.2.1 (hp0val ▸ hW.takenSup p0 hp0mem chosen.session_id
      (by rw [hp0val]; exact hmem) chosen hch.1 rfl)
  have hkey_not : ∀ sess ∈ st.sessions, sess.session_id = chosen.session_id →
      key ∉ sess.assigned_students := by
    intro sess hs hid hkey
    have := (hW.bidir p0 hp0mem sess hs).mpr (by rw [hp0key]; exact hkey)
    rw [hp0val, hid] at this
    exact hcid_not this
  refine ⟨?_, ?_, ?_, ?_, ?_, ?_, ?_, ?_⟩
  · rw [commit_sessions, map_sessionId_commit]
    exact hW.sessIds
  · rw [commit_students, map_fst_commit]
    exact hW.stuKeys
  · intro p' hp'
    rw [commit_students] at hp'
    obtain ⟨p, hp, rfl⟩ := List.mem_map.mp hp'
    rw [fst_commitIf, snd_commitIf]
    by_cases hb : (p.1 == key) = true
    · rw [if_pos hb]
      exact hW.keyMatch p hp
    · rw [if_neg hb]
      exact hW.keyMatch p hp
  · intro p' hp' sid hsid
    rw [commit_students] at hp'
    obtain ⟨p, hp, rfl⟩ := List.mem_map.mp hp'
    rw [snd_commitIf] at hsid
    rw [commit_sessions]
    have hold : ∀ t ∈ p.2.assigned ++ [chosen.session_id],
        ∃ sess ∈ (st.sessions.map (fun s => if s.session_id == chosen.session_id then
          { s with assigned_students := s.assigned_students ++ [stu.student_id] }
          else s)), sess.session_id = t := by
      intro t ht
      rcases List.mem_append.mp ht with ht' | ht'
      · obtain ⟨sess, hsess, hid⟩ := hW.assignedSess p hp t ht'
        exact ⟨_, List.mem_map_of_mem _ hsess,
          by rw [sessionId_commitIf]; exact hid⟩
      · rw [List.mem_singleton.mp ht']
        exact ⟨_, List.mem_map_of_mem _ hch.1, by rw [sessionId_commitIf]⟩
    by_cases hb : (p.1 == key) = true
    · rw [if_pos hb] at hsid
      exact hold sid hsid
    · rw [if_neg hb] at hsid
      exact hold sid (List.mem_append_left _ hsid)
  · intro p' hp'
    rw [commit_students] at hp'
    obtain ⟨p, hp, rfl⟩ := List.mem_map.mp hp'
    rw [snd_commitIf]
    by_cases hb : (p.1 == key) = true
    · rw [if_pos hb]
      have hpp0 : p = p0 :=
        List.inj_on_of_nodup_map hW.stuKeys hp hp0mem (by
          rw [hp0key]
          simpa using hb)
      simp only [List.nodup_append, List.nodup_cons, List.not_mem_nil,
        not_false_iff, List.nodup_nil, and_true, true_and]
      refine ⟨hW.assignedNodup p hp, ?_⟩
      intro x hx hx2
      rw [List.mem_singleton.mp hx2] at hx
      rw [hpp0, hp0val] at hx
      exact hcid_not hx
    · rw [if_neg hb]
      exact hW.assignedNodup p hp
  · intro sess' hsess'
    rw [commit_sessions] at hsess'
    obtain ⟨sess, hs, rfl⟩ := List.mem_map.mp hsess'
    rw [roster_commitIf]
    by_cases hb : (sess.session_id == chosen.session_id) = true
    · rw [if_pos hb]
      simp only [List.nodup_append, List.nodup_cons, List.not_mem_nil,
        not_false_iff, List.nodup_nil, and_true, true_and]
      refine ⟨hW.rosterNodup sess hs, ?_⟩
      intro x hx hx2
      rw [List.mem_singleton.mp hx2] at hx
      rw [hstuid] at hx
      exact hkey_not sess hs (by simpa using hb) hx
    · rw [if_neg hb]
      exact hW.rosterNodup sess hs
  · intro p' hp' sess' hsess'
    rw [commit_students] at hp'
    rw [commit_sessions] at hsess'
    obtain ⟨p, hp, rfl⟩ := List.mem_map.mp hp'
    obtain ⟨sess, hs, rfl⟩ := List.mem_map.mp hsess'
    have hbid := hW.bidir p hp sess hs
    rw [sessionId_commitIf, fst_commitIf, snd_commitIf, roster_commitIf]
    by_cases hpk : (p.1 == key) = true
    · have hpkeq : p.1 = key := by simpa using hpk
      by_cases hsid : (sess.session_id == chosen.session_id) = true
      · rw [if_pos hpk, if_pos hsid]
        simp only [List.mem_append, List.mem_singleton]
        constructor
        · intro _
          right
          rw [hpkeq, hstuid]
        · intro _
          right
          simpa using hsid
      · rw [if_pos hpk, if_neg hsid]
        simp only [List.mem_append, List.mem_singleton]
        constructor
        · rintro (hin | hin)
          · exact hbid.mp hin
          · exact absurd hin (by simpa using hsid)
        · intro hin
          exact Or.inl (hbid.mpr hin)
    · by_cases hsid : (sess.session_id == chosen.session_id) = true
      · rw [if_neg hpk, if_pos hsid]
        simp only [List.mem_append, List.mem_singleton]
        constructor
        · intro hin
          exact Or.inl (hbid.mp hin)
        · rintro (hin | hin)
          · exact hbid.mpr hin
          · rw [hstuid] at hin
            exact absurd hin (by simpa using hpk)
      · rw [if_neg hpk, if_neg hsid]
        exact hbid
  · intro p' hp' sid hsid sess' hsess' hid
    rw [commit_students] at hp'
    rw [commit_sessions] at hsess'
    obtain ⟨p, hp, rfl⟩ := List.mem_map.mp hp'
    obtain ⟨sess, hs, rfl⟩ := List.mem_map.mp hsess'
    rw [sessionId_commitIf] at hid
    rw [projectName_commitIf]
    rw [snd_commitIf] at hsid ⊢
    by_cases hpk : (p.1 == key) = true
    · rw [if_pos hpk] at hsid ⊢
      simp only at hsid ⊢
      rcases List.mem_append.mp hsid with hin | hin
      · exact Finset.mem_insert_of_mem (hW.takenSup p hp sid hin sess hs hid)
      · rw [List.mem_singleton.mp hin] at hid
        have hsc : sess = chosen :=
          List.inj_on_of_nodup_map hW.sessIds hs hch.1 hid
        rw [hsc]
        exact Finset.mem_insert_self _ _
    · rw [if_neg hpk] at hsid ⊢
      exact hW.takenSup p hp sid hsid sess hs hid

end Scheduler

/-! ## Normal form of the swap mutation -/

namespace Scheduler

lemma sessions_dropProject (st : Scheduler) (key proj : String) (removed : Int) :
    (st._drop_project_if_unused key proj removed).sessions = st.sessions := by
  unfold _drop_project_if_unused
  split
  · rfl
  · split <;> rfl

lemma sessions_updSessionRoster_eq (st : Scheduler) (sid : Int)
    (g : List String → List String) :
    (st.updSessionRoster sid g).sessions = st.sessions.map (fun s =>
      if s.session_id == sid then { s with assigned_students := g s.assigned_students }
      else s) := rfl

/-- Two single-id roster updates at distinct ids collapse to the two-branch
normal form. -/
lemma twoSessUpd_base (st : Scheduler) (idA idB : Int) (hAB : idA ≠ idB)
    (gA gB : List String → List String) :
    (st.updSessionRoster idA gA).updSessionRoster idB gB =
      { st with sessions := st.sessions.map (twoSessionUpd idA gA idB gB) } := by
  show ({ st with sessions := (st.sessions.map (fun s =>
      if s.session_id == idA then { s with assigned_students := gA s.assigned_students }
      else s)).map (fun s =>
      if s.session_id == idB then { s with assigned_students := gB s.assigned_students }
      else s) } : Scheduler) = _
  rw [List.map_map]
  congr 1
  refine List.map_congr_left (fun s _ => ?_)
  by_cases h1 : s.session_id = idA
  · simp [twoSessionUpd, h1, hAB]
  · by_cases h2 : s.session_id = idB
    · simp [twoSessionUpd, h1, h2, Ne.symm hAB]
    · simp [twoSessionUpd, h1, h2]

/-- Two single-key student updates at distinct keys collapse to the
two-branch normal form. -/
lemma twoUpd_base (st : Scheduler) (keyA keyB : String) (hAB : keyA ≠ keyB)
    (fA fB : Student → Student) :
    (st.updStudentAt keyA fA).updStudentAt keyB fB = twoStuState st keyA fA keyB fB := by
  unfold twoStuState
  show ({ st with students := (st.students.map (fun p =>
      if p.1 == keyA then (p.1, fA p.2) else p)).map (fun p =>
      if p.1 == keyB then (p.1, fB p.2) else p) } : Scheduler) = _
  rw [List.map_map]
  congr 1
  refine List.map_congr_left (fun p _ => ?_)
  by_cases h1 : p.1 = keyA
  · simp [twoStudentUpd, h1, hAB]
  · by_cases h2 : p.1 = keyB
    · simp [twoStudentUpd, h1, h2, Ne.symm hAB]
    · simp [twoStudentUpd, h1, h2]

/-- Absorbing a later update of the first key into the normal form. -/
lemma twoUpd_absorbA (st : Scheduler) (keyA keyB : String) (hAB : keyA ≠ keyB)
    (fA fB : Student → Student) (g : Student → Student) :
    (twoStuState st keyA fA keyB fB).updStudentAt keyA g =
      twoStuState st keyA (fun x => g (fA x)) keyB fB := by
  unfold twoStuState
  show ({ st with students := ((st.students.map (twoStudentUpd keyA fA keyB fB)).map (fun p => if p.1 == keyA then (p.1, g p.2) else p)) } : Scheduler) = _
  rw [List.map_map]
  congr 1
  refine List.map_congr_left (fun p _ => ?_)
  by_cases h1 : p.1 = keyA
  · simp [twoStudentUpd, h1, hAB]
  · by_cases h2 : p.1 = keyB
    · simp [twoStudentUpd, h1, h2, Ne.symm hAB]
    · simp [twoStudentUpd, h1, h2]

/-- Absorbing a later update of the second key into the normal form. -/
lemma twoUpd_absorbB (st : Scheduler) (keyA keyB : String) (hAB : keyA ≠ keyB)
    (fA fB : Student → Student) (g : Student → Student) :
    (twoStuState st keyA fA keyB fB).updStudentAt keyB g =
      twoStuState st keyA fA keyB (fun x => g (fB x)) := by
  unfold twoStuState
  show ({ st with students := ((st.students.map (twoStudentUpd keyA fA keyB fB)).map (fun p => if p.1 == keyB then (p.1, g p.2) else p)) } : Scheduler) = _
  rw [List.map_map]
  congr 1
  refine List.map_congr_left (fun p _ => ?_)
  by_cases h1 : p.1 = keyA
  · simp [twoStudentUpd, h1, hAB]
  · by_cases h2 : p.1 = keyB
    · simp [twoStudentUpd, h1, h2, Ne.symm hAB]
    · simp [twoStudentUpd, h1, h2]

end Scheduler

namespace Scheduler

lemma twoSessUpd_base_state (st : Scheduler) (idA idB : Int) (hAB : idA ≠ idB)
    (gA gB : List String → List String) :
    (st.updSessionRoster idA gA).updSessionRoster idB gB =
      twoSessState st idA gA idB gB :=
  twoSessUpd_base st idA idB hAB gA gB

/-- Absorbing a later roster update of the first id into the normal form. -/
lemma twoSessUpd_absorbA (st : Scheduler) (idA idB : Int) (hAB : idA ≠ idB)
    (gA gB g : List String → List String) :
    (twoSessState st idA gA idB gB).updSessionRoster idA g =
      twoSessState st idA (fun x => g (gA x)) idB gB := by
  unfold twoSessState
  show ({ st with sessions := ((st.sessions.map (twoSessionUpd idA gA idB gB)).map (fun s => if s.session_id == idA then { s with assigned_students := g s.assigned_students } else s)) } : Scheduler) = _
  rw [List.map_map]
  congr 1
  refine List.map_congr_left (fun s _ => ?_)
  by_cases h1 : s.session_id = idA
  · simp [twoSessionUpd, h1, hAB]
  · by_cases h2 : s.session_id = idB
    · simp [twoSessionUpd, h1, h2, Ne.symm hAB]
    · simp [twoSessionUpd, h1, h2]

/-- Absorbing a later roster update of the second id into the normal form. -/
lemma twoSessUpd_absorbB (st : Scheduler) (idA idB : Int) (hAB : idA ≠ idB)
    (gA gB g : List String → List String) :
    (twoSessState st idA gA idB gB).updSessionRoster idB g =
      twoSessState st idA gA idB (fun x => g (gB x)) := by
  unfold twoSessState
  show ({ st with sessions := ((st.sessions.map (twoSessionUpd idA gA idB gB)).map (fun s => if s.session_id == idB then { s with assigned_students := g s.assigned_students } else s)) } : Scheduler) = _
  rw [List.map_map]
  congr 1
  refine List.map_congr_left (fun s _ => ?_)
  by_cases h1 : s.session_id = idA
  · simp [twoSessionUpd, h1, hAB]
  · by_cases h2 : s.session_id = idB
    · simp [twoSessionUpd, h1, h2, Ne.symm hAB]
    · simp [twoSessionUpd, h1, h2]

lemma findStudent_twoStuState_A (X : Scheduler) (keyA keyB : String)
    (hAB : keyA ≠ keyB) (fA fB : Student → Student) :
    (twoStuState X keyA fA keyB fB).findStudent keyA = (X.findStudent keyA).map fA := by
  rw [← twoUpd_base X keyA keyB hAB fA fB, findStudent_updStudentAt,
    if_neg hAB, findStudent_updStudentAt, if_pos rfl]

lemma findStudent_twoStuState_B (X : Scheduler) (keyA keyB : String)
    (hAB : keyA ≠ keyB) (fA fB : Student → Student) :
    (twoStuState X keyA fA keyB fB).findStudent keyB = (X.findStudent keyB).map fB := by
  rw [← twoUpd_base X keyA keyB hAB fA fB, findStudent_updStudentAt, if_pos rfl,
    findStudent_updStudentAt, if_neg (Ne.symm hAB)]

lemma session_lookup_twoSessState (st : Scheduler) (idA idB : Int) (hAB : idA ≠ idB)
    (gA gB : List String → List String) (k : Int) :
    (twoSessState st idA gA idB gB).session_lookup k =
      if k = idA then (st.session_lookup k).map
        (fun s => { s with assigned_students := gA s.assigned_students })
      else if k = idB then (st.session_lookup k).map
        (fun s => { s with assigned_students := gB s.assigned_students })
      else st.session_lookup k := by
  rw [← twoSessUpd_base_state st idA idB hAB gA gB, session_lookup_updSessionRoster,
    session_lookup_updSessionRoster]
  by_cases h1 : k = idA
  · subst h1
    simp [hAB]
  · by_cases h2 : k = idB
    · subst h2
      simp [h1]
    · simp [h1, h2]

lemma projectIs_twoSessState (st : Scheduler) (idA idB : Int) (hAB : idA ≠ idB)
    (gA gB : List String → List String) (k : Int) (name : String) :
    (twoSessState st idA gA idB gB).projectIs k name = st.projectIs k name := by
  rw [← twoSessUpd_base_state st idA idB hAB gA gB, projectIs_updSessionRoster,
    projectIs_updSessionRoster]

lemma slotOf_twoSessState (st : Scheduler) (idA idB : Int) (hAB : idA ≠ idB)
    (gA gB : List String → List String) (k : Int) :
    (twoSessState st idA gA idB gB).slotOf k = st.slotOf k := by
  rw [← twoSessUpd_base_state st idA idB hAB gA gB, slotOf_updSessionRoster,
    slotOf_updSessionRoster]

lemma hoursOf_twoSessState (st : Scheduler) (idA idB : Int) (hAB : idA ≠ idB)
    (gA gB : List String → List String) (k : Int) :
    (twoSessState st idA gA idB gB).hoursOf k = st.hoursOf k := by
  rw [← twoSessUpd_base_state st idA idB hAB gA gB, hoursOf_updSessionRoster,
    hoursOf_updSessionRoster]

/-- Generic evaluation of `_drop_project_if_unused` once the student lookup
is known. -/
lemma dropProject_eq_general (st' : Scheduler) (key : String) (proj : String)
    (removed : Int) (stu1 : Student) (h : st'.findStudent key = some stu1) :
    st'._drop_project_if_unused key proj removed =
      if stu1.assigned.any (fun sid => !(sid == removed) && st'.projectIs sid proj)
      then st'
      else st'.updStudentAt key
        (fun s => { s with taken_projects := s.taken_projects.erase proj }) := by
  unfold _drop_project_if_unused
  rw [h]

end Scheduler

namespace Scheduler

/-- Replacing the two touched students' transforms by any functions that
agree on the two stored students. -/
lemma twoStuState_congr (X : Scheduler) (keyA keyB : String) (a b : Student)
    (ha : X.findStudent keyA = some a) (hb : X.findStudent keyB = some b)
    (hnd : (X.students.map (fun p => p.1)).Nodup)
    (F G F2 G2 : Student → Student) (hFa : F a = F2 a) (hGb : G b = G2 b) :
    twoStuState X keyA F keyB G = twoStuState X keyA F2 keyB G2 := by
  unfold twoStuState
  congr 1
  refine List.map_congr_left (fun p hp => ?_)
  obtain ⟨qa, hqa, hqa1, hqa2⟩ := findStudent_some ha
  obtain ⟨qb, hqb, hqb1, hqb2⟩ := findStudent_some hb
  unfold twoStudentUpd
  by_cases h1 : (p.1 == keyA) = true
  · have hpq : p = qa := List.inj_on_of_nodup_map hnd hp hqa
      (by rw [hqa1]; simpa using h1)
    rw [if_pos h1, if_pos h1, hpq, hqa2, hFa]
  · rw [if_neg h1, if_neg h1]
    by_cases h2 : (p.1 == keyB) = true
    · have hpq : p = qb := List.inj_on_of_nodup_map hnd hp hqb
        (by rw [hqb1]; simpa using h2)
      rw [if_pos h2, if_pos h2, hpq, hqb2, hGb]
    · rw [if_neg h2, if_neg h2]

/-- The whole student-side of `_perform_swap` (assignment exchanges, project
drops and project inserts) collapses to the two-branch normal form with the
`swapTaken` project sets. -/
lemma swap_student_chain (X : Scheduler) (keyA keyB : String) (a b : Student)
    (sA sB : LabSession) (hAB : keyA ≠ keyB)
    (ha : X.findStudent keyA = some a) (hb : X.findStudent keyB = some b)
    (hnd : (X.students.map (fun p => p.1)).Nodup) :
    updStudentAt (updStudentAt (_drop_project_if_unused (_drop_project_if_unused
      (updStudentAt (updStudentAt X keyA
        (fun s => { s with assigned := (s.assigned.erase sA.session_id) ++ [sB.session_id] }))
        keyB
        (fun s => { s with assigned := (s.assigned.erase sB.session_id) ++ [sA.session_id] }))
      keyA sA.project_name sA.session_id) keyB sB.project_name sB.session_id)
      keyA (fun s => { s with taken_projects := insert sB.project_name s.taken_projects }))
      keyB (fun s => { s with taken_projects := insert sA.project_name s.taken_projects }) =
    twoStuState X keyA (swapStuA sA sB (swapTakenA X a sA sB))
      keyB (swapStuB sA sB (swapTakenB X b sA sB)) := by
  rw [twoUpd_base X keyA keyB hAB]
  have hfa : (twoStuState X keyA
      (fun s => { s with assigned := (s.assigned.erase sA.session_id) ++ [sB.session_id] })
      keyB
      (fun s => { s with assigned := (s.assigned.erase sB.session_id) ++ [sA.session_id] })).findStudent keyA =
      some { a with assigned := (a.assigned.erase sA.session_id) ++ [sB.session_id] } := by
    rw [findStudent_twoStuState_A X keyA keyB hAB, ha]
    rfl
  rw [dropProject_eq_general _ keyA sA.project_name sA.session_id _ hfa]
  have hcondA : ({ a with assigned := (a.assigned.erase sA.session_id) ++ [sB.session_id] } :
      Student).assigned.any (fun sid => !(sid == sA.session_id) &&
        ((twoStuState X keyA
          (fun s => { s with assigned := (s.assigned.erase sA.session_id) ++ [sB.session_id] })
          keyB
          (fun s => { s with assigned := (s.assigned.erase sB.session_id) ++ [sA.session_id] })).projectIs
          sid sA.project_name)) = dropCondA X a sA sB := rfl
  rw [hcondA]
  by_cases hdA : dropCondA X a sA sB = true
  · rw [if_pos hdA]
    have hfb : (twoStuState X keyA
        (fun s => { s with assigned := (s.assigned.erase sA.session_id) ++ [sB.session_id] })
        keyB
        (fun s => { s with assigned := (s.assigned.erase sB.session_id) ++ [sA.session_id] })).findStudent keyB =
        some { b with assigned := (b.assigned.erase sB.session_id) ++ [sA.session_id] } := by
      rw [findStudent_twoStuState_B X keyA keyB hAB, hb]
      rfl
    rw [dropProject_eq_general _ keyB sB.project_name sB.session_id _ hfb]
    have hcondB : ({ b with assigned := (b.assigned.erase sB.session_id) ++ [sA.session_id] } :
        Student).assigned.any (fun sid => !(sid == sB.session_id) &&
          ((twoStuState X keyA
            (fun s => { s with assigned := (s.assigned.erase sA.session_id) ++ [sB.session_id] })
            keyB
            (fun s => { s with assigned := (s.assigned.erase sB.session_id) ++ [sA.session_id] })).projectIs
            sid sB.project_name)) = dropCondB X b sA sB := rfl
    rw [hcondB]
    by_cases hdB : dropCondB X b sA sB = true
    · rw [if_pos hdB, twoUpd_absorbA X keyA keyB hAB, twoUpd_absorbB X keyA keyB hAB]
      refine twoStuState_congr X keyA keyB a b ha hb hnd _ _ _ _ ?_ ?_
      · show ({ a with
          assigned := (a.assigned.erase sA.session_id) ++ [sB.session_id],
          taken_projects := insert sB.project_name a.taken_projects } : Student) = _
        unfold swapStuA swapTakenA
        rw [if_pos hdA]
      · show ({ b with
          assigned := (b.assigned.erase sB.session_id) ++ [sA.session_id],
          taken_projects := insert sA.project_name b.taken_projects } : Student) = _
        unfold swapStuB swapTakenB
        rw [if_pos hdB]
    · rw [if_neg hdB, twoUpd_absorbB X keyA keyB hAB, twoUpd_absorbA X keyA keyB hAB,
        twoUpd_absorbB X keyA keyB hAB]
      refine twoStuState_congr X keyA keyB a b ha hb hnd _ _ _ _ ?_ ?_
      · show ({ a with
          assigned := (a.assigned.erase sA.session_id) ++ [sB.session_id],
          taken_projects := insert sB.project_name a.taken_projects } : Student) = _
        unfold swapStuA swapTakenA
        rw [if_pos hdA]
      · show ({ b with
          assigned := (b.assigned.erase sB.session_id) ++ [sA.session_id],
          taken_projects := insert sA.project_name
            (b.taken_projects.erase sB.project_name) } : Student) = _
        unfold swapStuB swapTakenB
        rw [if_neg hdB]
  · rw [if_neg hdA, twoUpd_absorbA X keyA keyB hAB]
    have hfb : (twoStuState X keyA
        (fun x => { x with
          assigned := (x.assigned.erase sA.session_id) ++ [sB.session_id],
          taken_projects := x.taken_projects.erase sA.project_name })
        keyB
        (fun s => { s with assigned := (s.assigned.erase sB.session_id) ++ [sA.session_id] })).findStudent keyB =
        some { b with assigned := (b.assigned.erase sB.session_id) ++ [sA.session_id] } := by
      rw [findStudent_twoStuState_B X keyA keyB hAB, hb]
      rfl
    rw [dropProject_eq_general _ keyB sB.project_name sB.session_id _ hfb]
    have hcondB : ({ b with assigned := (b.assigned.erase sB.session_id) ++ [sA.session_id] } :
        Student).assigned.any (fun sid => !(sid == sB.session_id) &&
          ((twoStuState X keyA
            (fun x => { x with
              assigned := (x.assigned.erase sA.session_id) ++ [sB.session_id],
              taken_projects := x.taken_projects.erase sA.project_name })
            keyB
            (fun s => { s with assigned := (s.assigned.erase sB.session_id) ++ [sA.session_id] })).projectIs
            sid sB.project_name)) = dropCondB X b sA sB := rfl
    rw [hcondB]
    by_cases hdB : dropCondB X b sA sB = true
    · rw [if_pos hdB, twoUpd_absorbA X keyA keyB hAB, twoUpd_absorbB X keyA keyB hAB]
      refine twoStuState_congr X keyA keyB a b ha hb hnd _ _ _ _ ?_ ?_
      · show ({ a with
          assigned := (a.assigned.erase sA.session_id) ++ [sB.session_id],
          taken_projects := insert sB.project_name
            (a.taken_projects.erase sA.project_name) } : Student) = _
        unfold swapStuA swapTakenA
        rw [if_neg hdA]
      · show ({ b with
          assigned := (b.assigned.erase sB.session_id) ++ [sA.session_id],
          taken_projects := insert sA.project_name b.taken_projects } : Student) = _
        unfold swapStuB swapTakenB
        rw [if_pos hdB]
    · rw [if_neg hdB, twoUpd_absorbB X keyA keyB hAB, twoUpd_absorbA X keyA keyB hAB,
        twoUpd_absorbB X keyA keyB hAB]
      refine twoStuState_congr X keyA keyB a b ha hb hnd _ _ _ _ ?_ ?_
      · show ({ a with
          assigned := (a.assigned.erase sA.session_id) ++ [sB.session_id],
          taken_projects := insert sB.project_name
            (a.taken_projects.erase sA.project_name) } : Student) = _
        unfold swapStuA swapTakenA
        rw [if_neg hdA]
      · show ({ b with
          assigned := (b.assigned.erase sB.session_id) ++ [sA.session_id],
          taken_projects := insert sA.project_name
            (b.taken_projects.erase sB.project_name) } : Student) = _
        unfold swapStuB swapTakenB
        rw [if_neg hdB]

end Scheduler

namespace Scheduler

lemma swapTakenA_twoSessState (st : Scheduler) (idA idB : Int) (hAB : idA ≠ idB)
    (gA gB : List String → List String) (a : Student) (sA sB : LabSession) :
    swapTakenA (twoSessState st idA gA idB gB) a sA sB = swapTakenA st a sA sB := by
  unfold swapTakenA dropCondA
  simp only [projectIs_twoSessState st idA idB hAB]

lemma swapTakenB_twoSessState (st : Scheduler) (idA idB : Int) (hAB : idA ≠ idB)
    (gA gB : List String → List String) (b : Student) (sA sB : LabSession) :
    swapTakenB (twoSessState st idA gA idB gB) b sA sB = swapTakenB st b sA sB := by
  unfold swapTakenB dropCondB
  simp only [projectIs_twoSessState st idA idB hAB]

/-- `_perform_swap` equals its closed normal form. -/
lemma performSwap_eq {st : Scheduler} {keyA keyB : String} {a b : Student}
    {sA sB : LabSession} (hAB : keyA ≠ keyB) (hidAB : sA.session_id ≠ sB.session_id)
    (ha : st.findStudent keyA = some a) (hb : st.findStudent keyB = some b)
    (hnd : (st.students.map (fun p => p.1)).Nodup) :
    st._perform_swap keyA keyB a sA b sB =
      swapOutcome st keyA keyB a b sA sB (swapTakenA st a sA sB) (swapTakenB st b sA sB) := by
  show updStudentAt (updStudentAt (_drop_project_if_unused (_drop_project_if_unused
      (updStudentAt (updStudentAt (updSessionRoster (updSessionRoster (updSessionRoster
        (updSessionRoster st sA.session_id (fun r => r.erase a.student_id))
        sB.session_id (fun r => r.erase b.student_id))
        sA.session_id (fun r => r ++ [b.student_id]))
        sB.session_id (fun r => r ++ [a.student_id]))
        keyA
        (fun s => { s with assigned := (s.assigned.erase sA.session_id) ++ [sB.session_id] }))
        keyB
        (fun s => { s with assigned := (s.assigned.erase sB.session_id) ++ [sA.session_id] }))
      keyA sA.project_name sA.session_id) keyB sB.project_name sB.session_id)
      keyA (fun s => { s with taken_projects := insert sB.project_name s.taken_projects }))
      keyB (fun s => { s with taken_projects := insert sA.project_name s.taken_projects }) = _
  rw [twoSessUpd_base_state st sA.session_id sB.session_id hidAB,
    twoSessUpd_absorbA st sA.session_id sB.session_id hidAB,
    twoSessUpd_absorbB st sA.session_id sB.session_id hidAB]
  have haQ : (twoSessState st sA.session_id
      (fun x => (x.erase a.student_id) ++ [b.student_id]) sB.session_id
      (fun x => (x.erase b.student_id) ++ [a.student_id])).findStudent keyA = some a := ha
  have hbQ : (twoSessState st sA.session_id
      (fun x => (x.erase a.student_id) ++ [b.student_id]) sB.session_id
      (fun x => (x.erase b.student_id) ++ [a.student_id])).findStudent keyB = some b := hb
  have hndQ : ((twoSessState st sA.session_id
      (fun x => (x.erase a.student_id) ++ [b.student_id]) sB.session_id
      (fun x => (x.erase b.student_id) ++ [a.student_id])).students.map
      (fun p => p.1)).Nodup := hnd
  rw [swap_student_chain _ keyA keyB a b sA sB hAB haQ hbQ hndQ,
    swapTakenA_twoSessState st sA.session_id sB.session_id hidAB,
    swapTakenB_twoSessState st sA.session_id sB.session_id hidAB]
  rfl

end Scheduler

/-- `conflictFreeSlots` is pairwise non-conflict. -/
lemma conflictFreeSlots_iff_pairwise (l : List TimeSlot) :
    conflictFreeSlots l = true ↔ l.Pairwise (fun a b => a.conflicts_with b = false) := by
  induction l with
  | nil => simp [conflictFreeSlots]
  | cons s rest ih =>
    simp only [conflictFreeSlots, Bool.and_eq_true, List.all_eq_true,
      Bool.not_eq_eq_eq_not, Bool.not_true, List.pairwise_cons, ih]

namespace Scheduler

lemma fst_twoStudentUpd (keyA keyB : String) (fA fB : Student → Student)
    (p : String × Student) : (twoStudentUpd keyA fA keyB fB p).1 = p.1 := by
  unfold twoStudentUpd
  by_cases h1 : (p.1 == keyA) = true
  · rw [if_pos h1]
  · rw [if_neg h1]
    by_cases h2 : (p.1 == keyB) = true
    · rw [if_pos h2]
    · rw [if_neg h2]

lemma snd_twoStudentUpd (keyA keyB : String) (fA fB : Student → Student)
    (p : String × Student) : (twoStudentUpd keyA fA keyB fB p).2 =
      if (p.1 == keyA) = true then fA p.2
      else if (p.1 == keyB) = true then fB p.2 else p.2 := by
  unfold twoStudentUpd
  by_cases h1 : (p.1 == keyA) = true
  · rw [if_pos h1, if_pos h1]
  · rw [if_neg h1, if_neg h1]
    by_cases h2 : (p.1 == keyB) = true
    · rw [if_pos h2, if_pos h2]
    · rw [if_neg h2, if_neg h2]

lemma sessionId_twoSessionUpd (idA idB : Int) (gA gB : List String → List String)
    (s : LabSession) : (twoSessionUpd idA gA idB gB s).session_id = s.session_id := by
  unfold twoSessionUpd
  by_cases h1 : (s.session_id == idA) = true
  · rw [if_pos h1]
  · rw [if_neg h1]
    by_cases h2 : (s.session_id == idB) = true
    · rw [if_pos h2]
    · rw [if_neg h2]

lemma projectName_twoSessionUpd (idA idB : Int) (gA gB : List String → List String)
    (s : LabSession) : (twoSessionUpd idA gA idB gB s).project_name = s.project_name := by
  unfold twoSessionUpd
  by_cases h1 : (s.session_id == idA) = true
  · rw [if_pos h1]
  · rw [if_neg h1]
    by_cases h2 : (s.session_id == idB) = true
    · rw [if_pos h2]
    · rw [if_neg h2]

lemma roster_twoSessionUpd (idA idB : Int) (gA gB : List String → List String)
    (s : LabSession) : (twoSessionUpd idA gA idB gB s).assigned_students =
      if (s.session_id == idA) = true then gA s.assigned_students
      else if (s.session_id == idB) = true then gB s.assigned_students
      else s.assigned_students := by
  unfold twoSessionUpd
  by_cases h1 : (s.session_id == idA) = true
  · rw [if_pos h1, if_pos h1]
  · rw [if_neg h1, if_neg h1]
    by_cases h2 : (s.session_id == idB) = true
    · rw [if_pos h2, if_pos h2]
    · rw [if_neg h2, if_neg h2]

lemma map_fst_twoStudentUpd (l : List (String × Student)) (keyA keyB : String)
    (fA fB : Student → Student) :
    (l.map (twoStudentUpd keyA fA keyB fB)).map (fun p => p.1) = l.map (fun p => p.1) := by
  rw [List.map_map]
  exact List.map_congr_left (fun p _ => fst_twoStudentUpd keyA keyB fA fB p)

lemma map_sessionId_twoSessionUpd (l : List LabSession) (idA idB : Int)
    (gA gB : List String → List String) :
    (l.map (twoSessionUpd idA gA idB gB)).map (fun s => s.session_id) =
      l.map (fun s => s.session_id) := by
  rw [List.map_map]
  exact List.map_congr_left (fun s _ => sessionId_twoSessionUpd idA idB gA gB s)

end Scheduler

namespace Scheduler

lemma swapOutcome_students (st : Scheduler) (keyA keyB : String) (a b : Student)
    (sA sB : LabSession) (TA TB : Finset String) :
    (swapOutcome st keyA keyB a b sA sB TA TB).students =
      st.students.map (twoStudentUpd keyA (swapStuA sA sB TA) keyB (swapStuB sA sB TB)) := rfl

lemma swapOutcome_sessions (st : Scheduler) (keyA keyB : String) (a b : Student)
    (sA sB : LabSession) (TA TB : Finset String) :
    (swapOutcome st keyA keyB a b sA sB TA TB).sessions =
      st.sessions.map (twoSessionUpd sA.session_id
        (fun r => (r.erase a.student_id) ++ [b.student_id]) sB.session_id
        (fun r => (r.erase b.student_id) ++ [a.student_id])) := rfl

lemma swapStuA_assigned (sA sB : LabSession) (TA : Finset String) (x : Student) :
    (swapStuA sA sB TA x).assigned = (x.assigned.erase sA.session_id) ++ [sB.session_id] := rfl

lemma swapStuB_assigned (sA sB : LabSession) (TB : Finset String) (x : Student) :
    (swapStuB sA sB TB x).assigned = (x.assigned.erase sB.session_id) ++ [sA.session_id] := rfl

lemma swapStuA_taken (sA sB : LabSession) (TA : Finset String) (x : Student) :
    (swapStuA sA sB TA x).taken_projects = TA := rfl

lemma swapStuB_taken (sA sB : LabSession) (TB : Finset String) (x : Student) :
    (swapStuB sA sB TB x).taken_projects = TB := rfl

lemma swapStuA_sid (sA sB : LabSession) (TA : Finset String) (x : Student) :
    (swapStuA sA sB TA x).student_id = x.student_id := rfl

lemma swapStuB_sid (sA sB : LabSession) (TB : Finset String) (x : Student) :
    (swapStuB sA sB TB x).student_id = x.student_id := rfl

lemma WFcore_swapOutcome
    {st : Scheduler} {keyA keyB : String} {a b : Student} {sA sB : LabSession}
    {TA TB : Finset String}
    (hW : st.WFcore) (hAB : keyA ≠ keyB)
    (ha : st.findStudent keyA = some a) (hb : st.findStudent keyB = some b)
    (hsAmem : sA ∈ st.sessions) (hsBmem : sB ∈ st.sessions)
    (hidAB : sA.session_id ≠ sB.session_id)
    (hmemA : sA.session_id ∈ a.assigned) (hmemB : sB.session_id ∈ b.assigned)
    (hnotA : sB.session_id ∉ a.assigned) (hnotB : sA.session_id ∉ b.assigned)
    (hTA : ∀ sid ∈ (a.assigned.erase sA.session_id) ++ [sB.session_id],
      ∀ sess ∈ st.sessions, sess.session_id = sid → sess.project_name ∈ TA)
    (hTB : ∀ sid ∈ (b.assigned.erase sB.session_id) ++ [sA.session_id],
      ∀ sess ∈ st.sessions, sess.session_id = sid → sess.project_name ∈ TB) :
    (swapOutcome st keyA keyB a b sA sB TA TB).WFcore := by
  obtain ⟨pa, hpamem, hpa1, hpa2⟩ := findStudent_some ha
  obtain ⟨pb, hpbmem, hpb1, hpb2⟩ := findStudent_some hb
  have haid : a.student_id = keyA := by rw [← hpa2, hW.keyMatch pa hpamem, hpa1]
  have hbid : b.student_id = keyB := by rw [← hpb2, hW.keyMatch pb hpbmem, hpb1]
  have hstuA : ∀ p ∈ st.students, p.1 = keyA → p.2 = a := by
    intro p hp h
    have : p = pa := List.inj_on_of_nodup_map hW.stuKeys hp hpamem (by rw [h, hpa1])
    rw [this, hpa2]
  have hstuB : ∀ p ∈ st.students, p.1 = keyB → p.2 = b := by
    intro p hp h
    have : p = pb := List.inj_on_of_nodup_map hW.stuKeys hp hpbmem (by rw [h, hpb1])
    rw [this, hpb2]
  have hsessA : ∀ s ∈ st.sessions, s.session_id = sA.session_id → s = sA :=
    fun s hs h => List.inj_on_of_nodup_map hW.sessIds hs hsAmem h
  have hsessB : ∀ s ∈ st.sessions, s.session_id = sB.session_id → s = sB :=
    fun s hs h => List.inj_on_of_nodup_map hW.sessIds hs hsBmem h
  have hrosterA : keyA ∈ sA.assigned_students := by
    have := (hW.bidir pa hpamem sA hsAmem).mp (by rw [hpa2]; exact hmemA)
    rwa [hpa1] at this
  have hrosterB : keyB ∈ sB.assigned_students := by
    have := (hW.bidir pb hpbmem sB hsBmem).mp (by rw [hpb2]; exact hmemB)
    rwa [hpb1] at this
  have hnotrosterA : keyB ∉ sA.assigned_students := by
    intro hmem
    have := (hW.bidir pb hpbmem sA hsAmem).mpr (by rw [hpb1]; exact hmem)
    rw [hpb2] at this
    exact hnotB this
  have hnotrosterB : keyA ∉ sB.assigned_students := by
    intro hmem
    have := (hW.bidir pa hpamem sB hsBmem).mpr (by rw [hpa1]; exact hmem)
    rw [hpa2] at this
    exact hnotA this
  have hanodup : a.assigned.Nodup := by
    have := hW.assignedNodup pa hpamem
    rwa [hpa2] at this
  have hbnodup : b.assigned.Nodup := by
    have := hW.assignedNodup pb hpbmem
    rwa [hpb2] at this
  refine ⟨?_, ?_, ?_, ?_, ?_, ?_, ?_, ?_⟩
  · rw [swapOutcome_sessions, map_sessionId_twoSessionUpd]
    exact hW.sessIds
  · rw [swapOutcome_students, map_fst_twoStudentUpd]
    exact hW.stuKeys
  · intro p' hp'
    rw [swapOutcome_students] at hp'
    obtain ⟨p, hp, rfl⟩ := List.mem_map.mp hp'
    rw [fst_twoStudentUpd, snd_twoStudentUpd]
    by_cases h1 : (p.1 == keyA) = true
    · rw [if_pos h1, swapStuA_sid]
      exact hW.keyMatch p hp
    · rw [if_neg h1]
      by_cases h2 : (p.1 == keyB) = true
      · rw [if_pos h2, swapStuB_sid]
        exact hW.keyMatch p hp
      · rw [if_neg h2]
        exact hW.keyMatch p hp
  · intro p' hp' sid hsid
    rw [swapOutcome_students] at hp'
    obtain ⟨p, hp, rfl⟩ := List.mem_map.mp hp'
    rw [snd_twoStudentUpd] at hsid
    rw [swapOutcome_sessions]
    have hlift : ∀ t, (∃ sess ∈ st.sessions, sess.session_id = t) →
        ∃ sess ∈ (st.sessions.map (twoSessionUpd sA.session_id
          (fun r => (r.erase a.student_id) ++ [b.student_id]) sB.session_id
          (fun r => (r.erase b.student_id) ++ [a.student_id]))), sess.session_id = t := by
      rintro t ⟨sess, hs, hid⟩
      exact ⟨_, List.mem_map_of_mem _ hs, by rw [sessionId_twoSessionUpd]; exact hid⟩
    by_cases h1 : (p.1 == keyA) = true
    · rw [if_pos h1, swapStuA_assigned] at hsid
      rcases List.mem_append.mp hsid with hin | hin
      · exact hlift sid (hW.assignedSess p hp sid (List.mem_of_mem_erase hin))
      · rw [List.mem_singleton.mp hin]
        exact hlift _ ⟨sB, hsBmem, rfl⟩
    · rw [if_neg h1] at hsid
      by_cases h2 : (p.1 == keyB) = true
      · rw [if_pos h2, swapStuB_assigned] at hsid
        rcases List.mem_append.mp hsid with hin | hin
        · exact hlift sid (hW.assignedSess p hp sid (List.mem_of_mem_erase hin))
        · rw [List.mem_singleton.mp hin]
          exact hlift _ ⟨sA, hsAmem, rfl⟩
      · rw [if_neg h2] at hsid
        exact hlift sid (hW.assignedSess p hp sid hsid)
  · intro p' hp'
    rw [swapOutcome_students] at hp'
    obtain ⟨p, hp, rfl⟩ := List.mem_map.mp hp'
    rw [snd_twoStudentUpd]
    by_cases h1 : (p.1 == keyA) = true
    · rw [if_pos h1, swapStuA_assigned, hstuA p hp (by simpa using h1)]
      simp only [List.nodup_append, List.nodup_cons, List.not_mem_nil,
        not_false_iff, List.nodup_nil, and_true, true_and]
      refine ⟨hanodup.erase _, ?_⟩
      intro x hx hx2
      rw [List.mem_singleton.mp hx2] at hx
      exact hnotA (List.mem_of_mem_erase hx)
    · rw [if_neg h1]
      by_cases h2 : (p.1 == keyB) = true
      · rw [if_pos h2, swapStuB_assigned, hstuB p hp (by simpa using h2)]
        simp only [List.nodup_append, List.nodup_cons, List.not_mem_nil,
          not_false_iff, List.nodup_nil, and_true, true_and]
        refine ⟨hbnodup.erase _, ?_⟩
        intro x hx hx2
        rw [List.mem_singleton.mp hx2] at hx
        exact hnotB (List.mem_of_mem_erase hx)
      · rw [if_neg h2]
        exact hW.assignedNodup p hp
  · intro sess' hsess'
    rw [swapOutcome_sessions] at hsess'
    obtain ⟨s, hs, rfl⟩ := List.mem_map.mp hsess'
    rw [roster_twoSessionUpd]
    by_cases h1 : (s.session_id == sA.session_id) = true
    · rw [if_pos h1, hsessA s hs (by simpa using h1)]
      simp only [List.nodup_append, List.nodup_cons, List.not_mem_nil,
        not_false_iff, List.nodup_nil, and_true, true_and]
      refine ⟨(hW.rosterNodup sA hsAmem).erase _, ?_⟩
      intro x hx hx2
      rw [List.mem_singleton.mp hx2] at hx
      rw [hbid] at hx
      exact hnotrosterA (List.mem_of_mem_erase hx)
    · rw [if_neg h1]
      by_cases h2 : (s.session_id == sB.session_id) = true
      · rw [if_pos h2, hsessB s hs (by simpa using h2)]
        simp only [List.nodup_append, List.nodup_cons, List.not_mem_nil,
          not_false_iff, List.nodup_nil, and_true, true_and]
        refine ⟨(hW.rosterNodup sB hsBmem).erase _, ?_⟩
        intro x hx hx2
        rw [List.mem_singleton.mp hx2] at hx
        rw [haid] at hx
        exact hnotrosterB (List.mem_of_mem_erase hx)
      · rw [if_neg h2]
        exact hW.rosterNodup s hs
  · intro p' hp' sess' hsess'
    rw [swapOutcome_students] at hp'
    rw [swapOutcome_sessions] at hsess'
    obtain ⟨p, hp, rfl⟩ := List.mem_map.mp hp'
    obtain ⟨s, hs, rfl⟩ := List.mem_map.mp hsess'
    rw [sessionId_twoSessionUpd, fst_twoStudentUpd, snd_twoStudentUpd,
      roster_twoSessionUpd]
    have hbidold := hW.bidir p hp s hs
    by_cases h1 : (p.1 == keyA) = true
    · have h1' : p.1 = keyA := by simpa using h1
      have hp2 : p.2 = a := hstuA p hp h1'
      rw [if_pos h1, swapStuA_assigned, hp2]
      by_cases hs1 : (s.session_id == sA.session_id) = true
      · have hs1' : s.session_id = sA.session_id := by simpa using hs1
        rw [if_pos hs1, hsessA s hs hs1']
        constructor
        · intro hin
          exfalso
          rcases List.mem_append.mp hin with hin | hin
          · exact ((List.Nodup.mem_erase_iff hanodup).mp hin).1 rfl
          · exact hidAB (List.mem_singleton.mp hin)
        · intro hin
          exfalso
          rcases List.mem_append.mp hin with hin | hin
          · rw [haid] at hin
            exact ((List.Nodup.mem_erase_iff (hW.rosterNodup sA hsAmem)).mp
              (h1' ▸ hin)).1 rfl
          · rw [hbid] at hin
            exact hAB (h1'.symm.trans (List.mem_singleton.mp hin))
      · rw [if_neg hs1]
        by_cases hs2 : (s.session_id == sB.session_id) = true
        · have hs2' : s.session_id = sB.session_id := by simpa using hs2
          rw [if_pos hs2, hsessB s hs hs2']
          constructor
          · intro _
            exact List.mem_append_right _ (by rw [h1', ← haid]; exact List.mem_singleton_self _)
          · intro _
            exact List.mem_append_right _ (List.mem_singleton_self _)
        · rw [if_neg hs2]
          have hs1' : ¬ s.session_id = sA.session_id := by simpa using hs1
          have hs2' : ¬ s.session_id = sB.session_id := by simpa using hs2
          constructor
          · intro hin
            rcases List.mem_append.mp hin with hin | hin
            · exact hbidold.mp (hp2 ▸ List.mem_of_mem_erase hin)
            · exact absurd (List.mem_singleton.mp hin) hs2'
          · intro hin
            refine List.mem_append_left _ ?_
            rw [List.mem_erase_of_ne hs1']
            exact hp2 ▸ hbidold.mpr hin
    · rw [if_neg h1]
      by_cases h2 : (p.1 == keyB) = true
      · have h2' : p.1 = keyB := by simpa using h2
        have hp2 : p.2 = b := hstuB p hp h2'
        rw [if_pos h2, swapStuB_assigned, hp2]
        by_cases hs1 : (s.session_id == sA.session_id) = true
        · have hs1' : s.session_id = sA.session_id := by simpa using hs1
          rw [if_pos hs1, hsessA s hs hs1']
          constructor
          · intro _
            exact List.mem_append_right _ (by rw [h2', ← hbid]; exact List.mem_singleton_self _)
          · intro _
            exact List.mem_append_right _ (List.mem_singleton_self _)
        · rw [if_neg hs1]
          by_cases hs2 : (s.session_id == sB.session_id) = true
          · have hs2' : s.session_id = sB.session_id := by simpa using hs2
            rw [if_pos hs2, hsessB s hs hs2']
            constructor
            · intro hin
              exfalso
              rcases List.mem_append.mp hin with hin | hin
              · exact ((List.Nodup.mem_erase_iff hbnodup).mp hin).1 rfl
              · exact hidAB (List.mem_singleton.mp hin).symm
            · intro hin
              exfalso
              rcases List.mem_append.mp hin with hin | hin
              · rw [hbid] at hin
                exact ((List.Nodup.mem_erase_iff (hW.rosterNodup sB hsBmem)).mp
                  (h2' ▸ hin)).1 rfl
              · rw [haid] at hin
                exact hAB ((h2'.symm ▸ (List.mem_singleton.mp hin)).symm ▸ rfl)
          · rw [if_neg hs2]
            have hs1' : ¬ s.session_id = sA.session_id := by simpa using hs1
            have hs2' : ¬ s.session_id = sB.session_id := by simpa using hs2
            constructor
            · intro hin
              rcases List.mem_append.mp hin with hin | hin
              · exact hbidold.mp (hp2 ▸ List.mem_of_mem_erase hin)
              · exact absurd (List.mem_singleton.mp hin) hs1'
            · intro hin
              refine List.mem_append_left _ ?_
              rw [List.mem_erase_of_ne hs2']
              exact hp2 ▸ hbidold.mpr hin
      · have h1' : ¬ p.1 = keyA := by simpa using h1
        have h2' : ¬ p.1 = keyB := by simpa using h2
        rw [if_neg h2]
        by_cases hs1 : (s.session_id == sA.session_id) = true
        · have hs1' : s.session_id = sA.session_id := by simpa using hs1
          rw [hsessA s hs hs1'] at hbidold
          rw [if_pos hs1, hsessA s hs hs1']
          constructor
          · intro hin
            refine List.mem_append_left _ ?_
            rw [List.mem_erase_of_ne (by rw [haid]; exact h1')]
            exact hbidold.mp hin
          · intro hin
            rcases List.mem_append.mp hin with hin | hin
            · exact hbidold.mpr (List.mem_of_mem_erase hin)
            · exact absurd (List.mem_singleton.mp hin) (by rw [hbid]; exact h2')
        · rw [if_neg hs1]
          by_cases hs2 : (s.session_id == sB.session_id) = true
          · have hs2' : s.session_id = sB.session_id := by simpa using hs2
            rw [hsessB s hs hs2'] at hbidold
            rw [if_pos hs2, hsessB s hs hs2']
            constructor
            · intro hin
              refine List.mem_append_left _ ?_
              rw [List.mem_erase_of_ne (by rw [hbid]; exact h2')]
              exact hbidold.mp hin
            · intro hin
              rcases List.mem_append.mp hin with hin | hin
              · exact hbidold.mpr (List.mem_of_mem_erase hin)
              · exact absurd (List.mem_singleton.mp hin) (by rw [haid]; exact h1')
          · rw [if_neg hs2]
            exact hbidold
  · intro p' hp' sid hsid sess' hsess' hid
    rw [swapOutcome_students] at hp'
    rw [swapOutcome_sessions] at hsess'
    obtain ⟨p, hp, rfl⟩ := List.mem_map.mp hp'
    obtain ⟨s, hs, rfl⟩ := List.mem_map.mp hsess'
    rw [sessionId_twoSessionUpd] at hid
    rw [projectName_twoSessionUpd]
    rw [snd_twoStudentUpd] at hsid ⊢
    by_cases h1 : (p.1 == keyA) = true
    · rw [if_pos h1, swapStuA_assigned, hstuA p hp (by simpa using h1)] at hsid
      rw [if_pos h1, swapStuA_taken]
      exact hTA sid hsid s hs hid
    · rw [if_neg h1] at hsid ⊢
      by_cases h2 : (p.1 == keyB) = true
      · rw [if_pos h2, swapStuB_assigned, hstuB p hp (by simpa using h2)] at hsid
        rw [if_pos h2, swapStuB_taken]
        exact hTB sid hsid s hs hid
      · rw [if_neg h2] at hsid ⊢
        exact hW.takenSup p hp sid hsid s hs hid

end Scheduler

namespace Scheduler

/-- `swapTakenA` still covers the projects of all post-swap assignments of
the first student. -/
lemma swapTakenA_sup {st : Scheduler} {keyA : String} {a : Student} {sA sB : LabSession}
    (hW : st.WFcore) (ha : st.findStudent keyA = some a) (hsBmem : sB ∈ st.sessions) :
    ∀ sid ∈ (a.assigned.erase sA.session_id) ++ [sB.session_id],
      ∀ sess ∈ st.sessions, sess.session_id = sid →
        sess.project_name ∈ swapTakenA st a sA sB := by
  intro sid hsid sess hsess hid
  obtain ⟨pa, hpamem, hpa1, hpa2⟩ := findStudent_some ha
  have hanodup : a.assigned.Nodup := by
    have := hW.assignedNodup pa hpamem
    rwa [hpa2] at this
  rcases List.mem_append.mp hsid with hin | hin
  · have hmem : sid ∈ a.assigned := List.mem_of_mem_erase hin
    have hne : sid ≠ sA.session_id := ((List.Nodup.mem_erase_iff hanodup).mp hin).1
    have htaken : sess.project_name ∈ a.taken_projects := by
      have := hW.takenSup pa hpamem sid (by rw [hpa2]; exact hmem) sess hsess hid
      rwa [hpa2] at this
    unfold swapTakenA
    by_cases hd : dropCondA st a sA sB = true
    · rw [if_pos hd]
      exact Finset.mem_insert_of_mem htaken
    · rw [if_neg hd]
      refine Finset.mem_insert_of_mem (Finset.mem_erase.mpr ⟨?_, htaken⟩)
      intro heq
      apply hd
      unfold dropCondA
      rw [List.any_eq_true]
      refine ⟨sid, List.mem_append_left _ hin, ?_⟩
      have hlook : st.session_lookup sid = some sess := by
        rw [← hid]
        exact session_lookup_eq_of_mem hW.sessIds hsess
      rw [Bool.and_eq_true]
      refine ⟨by simpa using hne, ?_⟩
      unfold projectIs
      rw [hlook]
      simpa using heq
  · rw [List.mem_singleton.mp hin] at hid
    have : sess = sB := List.inj_on_of_nodup_map hW.sessIds hsess hsBmem hid
    rw [this]
    exact Finset.mem_insert_self _ _

/-- `swapTakenB` still covers the projects of all post-swap assignments of
the second student. -/
lemma swapTakenB_sup {st : Scheduler} {keyB : String} {b : Student} {sA sB : LabSession}
    (hW : st.WFcore) (hb : st.findStudent keyB = some b) (hsAmem : sA ∈ st.sessions) :
    ∀ sid ∈ (b.assigned.erase sB.session_id) ++ [sA.session_id],
      ∀ sess ∈ st.sessions, sess.session_id = sid →
        sess.project_name ∈ swapTakenB st b sA sB := by
  intro sid hsid sess hsess hid
  obtain ⟨pb, hpbmem, hpb1, hpb2⟩ := findStudent_some hb
  have hbnodup : b.assigned.Nodup := by
    have := hW.assignedNodup pb hpbmem
    rwa [hpb2] at this
  rcases List.mem_append.mp hsid with hin | hin
  · have hmem : sid ∈ b.assigned := List.mem_of_mem_erase hin
    have hne : sid ≠ sB.session_id := ((List.Nodup.mem_erase_iff hbnodup).mp hin).1
    have htaken : sess.project_name ∈ b.taken_projects := by
      have := hW.takenSup pb hpbmem sid (by rw [hpb2]; exact hmem) sess hsess hid
      rwa [hpb2] at this
    unfold swapTakenB
    by_cases hd : dropCondB st b sA sB = true
    · rw [if_pos hd]
      exact Finset.mem_insert_of_mem htaken
    · rw [if_neg hd]
      refine Finset.mem_insert_of_mem (Finset.mem_erase.mpr ⟨?_, htaken⟩)
      intro heq
      apply hd
      unfold dropCondB
      rw [List.any_eq_true]
      refine ⟨sid, List.mem_append_left _ hin, ?_⟩
      have hlook : st.session_lookup sid = some sess := by
        rw [← hid]
        exact session_lookup_eq_of_mem hW.sessIds hsess
      rw [Bool.and_eq_true]
      refine ⟨by simpa using hne, ?_⟩
      unfold projectIs
      rw [hlook]
      simpa using heq
  · rw [List.mem_singleton.mp hin] at hid
    have : sess = sA := List.inj_on_of_nodup_map hW.sessIds hsess hsAmem hid
    rw [this]
    exact Finset.mem_insert_self _ _

lemma capacity_twoSessionUpd (idA idB : Int) (gA gB : List String → List String)
    (s : LabSession) :
    (twoSessionUpd idA gA idB gB s).capacity = s.capacity := by
  unfold twoSessionUpd
  split_ifs <;> rfl

/-- The swap outcome preserves the capacity invariant: both touched rosters
keep their lengths (one member out, one member in). -/
lemma CapInv_swapOutcome
    {st : Scheduler} {keyA keyB : String} {a b : Student} {sA sB : LabSession}
    {TA TB : Finset String}
    (hW : st.WFcore) (hC : CapInv st)
    (ha : st.findStudent keyA = some a) (hb : st.findStudent keyB = some b)
    (hsAmem : sA ∈ st.sessions) (hsBmem : sB ∈ st.sessions)
    (hmemA : sA.session_id ∈ a.assigned) (hmemB : sB.session_id ∈ b.assigned) :
    CapInv (swapOutcome st keyA keyB a b sA sB TA TB) := by
  obtain ⟨pa, hpamem, hpa1, hpa2⟩ := findStudent_some ha
  obtain ⟨pb, hpbmem, hpb1, hpb2⟩ := findStudent_some hb
  have haid : a.student_id = keyA := by rw [← hpa2, hW.keyMatch pa hpamem, hpa1]
  have hbid : b.student_id = keyB := by rw [← hpb2, hW.keyMatch pb hpbmem, hpb1]
  have hrosterA : keyA ∈ sA.assigned_students := by
    have := (hW.bidir pa hpamem sA hsAmem).mp (by rw [hpa2]; exact hmemA)
    rwa [hpa1] at this
  have hrosterB : keyB ∈ sB.assigned_students := by
    have := (hW.bidir pb hpbmem sB hsBmem).mp (by rw [hpb2]; exact hmemB)
    rwa [hpb1] at this
  intro sess' hsess'
  rw [swapOutcome_sessions] at hsess'
  obtain ⟨s, hs, rfl⟩ := List.mem_map.mp hsess'
  rw [roster_twoSessionUpd, capacity_twoSessionUpd]
  by_cases h1 : (s.session_id == sA.session_id) = true
  · rw [if_pos h1]
    have hseq : s = sA :=
      List.inj_on_of_nodup_map hW.sessIds hs hsAmem (by simpa using h1)
    subst hseq
    have hlen : ((s.assigned_students.erase a.student_id) ++ [b.student_id]).length =
        s.assigned_students.length := by
      rw [List.length_append, List.length_erase_of_mem (by rw [haid]; exact hrosterA)]
      have : 0 < s.assigned_students.length := List.length_pos_of_mem hrosterA
      simp only [List.length_singleton]
      omega
    rw [hlen]
    exact hC s hs
  · rw [if_neg h1]
    by_cases h2 : (s.session_id == sB.session_id) = true
    · rw [if_pos h2]
      have hseq : s = sB :=
        List.inj_on_of_nodup_map hW.sessIds hs hsBmem (by simpa using h2)
      subst hseq
      have hlen : ((s.assigned_students.erase b.student_id) ++ [a.student_id]).length =
          s.assigned_students.length := by
        rw [List.length_append, List.length_erase_of_mem (by rw [hbid]; exact hrosterB)]
        have : 0 < s.assigned_students.length := List.length_pos_of_mem hrosterB
        simp only [List.length_singleton]
        omega
      rw [hlen]
      exact hC s hs
    · rw [if_neg h2]
      exact hC s hs

end Scheduler

namespace Scheduler

lemma capacity_commitIf (s : LabSession) (cid : Int) (x : String) :
    (if (s.session_id == cid) = true then
      { s with assigned_students := s.assigned_students ++ [x] } else s).capacity =
      s.capacity := by
  split <;> rfl

/-- Committing a candidate preserves the capacity invariant: the candidate
had a free seat. -/
lemma CapInv_commit {st : Scheduler} {key : String} {stu : Student} {chosen : LabSession}
    (hW : st.WFcore) (hC : CapInv st)
    (hcand : chosen ∈ st._candidate_sessions stu) :
    CapInv (st.commit key stu chosen) := by
  have hch := candidate_facts hcand
  intro sess' hsess'
  rw [commit_sessions] at hsess'
  obtain ⟨s, hs, rfl⟩ := List.mem_map.mp hsess'
  rw [roster_commitIf, capacity_commitIf]
  by_cases hb : (s.session_id == chosen.session_id) = true
  · rw [if_pos hb]
    have hseq : s = chosen :=
      List.inj_on_of_nodup_map hW.sessIds hs hch.1 (by simpa using hb)
    subst hseq
    have h1 : 0 < s.capacity - (s.assigned_students.length : Int) := by
      have h0 := hch.2.1
      unfold LabSession.remaining at h0
      rcases lt_max_iff.mp h0 with h | h
      · exact h
      · exact absurd h (lt_irrefl 0)
    rw [List.length_append, List.length_singleton]
    push_cast
    omega
  · rw [if_neg hb]
    exact hC s hs

lemma slotOf_commit (st : Scheduler) (key : String) (stu : Student)
    (chosen : LabSession) (k : Int) :
    (st.commit key stu chosen).slotOf k = st.slotOf k :=
  slotOf_updSessionRoster st chosen.session_id (fun r => r ++ [stu.student_id]) k

lemma studentSlots_commit (st : Scheduler) (key : String) (stu : Student)
    (chosen : LabSession) (x : Student) :
    (st.commit key stu chosen).studentSlots x = st.studentSlots x := by
  unfold studentSlots
  simp only [slotOf_commit]

/-- Committing a candidate preserves the no-conflict invariant: the
candidate passed `has_conflict`. -/
lemma NoConfInv_commit {st : Scheduler} {key : String} {stu : Student} {chosen : LabSession}
    (hW : st.WFcore) (hN : NoConfInv st)
    (hstu : st.findStudent key = some stu)
    (hcand : chosen ∈ st._candidate_sessions stu) :
    NoConfInv (st.commit key stu chosen) := by
  obtain ⟨p0, hp0mem, hp0key, hp0val⟩ := findStudent_some hstu
  have hch := candidate_facts hcand
  have hslotChosen : st.slotOf chosen.session_id = some chosen.to_timeslot := by
    unfold slotOf
    rw [session_lookup_eq_of_mem hW.sessIds hch.1]
    rfl
  have hconf := hch.2.2.2
  have hbusy : ∀ x ∈ stu.busy_slots, x.conflicts_with chosen.to_timeslot = false := by
    intro x hx
    by_contra hne
    rw [Bool.not_eq_false] at hne
    have : stu.has_conflict chosen.to_timeslot st = true := by
      unfold Student.has_conflict
      rw [Bool.or_eq_true]
      exact Or.inl (List.any_eq_true.mpr ⟨x, hx, hne⟩)
    rw [this] at hconf
    cases hconf
  have hassigned : ∀ sid ∈ stu.assigned,
      st.slotConflictB sid chosen.to_timeslot = false := by
    intro sid hsid
    by_contra hne
    rw [Bool.not_eq_false] at hne
    have : stu.has_conflict chosen.to_timeslot st = true := by
      unfold Student.has_conflict
      rw [Bool.or_eq_true]
      exact Or.inr (List.any_eq_true.mpr ⟨sid, hsid, hne⟩)
    rw [this] at hconf
    cases hconf
  intro p' hp'
  rw [commit_students] at hp'
  obtain ⟨p, hp, rfl⟩ := List.mem_map.mp hp'
  rw [studentSlots_commit, snd_commitIf]
  by_cases hb : (p.1 == key) = true
  · rw [if_pos hb]
    have hpp0 : p = p0 :=
      List.inj_on_of_nodup_map hW.stuKeys hp hp0mem (by rw [hp0key]; simpa using hb)
    have hp2 : p.2 = stu := by rw [hpp0, hp0val]
    unfold studentSlots
    dsimp only
    rw [List.filterMap_append]
    have hsingle : [chosen.session_id].filterMap (fun sid => st.slotOf sid) =
        [chosen.to_timeslot] := by
      simp [List.filterMap_cons, hslotChosen]
    rw [hsingle, conflictFreeSlots_iff_pairwise]
    have hold : (st.studentSlots p.2).Pairwise
        (fun u v => u.conflicts_with v = false) := by
      rw [← conflictFreeSlots_iff_pairwise]
      exact hN p hp
    unfold studentSlots at hold
    rw [List.pairwise_append] at hold
    obtain ⟨pL, pM, crossLM⟩ := hold
    refine List.pairwise_append.mpr ⟨pL, List.pairwise_append.mpr
      ⟨pM, by simp, ?_⟩, ?_⟩
    · intro x hx y hy
      rw [List.mem_singleton.mp hy]
      obtain ⟨sid, hsidmem, hsid⟩ := List.mem_filterMap.mp hx
      have hcb := hassigned sid (by rw [← hp2]; exact hsidmem)
      unfold slotConflictB at hcb
      rw [hsid] at hcb
      exact hcb
    · intro x hx y hy
      rcases List.mem_append.mp hy with hy | hy
      · exact crossLM x hx y hy
      · rw [List.mem_singleton.mp hy]
        exact hbusy x (by rw [← hp2]; exact hx)
  · rw [if_neg hb]
    exact hN p hp

lemma slotOf_swapOutcome (st : Scheduler) (keyA keyB : String) (a b : Student)
    (sA sB : LabSession) (TA TB : Finset String)
    (hidAB : sA.session_id ≠ sB.session_id) (k : Int) :
    (swapOutcome st keyA keyB a b sA sB TA TB).slotOf k = st.slotOf k :=
  slotOf_twoSessState st sA.session_id sB.session_id hidAB
    (fun r => (r.erase a.student_id) ++ [b.student_id])
    (fun r => (r.erase b.student_id) ++ [a.student_id]) k

lemma studentSlots_swapOutcome (st : Scheduler) (keyA keyB : String) (a b : Student)
    (sA sB : LabSession) (TA TB : Finset String)
    (hidAB : sA.session_id ≠ sB.session_id) (x : Student) :
    (swapOutcome st keyA keyB a b sA sB TA TB).studentSlots x = st.studentSlots x := by
  unfold studentSlots
  simp only [slotOf_swapOutcome st keyA keyB a b sA sB TA TB hidAB]

lemma swapStuA_busy (sA sB : LabSession) (TA : Finset String) (x : Student) :
    (swapStuA sA sB TA x).busy_slots = x.busy_slots := rfl

lemma swapStuB_busy (sA sB : LabSession) (TB : Finset String) (x : Student) :
    (swapStuB sA sB TB x).busy_slots = x.busy_slots := rfl

/-- The swap outcome preserves the no-conflict invariant: both students gave
up one assignment and the received sessions passed the conflict check. -/
lemma NoConfInv_swapOutcome
    {st : Scheduler} {keyA keyB : String} {a b : Student} {sA sB : LabSession}
    {TA TB : Finset String}
    (hW : st.WFcore) (hN : NoConfInv st)
    (ha : st.findStudent keyA = some a) (hb : st.findStudent keyB = some b)
    (hsAmem : sA ∈ st.sessions) (hsBmem : sB ∈ st.sessions)
    (hidAB : sA.session_id ≠ sB.session_id)
    (hconfA : st._conflicts_with_other_assignments a sB (some sA.session_id) = false)
    (hconfB : st._conflicts_with_other_assignments b sA (some sB.session_id) = false) :
    NoConfInv (swapOutcome st keyA keyB a b sA sB TA TB) := by
  obtain ⟨pa, hpamem, hpa1, hpa2⟩ := findStudent_some ha
  obtain ⟨pb, hpbmem, hpb1, hpb2⟩ := findStudent_some hb
  have hanodup : a.assigned.Nodup := by
    have := hW.assignedNodup pa hpamem
    rwa [hpa2] at this
  have hbnodup : b.assigned.Nodup := by
    have := hW.assignedNodup pb hpbmem
    rwa [hpb2] at this
  have hslotA : st.slotOf sA.session_id = some sA.to_timeslot := by
    unfold slotOf
    rw [session_lookup_eq_of_mem hW.sessIds hsAmem]
    rfl
  have hslotB : st.slotOf sB.session_id = some sB.to_timeslot := by
    unfold slotOf
    rw [session_lookup_eq_of_mem hW.sessIds hsBmem]
    rfl
  have hconfA_assigned : ∀ sid ∈ a.assigned, sid ≠ sA.session_id →
      st.slotConflictB sid sB.to_timeslot = false := by
    intro sid hsid hne
    by_contra hne2
    rw [Bool.not_eq_false] at hne2
    have : st._conflicts_with_other_assignments a sB (some sA.session_id) = true := by
      unfold _conflicts_with_other_assignments
      simp only
      rw [Bool.or_eq_true]
      refine Or.inl (List.any_eq_true.mpr ⟨sid, hsid, ?_⟩)
      rw [Bool.and_eq_true]
      exact ⟨by simp [Ne.symm hne], hne2⟩
    rw [this] at hconfA
    cases hconfA
  have hconfA_busy : ∀ x ∈ a.busy_slots, x.conflicts_with sB.to_timeslot = false := by
    intro x hx
    by_contra hne2
    rw [Bool.not_eq_false] at hne2
    have : st._conflicts_with_other_assignments a sB (some sA.session_id) = true := by
      unfold _conflicts_with_other_assignments
      simp only
      rw [Bool.or_eq_true]
      exact Or.inr (List.any_eq_true.mpr ⟨x, hx, hne2⟩)
    rw [this] at hconfA
    cases hconfA
  have hconfB_assigned : ∀ sid ∈ b.assigned, sid ≠ sB.session_id →
      st.slotConflictB sid sA.to_timeslot = false := by
    intro sid hsid hne
    by_contra hne2
    rw [Bool.not_eq_false] at hne2
    have : st._conflicts_with_other_assignments b sA (some sB.session_id) = true := by
      unfold _conflicts_with_other_assignments
      simp only
      rw [Bool.or_eq_true]
      refine Or.inl (List.any_eq_true.mpr ⟨sid, hsid, ?_⟩)
      rw [Bool.and_eq_true]
      exact ⟨by simp [Ne.symm hne], hne2⟩
    rw [this] at hconfB
    cases hconfB
  have hconfB_busy : ∀ x ∈ b.busy_slots, x.conflicts_with sA.to_timeslot = false := by
    intro x hx
    by_contra hne2
    rw [Bool.not_eq_false] at hne2
    have : st._conflicts_with_other_assignments b sA (some sB.session_id) = true := by
      unfold _conflicts_with_other_assignments
      simp only
      rw [Bool.or_eq_true]
      exact Or.inr (List.any_eq_true.mpr ⟨x, hx, hne2⟩)
    rw [this] at hconfB
    cases hconfB
  intro p' hp'
  rw [swapOutcome_students] at hp'
  obtain ⟨p, hp, rfl⟩ := List.mem_map.mp hp'
  rw [studentSlots_swapOutcome st keyA keyB a b sA sB TA TB hidAB, snd_twoStudentUpd]
  have hold : (st.studentSlots p.2).Pairwise
      (fun u v => u.conflicts_with v = false) := by
    rw [← conflictFreeSlots_iff_pairwise]
    exact hN p hp
  by_cases h1 : (p.1 == keyA) = true
  · rw [if_pos h1]
    have hpp : p.2 = a := by
      have : p = pa :=
        List.inj_on_of_nodup_map hW.stuKeys hp hpamem (by rw [hpa1]; simpa using h1)
      rw [this, hpa2]
    unfold studentSlots
    rw [swapStuA_busy, swapStuA_assigned, hpp, List.filterMap_append]
    have hsingle : [sB.session_id].filterMap (fun sid => st.slotOf sid) =
        [sB.to_timeslot] := by
      simp [List.filterMap_cons, hslotB]
    rw [hsingle, conflictFreeSlots_iff_pairwise]
    rw [hpp] at hold
    unfold studentSlots at hold
    rw [List.pairwise_append] at hold
    obtain ⟨pL, pM, crossLM⟩ := hold
    have hsub : List.Sublist ((a.assigned.erase sA.session_id).filterMap
        (fun sid => st.slotOf sid)) (a.assigned.filterMap (fun sid => st.slotOf sid)) :=
      List.Sublist.filterMap _ (List.erase_sublist _ _)
    refine List.pairwise_append.mpr ⟨pL, List.pairwise_append.mpr
      ⟨pM.sublist hsub, by simp, ?_⟩, ?_⟩
    · intro x hx y hy
      rw [List.mem_singleton.mp hy]
      obtain ⟨sid, hsidmem, hsid⟩ := List.mem_filterMap.mp hx
      have hne : sid ≠ sA.session_id :=
        ((List.Nodup.mem_erase_iff hanodup).mp hsidmem).1
      have hcb := hconfA_assigned sid (List.mem_of_mem_erase hsidmem) hne
      unfold slotConflictB at hcb
      rw [hsid] at hcb
      exact hcb
    · intro x hx y hy
      rcases List.mem_append.mp hy with hy | hy
      · exact crossLM x hx y (hsub.subset hy)
      · rw [List.mem_singleton.mp hy]
        exact hconfA_busy x hx
  · rw [if_neg h1]
    by_cases h2 : (p.1 == keyB) = true
    · rw [if_pos h2]
      have hpp : p.2 = b := by
        have : p = pb :=
          List.inj_on_of_nodup_map hW.stuKeys hp hpbmem (by rw [hpb1]; simpa using h2)
        rw [this, hpb2]
      unfold studentSlots
      rw [swapStuB_busy, swapStuB_assigned, hpp, List.filterMap_append]
      have hsingle : [sA.session_id].filterMap (fun sid => st.slotOf sid) =
          [sA.to_timeslot] := by
        simp [List.filterMap_cons, hslotA]
      rw [hsingle, conflictFreeSlots_iff_pairwise]
      rw [hpp] at hold
      unfold studentSlots at hold
      rw [List.pairwise_append] at hold
      obtain ⟨pL, pM, crossLM⟩ := hold
      have hsub : List.Sublist ((b.assigned.erase sB.session_id).filterMap
          (fun sid => st.slotOf sid)) (b.assigned.filterMap (fun sid => st.slotOf sid)) :=
        List.Sublist.filterMap _ (List.erase_sublist _ _)
      refine List.pairwise_append.mpr ⟨pL, List.pairwise_append.mpr
        ⟨pM.sublist hsub, by simp, ?_⟩, ?_⟩
      · intro x hx y hy
        rw [List.mem_singleton.mp hy]
        obtain ⟨sid, hsidmem, hsid⟩ := List.mem_filterMap.mp hx
        have hne : sid ≠ sB.session_id :=
          ((List.Nodup.mem_erase_iff hbnodup).mp hsidmem).1
        have hcb := hconfB_assigned sid (List.mem_of_mem_erase hsidmem) hne
        unfold slotConflictB at hcb
        rw [hsid] at hcb
        exact hcb
      · intro x hx y hy
        rcases List.mem_append.mp hy with hy | hy
        · exact crossLM x hx y (hsub.subset hy)
        · rw [List.mem_singleton.mp hy]
          exact hconfB_busy x hx
    · rw [if_neg h2]
      rw [← conflictFreeSlots_iff_pairwise] at hold
      exact hold

end Scheduler

namespace Scheduler

/-- `random.choice` on a non-empty list returns one of its elements. -/
lemma choiceFrom_mem (r : Nat → Nat) (k : Nat) {l : List Int} (hl : l ≠ []) :
    (choiceFrom r l k).1 ∈ l := by
  unfold choiceFrom
  have hlen : 0 < l.length := List.length_pos.mpr hl
  have hlt : r k % l.length < l.length := Nat.mod_lt _ hlen
  rw [List.getD_eq_getElem l 0 hlt]
  exact List.getElem_mem hlt

/-- A successful constructor iteration decomposes into lookup, candidate
choice and commit. -/
lemma constructorStep_cases {st : Scheduler} {key : String} {st1 : Scheduler}
    {ev : String × Int} (h : st.constructorStep key = some (st1, ev)) :
    ∃ stu chosen, st.findStudent key = some stu ∧
      chosen ∈ st._candidate_sessions stu ∧ st1 = st.commit key stu chosen := by
  unfold constructorStep at h
  cases hstu : st.findStudent key with
  | none => rw [hstu] at h; cases h
  | some stu =>
    rw [hstu] at h
    dsimp only at h
    by_cases hlt : st._student_hours stu < st._target_hours stu
    · rw [if_pos hlt] at h
      cases hch : st.chooseCandidate stu with
      | none => rw [hch] at h; cases h
      | some chosen =>
        rw [hch] at h
        dsimp only at h
        have hmem : chosen ∈ st._candidate_sessions stu := by
          unfold chooseCandidate at hch
          cases hcs : st._candidate_sessions stu with
          | nil => rw [hcs] at hch; cases hch
          | cons c cs =>
            rw [hcs] at hch
            dsimp only at hch
            rcases firstMinBy_mem (st._score stu) cs c with h | h
            · rw [Option.some_inj.mp hch.symm, h]
              exact List.mem_cons_self _ _
            · rw [Option.some_inj.mp hch.symm]
              exact List.mem_cons_of_mem _ h
        exact ⟨stu, chosen, rfl, hmem, (Prod.mk.injEq _ _ _ _ ▸ Option.some_inj.mp h).1.symm⟩
    · rw [if_neg hlt] at h
      cases h

/-- Master case split for one swap trial under well-formedness and sampled
session ids drawn from the students' assignment lists: either the trial is a
no-op, or all feasibility data is available and the result is the swap
outcome in normal form, with a strict diversity improvement. -/
lemma swapTrial_cases {st : Scheduler} {keyA keyB : String} {sAId sBId : Int}
    (hW : st.WFcore)
    (hmA : ∀ x, st.findStudent keyA = some x → sAId ∈ x.assigned)
    (hmB : ∀ x, st.findStudent keyB = some x → sBId ∈ x.assigned) :
    st.swapTrial keyA keyB sAId sBId = st ∨
    ∃ a b sA sB,
      st.findStudent keyA = some a ∧ st.findStudent keyB = some b ∧
      sA ∈ st.sessions ∧ sB ∈ st.sessions ∧
      keyA ≠ keyB ∧ sA.session_id ≠ sB.session_id ∧
      sA.session_id ∈ a.assigned ∧ sB.session_id ∈ b.assigned ∧
      sA.session_id ∉ b.assigned ∧ sB.session_id ∉ a.assigned ∧
      st._conflicts_with_other_assignments a sB (some sA.session_id) = false ∧
      st._conflicts_with_other_assignments b sA (some sB.session_id) = false ∧
      st._session_diversity sA (some a) (some b) +
          st._session_diversity sB (some b) (some a) <
        st._session_diversity sA none none + st._session_diversity sB none none ∧
      st.swapTrial keyA keyB sAId sBId =
        swapOutcome st keyA keyB a b sA sB (swapTakenA st a sA sB)
          (swapTakenB st b sA sB) := by
  unfold swapTrial
  by_cases hid : (sAId == sBId) = true
  · rw [if_pos hid]
    exact Or.inl rfl
  · rw [if_neg hid]
    cases ha : st.findStudent keyA with
    | none => exact Or.inl rfl
    | some a =>
      cases hb : st.findStudent keyB with
      | none => exact Or.inl rfl
      | some b =>
        cases hsA : st.session_lookup sAId with
        | none => exact Or.inl rfl
        | some sA =>
          cases hsB : st.session_lookup sBId with
          | none => exact Or.inl rfl
          | some sB =>
            dsimp only
            by_cases hcan : st._can_swap a sA b sB = true
            swap
            · rw [if_neg hcan]
              exact Or.inl rfl
            by_cases himp : st._session_diversity sA (some a) (some b) +
                st._session_diversity sB (some b) (some a) <
                st._session_diversity sA none none + st._session_diversity sB none none
            swap
            · rw [if_pos hcan, if_neg himp]
              exact Or.inl rfl
            rw [if_pos hcan, if_pos himp]
            obtain ⟨hsAm, hsAid⟩ := session_lookup_some hsA
            obtain ⟨hsBm, hsBid⟩ := session_lookup_some hsB
            obtain ⟨hidAB, hHPa, hHPb, hconfA, hconfB, -, -⟩ := can_swap_elim hcan
            have hmemA : sA.session_id ∈ a.assigned := by
              rw [hsAid]; exact hmA a ha
            have hmemB : sB.session_id ∈ b.assigned := by
              rw [hsBid]; exact hmB b hb
            have hprojA : st.projectIs sA.session_id sA.project_name = true := by
              unfold projectIs
              rw [session_lookup_eq_of_mem hW.sessIds hsAm]
              simp
            have hprojB : st.projectIs sB.session_id sB.project_name = true := by
              unfold projectIs
              rw [session_lookup_eq_of_mem hW.sessIds hsBm]
              simp
            have hnotA : sB.session_id ∉ a.assigned := by
              intro hmem
              have : st._has_project a sB.project_name (some sA.session_id) = true := by
                unfold _has_project
                refine List.any_eq_true.mpr ⟨sB.session_id, hmem, ?_⟩
                rw [Bool.and_eq_true]
                exact ⟨by simp [hidAB], hprojB⟩
              rw [this] at hHPa
              cases hHPa
            have hnotB : sA.session_id ∉ b.assigned := by
              intro hmem
              have : st._has_project b sA.project_name (some sB.session_id) = true := by
                unfold _has_project
                refine List.any_eq_true.mpr ⟨sA.session_id, hmem, ?_⟩
                rw [Bool.and_eq_true]
                exact ⟨by simp [Ne.symm hidAB], hprojA⟩
              rw [this] at hHPb
              cases hHPb
            have hAB : keyA ≠ keyB := by
              intro h
              rw [h, hb] at ha
              rw [Option.some_inj.mp ha] at hnotB
              exact hnotB hmemA
            refine Or.inr ⟨a, b, sA, sB, rfl, rfl, hsAm, hsBm, hAB, hidAB,
              hmemA, hmemB, hnotB, hnotA, hconfA, hconfB, himp, ?_⟩
            exact performSwap_eq hAB hidAB ha hb hW.stuKeys

end Scheduler

namespace Scheduler

section Preserve

variable (P : Scheduler → Prop)

/-- Generic lifting of a per-commit preservation fact through the inner
`while` loop. -/
lemma preserve_assignStudentLoop
    (hstep : ∀ st key st1 ev, P st → constructorStep st key = some (st1, ev) → P st1) :
    ∀ fuel st key acc, P st → P (assignStudentLoop fuel st key acc).1 := by
  intro fuel
  induction fuel with
  | zero => intro st key acc hp; exact hp
  | succ n ih =>
    intro st key acc hp
    unfold assignStudentLoop
    cases hc : st.constructorStep key with
    | none => exact hp
    | some pr => exact ih pr.1 key (acc ++ [pr.2]) (hstep st key pr.1 pr.2 hp hc)

/-- Generic lifting through the per-student fold of the construction
phase. -/
lemma preserve_assignFold
    (hstep : ∀ st key st1 ev, P st → constructorStep st key = some (st1, ev) → P st1) :
    ∀ (order : List String) (p : Scheduler × List (String × Int)), P p.1 →
      P ((order.foldl (fun acc key =>
        assignStudentLoop (acc.1.sessions.length + 1) acc.1 key acc.2) p)).1 := by
  intro order
  induction order with
  | nil => intro p hp; exact hp
  | cons k ks ih =>
    intro p hp
    exact ih _ (preserve_assignStudentLoop P hstep _ _ _ _ hp)

lemma preserve_assignAll
    (hstep : ∀ st key st1 ev, P st → constructorStep st key = some (st1, ev) → P st1)
    (st : Scheduler) (order : List String) (hp : P st) :
    P (assignAll st order).1 :=
  preserve_assignFold P hstep order (st, []) hp

/-- Generic lifting of a per-swap preservation fact through one optimizer
trial. -/
lemma preserve_trialOnce
    (hswap : ∀ st keyA keyB sAId sBId, P st →
      (∀ x, findStudent st keyA = some x → sAId ∈ x.assigned) →
      (∀ x, findStudent st keyB = some x → sBId ∈ x.assigned) →
      P (swapTrial st keyA keyB sAId sBId))
    (r : Nat → Nat) (ids : List String) (p : Scheduler × Nat) (hp : P p.1) :
    P (trialOnce r ids p).1 := by
  unfold trialOnce
  dsimp only
  cases ha : p.1.findStudent (sampleTwo r ids p.2).1.1 with
  | none => exact hp
  | some a =>
    cases hb : p.1.findStudent (sampleTwo r ids p.2).1.2 with
    | none => exact hp
    | some b =>
      dsimp only
      by_cases hemp : (a.assigned.isEmpty || b.assigned.isEmpty) = true
      · rw [if_pos hemp]
        exact hp
      · rw [if_neg hemp]
        rw [Bool.or_eq_true, not_or] at hemp
        have hae : a.assigned ≠ [] := by
          intro h
          exact hemp.1 (by rw [h]; rfl)
        have hbe : b.assigned ≠ [] := by
          intro h
          exact hemp.2 (by rw [h]; rfl)
        refine hswap _ _ _ _ _ hp ?_ ?_
        · intro x hx
          rw [ha] at hx
          rw [← Option.some_inj.mp hx]
          exact choiceFrom_mem r _ hae
        · intro x hx
          rw [hb] at hx
          rw [← Option.some_inj.mp hx]
          exact choiceFrom_mem r _ hbe

/-- Generic lifting through the optimizer trial loop. -/
lemma preserve_runTrials
    (hswap : ∀ st keyA keyB sAId sBId, P st →
      (∀ x, findStudent st keyA = some x → sAId ∈ x.assigned) →
      (∀ x, findStudent st keyB = some x → sBId ∈ x.assigned) →
      P (swapTrial st keyA keyB sAId sBId))
    (r : Nat → Nat) (ids : List String) :
    ∀ n (p : Scheduler × Nat), P p.1 → P (runTrials r ids n p).1 := by
  intro n
  induction n with
  | zero => intro p hp; exact hp
  | succ m ih =>
    intro p hp
    exact ih _ (preserve_trialOnce P hswap r ids p hp)

/-- Preservation holds at the post-construction state. -/
lemma preserve_constructionState
    (hstep : ∀ st key st1 ev, P st → constructorStep st key = some (st1, ev) → P st1)
    (r : Nat → Nat) (st : Scheduler) (hp : P st) :
    P (constructionState r st) :=
  preserve_assignAll P hstep st _ hp

/-- Preservation holds after construction plus any number of optimizer
trials. -/
lemma preserve_optimizerState
    (hstep : ∀ st key st1 ev, P st → constructorStep st key = some (st1, ev) → P st1)
    (hswap : ∀ st keyA keyB sAId sBId, P st →
      (∀ x, findStudent st keyA = some x → sAId ∈ x.assigned) →
      (∀ x, findStudent st keyB = some x → sBId ∈ x.assigned) →
      P (swapTrial st keyA keyB sAId sBId))
    (r : Nat → Nat) (st : Scheduler) (n : Nat) (hp : P st) :
    P (optimizerState r st n) := by
  unfold optimizerState
  dsimp only
  have h1 : P (constructionState r st) := preserve_constructionState P hstep r st hp
  split_ifs with h
  · exact h1
  · exact preserve_runTrials P hswap r _ n _ h1

/-- The one-more-trial unfolding of the trial loop. -/
lemma runTrials_succ_last (r : Nat → Nat) (ids : List String) :
    ∀ n p, runTrials r ids (n + 1) p = trialOnce r ids (runTrials r ids n p) := by
  intro n
  induction n with
  | zero => intro p; rfl
  | succ m ih =>
    intro p
    show runTrials r ids (m + 1) (trialOnce r ids p) = _
    rw [ih (trialOnce r ids p)]
    rfl

end Preserve

end Scheduler

namespace Scheduler

lemma WFcore_constructorStep :
    ∀ st key st1 ev, WFcore st → constructorStep st key = some (st1, ev) →
      WFcore st1 := by
  intro st key st1 ev hW h
  obtain ⟨stu, chosen, hstu, hcand, rfl⟩ := constructorStep_cases h
  exact WFcore_commit hW hstu hcand

lemma WFcore_swapTrialStep :
    ∀ st keyA keyB sAId sBId, WFcore st →
      (∀ x, findStudent st keyA = some x → sAId ∈ x.assigned) →
      (∀ x, findStudent st keyB = some x → sBId ∈ x.assigned) →
      WFcore (swapTrial st keyA keyB sAId sBId) := by
  intro st keyA keyB sAId sBId hW hmA hmB
  rcases swapTrial_cases hW hmA hmB with h |
    ⟨a, b, sA, sB, ha, hb, hsAm, hsBm, hAB, hidAB, hmemA, hmemB, hnotBb, hnotAa,
      hconfA, hconfB, himp, heq⟩
  · rw [h]
    exact hW
  · rw [heq]
    exact WFcore_swapOutcome hW hAB ha hb hsAm hsBm hidAB hmemA hmemB hnotAa hnotBb
      (swapTakenA_sup hW ha hsBm) (swapTakenB_sup hW hb hsAm)

lemma WFcoreCap_constructorStep :
    ∀ st key st1 ev, (WFcore st ∧ CapInv st) →
      constructorStep st key = some (st1, ev) → WFcore st1 ∧ CapInv st1 := by
  intro st key st1 ev hWC h
  obtain ⟨stu, chosen, hstu, hcand, rfl⟩ := constructorStep_cases h
  exact ⟨WFcore_commit hWC.1 hstu hcand, CapInv_commit hWC.1 hWC.2 hcand⟩

lemma WFcoreCap_swapTrialStep :
    ∀ st keyA keyB sAId sBId, (WFcore st ∧ CapInv st) →
      (∀ x, findStudent st keyA = some x → sAId ∈ x.assigned) →
      (∀ x, findStudent st keyB = some x → sBId ∈ x.assigned) →
      WFcore (swapTrial st keyA keyB sAId sBId) ∧
        CapInv (swapTrial st keyA keyB sAId sBId) := by
  intro st keyA keyB sAId sBId hWC hmA hmB
  rcases swapTrial_cases hWC.1 hmA hmB with h |
    ⟨a, b, sA, sB, ha, hb, hsAm, hsBm, hAB, hidAB, hmemA, hmemB, hnotBb, hnotAa,
      hconfA, hconfB, himp, heq⟩
  · rw [h]
    exact hWC
  · rw [heq]
    exact ⟨WFcore_swapOutcome hWC.1 hAB ha hb hsAm hsBm hidAB hmemA hmemB hnotAa hnotBb
      (swapTakenA_sup hWC.1 ha hsBm) (swapTakenB_sup hWC.1 hb hsAm),
      CapInv_swapOutcome hWC.1 hWC.2 ha hb hsAm hsBm hmemA hmemB⟩

lemma WFcoreNoConf_constructorStep :
    ∀ st key st1 ev, (WFcore st ∧ NoConfInv st) →
      constructorStep st key = some (st1, ev) → WFcore st1 ∧ NoConfInv st1 := by
  intro st key st1 ev hWN h
  obtain ⟨stu, chosen, hstu, hcand, rfl⟩ := constructorStep_cases h
  exact ⟨WFcore_commit hWN.1 hstu hcand, NoConfInv_commit hWN.1 hWN.2 hstu hcand⟩

lemma WFcoreNoConf_swapTrialStep :
    ∀ st keyA keyB sAId sBId, (WFcore st ∧ NoConfInv st) →
      (∀ x, findStudent st keyA = some x → sAId ∈ x.assigned) →
      (∀ x, findStudent st keyB = some x → sBId ∈ x.assigned) →
      WFcore (swapTrial st keyA keyB sAId sBId) ∧
        NoConfInv (swapTrial st keyA keyB sAId sBId) := by
  intro st keyA keyB sAId sBId hWN hmA hmB
  rcases swapTrial_cases hWN.1 hmA hmB with h |
    ⟨a, b, sA, sB, ha, hb, hsAm, hsBm, hAB, hidAB, hmemA, hmemB, hnotBb, hnotAa,
      hconfA, hconfB, himp, heq⟩
  · rw [h]
    exact hWN
  · rw [heq]
    exact ⟨WFcore_swapOutcome hWN.1 hAB ha hb hsAm hsBm hidAB hmemA hmemB hnotAa hnotBb
      (swapTakenA_sup hWN.1 ha hsBm) (swapTakenB_sup hWN.1 hb hsAm),
      NoConfInv_swapOutcome hWN.1 hWN.2 ha hb hsAm hsBm hidAB hconfA hconfB⟩

end Scheduler

namespace Scheduler

lemma rosterSets_eq_foldl (st : Scheduler) (roster : List String) (skip : Option String) :
    rosterSets st roster skip = roster.foldl (rosterStep st skip) (∅, ∅) := rfl

lemma swapStuA_clazz (sA sB : LabSession) (TA : Finset String) (x : Student) :
    (swapStuA sA sB TA x).clazz = x.clazz := rfl

lemma swapStuA_major (sA sB : LabSession) (TA : Finset String) (x : Student) :
    (swapStuA sA sB TA x).major = x.major := rfl

lemma swapStuB_clazz (sA sB : LabSession) (TB : Finset String) (x : Student) :
    (swapStuB sA sB TB x).clazz = x.clazz := rfl

lemma swapStuB_major (sA sB : LabSession) (TB : Finset String) (x : Student) :
    (swapStuB sA sB TB x).major = x.major := rfl

lemma find?_map_fst (l : List (String × Student)) (u : (String × Student) → (String × Student))
    (hu : ∀ p, (u p).1 = p.1) (k : String) :
    (l.map u).find? (fun q => q.1 == k) = (l.find? (fun p => p.1 == k)).map u := by
  induction l with
  | nil => rfl
  | cons p t ih =>
    by_cases hp : (p.1 == k) = true
    · rw [List.map_cons, List.find?_cons_of_pos _ (by simpa [hu p] using hp),
        List.find?_cons_of_pos _ (by exact hp)]
      rfl
    · rw [List.map_cons, List.find?_cons_of_neg _ (by simpa [hu p] using hp),
        List.find?_cons_of_neg _ (by exact hp)]
      exact ih

lemma findStudent_swapOutcome (st : Scheduler) (keyA keyB : String) (a b : Student)
    (sA sB : LabSession) (TA TB : Finset String) (k : String) :
    (swapOutcome st keyA keyB a b sA sB TA TB).findStudent k =
      (st.findStudent k).map (fun s =>
        if (k == keyA) = true then swapStuA sA sB TA s
        else if (k == keyB) = true then swapStuB sA sB TB s else s) := by
  show ((st.students.map (twoStudentUpd keyA (swapStuA sA sB TA) keyB
      (swapStuB sA sB TB))).find? (fun q => q.1 == k)).map (fun p => p.2) = _
  rw [find?_map_fst _ _ (fun p => fst_twoStudentUpd keyA keyB _ _ p) k]
  unfold findStudent
  cases hf : st.students.find? (fun p => p.1 == k) with
  | none => rfl
  | some p =>
    have hpk : (p.1 == k) = true := by
      have := List.find?_some hf
      exact this
    have hpk' : p.1 = k := by simpa using hpk
    simp only [Option.map_some']
    rw [snd_twoStudentUpd, hpk']

lemma rosterSets_swapOutcome (st : Scheduler) (keyA keyB : String) (a b : Student)
    (sA sB : LabSession) (TA TB : Finset String) (roster : List String)
    (skip : Option String) :
    rosterSets (swapOutcome st keyA keyB a b sA sB TA TB) roster skip =
      rosterSets st roster skip := by
  rw [rosterSets_eq_foldl, rosterSets_eq_foldl]
  have hstep : ∀ acc sid, rosterStep (swapOutcome st keyA keyB a b sA sB TA TB) skip acc sid =
      rosterStep st skip acc sid := by
    intro acc sid
    unfold rosterStep
    by_cases hsk : (skip == some sid) = true
    · rw [if_pos hsk, if_pos hsk]
    · rw [if_neg hsk, if_neg hsk, findStudent_swapOutcome]
      cases hfs : st.findStudent sid with
      | none => rfl
      | some stu =>
        dsimp only [Option.map_some']
        by_cases h1 : (sid == keyA) = true
        · rw [if_pos h1]
          simp only [swapStuA_clazz, swapStuA_major]
        · rw [if_neg h1]
          by_cases h2 : (sid == keyB) = true
          · rw [if_pos h2]
            simp only [swapStuB_clazz, swapStuB_major]
          · rw [if_neg h2]
  have hfold : ∀ (l : List String) (acc : Finset String × Finset String),
      l.foldl (rosterStep (swapOutcome st keyA keyB a b sA sB TA TB) skip) acc =
        l.foldl (rosterStep st skip) acc := by
    intro l
    induction l with
    | nil => intro acc; rfl
    | cons x t ih =>
      intro acc
      rw [List.foldl_cons, List.foldl_cons, hstep]
      exact ih _
  exact hfold roster _

lemma _session_diversity_swapOutcome (st : Scheduler) (keyA keyB : String) (a b : Student)
    (sA sB : LabSession) (TA TB : Finset String) (sess : LabSession)
    (o i : Option Student) :
    (swapOutcome st keyA keyB a b sA sB TA TB)._session_diversity sess o i =
      st._session_diversity sess o i := by
  unfold _session_diversity
  rw [rosterSets_swapOutcome]

lemma rosterStep_skip_self (st : Scheduler) (key : String)
    (acc : Finset String × Finset String) :
    rosterStep st (some key) acc key = acc := by
  unfold rosterStep
  rw [if_pos (by simp)]

lemma rosterStep_skip_ne (st : Scheduler) (key : String)
    (acc : Finset String × Finset String) (sid : String) (h : sid ≠ key) :
    rosterStep st (some key) acc sid = rosterStep st none acc sid := by
  unfold rosterStep
  rw [if_neg (by simp [Ne.symm h]), if_neg (by simp)]

lemma rosterFold_not_mem (st : Scheduler) (key : String) :
    ∀ (l : List String) (acc : Finset String × Finset String), key ∉ l →
      l.foldl (rosterStep st (some key)) acc = l.foldl (rosterStep st none) acc := by
  intro l
  induction l with
  | nil => intro acc _; rfl
  | cons x t ih =>
    intro acc h
    rw [List.foldl_cons, List.foldl_cons,
      rosterStep_skip_ne st key acc x (fun he => h (he ▸ List.mem_cons_self x t))]
    exact ih _ (fun hm => h (List.mem_cons_of_mem _ hm))

lemma rosterFold_skip_erase (st : Scheduler) (key : String) :
    ∀ (l : List String), l.Nodup → ∀ acc,
      l.foldl (rosterStep st (some key)) acc =
        (l.erase key).foldl (rosterStep st none) acc := by
  intro l
  induction l with
  | nil => intro _ acc; rfl
  | cons x t ih =>
    intro hnd acc
    rw [List.nodup_cons] at hnd
    by_cases hx : x = key
    · subst hx
      rw [List.erase_cons_head, List.foldl_cons, rosterStep_skip_self]
      exact rosterFold_not_mem st x t acc hnd.1
    · rw [List.erase_cons_tail (by simpa using hx),
        List.foldl_cons, List.foldl_cons, rosterStep_skip_ne st key acc x hx]
      exact ih hnd.2 _

lemma addIncoming_none (S : Finset String × Finset String) :
    addIncoming S none = S := rfl

/-- The first session's post-swap heterogeneity in the new state equals the
hypothetical after-metric computed by the acceptance check in the old
state. -/
lemma diversity_newA {st : Scheduler} {keyA keyB : String} {a b : Student}
    {sA : LabSession}
    (hb : st.findStudent keyB = some b)
    (haid : a.student_id = keyA)
    (hmem : keyA ∈ sA.assigned_students)
    (hnd : sA.assigned_students.Nodup) :
    st._session_diversity
        { sA with assigned_students := (sA.assigned_students.erase keyA) ++ [keyB] }
        none none =
      st._session_diversity sA (some a) (some b) := by
  have hsets : rosterSets st ((sA.assigned_students.erase keyA) ++ [keyB]) none =
      addIncoming (rosterSets st sA.assigned_students (some keyA)) (some b) := by
    rw [rosterSets_eq_foldl, rosterSets_eq_foldl, List.foldl_append,
      ← rosterFold_skip_erase st keyA sA.assigned_students hnd,
      List.foldl_cons, List.foldl_nil]
    unfold rosterStep addIncoming
    rw [if_neg (by simp), hb]
  have hlen : (((sA.assigned_students.erase keyA) ++ [keyB]).length : Int) =
      (sA.assigned_students.length : Int) := by
    rw [List.length_append, List.length_erase_of_mem hmem, List.length_singleton]
    have : 0 < sA.assigned_students.length := List.length_pos_of_mem hmem
    push_cast
    omega
  unfold _session_diversity
  dsimp only
  simp only [Option.map_none', Option.map_some', Option.isSome_none, Option.isSome_some,
    Bool.false_eq_true, eq_self_iff_true, if_false, if_true]
  rw [addIncoming_none, hsets, haid, if_pos hmem, hlen]
  have hsz : ((sA.assigned_students.length : Int) - 0 + 0) =
      ((sA.assigned_students.length : Int) - 1 + 1) := by ring
  rw [hsz]

/-- Symmetric fact for the second session. -/
lemma diversity_newB {st : Scheduler} {keyA keyB : String} {a b : Student}
    {sB : LabSession}
    (ha : st.findStudent keyA = some a)
    (hbid : b.student_id = keyB)
    (hmem : keyB ∈ sB.assigned_students)
    (hnd : sB.assigned_students.Nodup) :
    st._session_diversity
        { sB with assigned_students := (sB.assigned_students.erase keyB) ++ [keyA] }
        none none =
      st._session_diversity sB (some b) (some a) := by
  have hsets : rosterSets st ((sB.assigned_students.erase keyB) ++ [keyA]) none =
      addIncoming (rosterSets st sB.assigned_students (some keyB)) (some a) := by
    rw [rosterSets_eq_foldl, rosterSets_eq_foldl, List.foldl_append,
      ← rosterFold_skip_erase st keyB sB.assigned_students hnd,
      List.foldl_cons, List.foldl_nil]
    unfold rosterStep addIncoming
    rw [if_neg (by simp), ha]
  have hlen : (((sB.assigned_students.erase keyB) ++ [keyA]).length : Int) =
      (sB.assigned_students.length : Int) := by
    rw [List.length_append, List.length_erase_of_mem hmem, List.length_singleton]
    have : 0 < sB.assigned_students.length := List.length_pos_of_mem hmem
    push_cast
    omega
  unfold _session_diversity
  dsimp only
  simp only [Option.map_none', Option.map_some', Option.isSome_none, Option.isSome_some,
    Bool.false_eq_true, eq_self_iff_true, if_false, if_true]
  rw [addIncoming_none, hsets, hbid, if_pos hmem, hlen]
  have hsz : ((sB.assigned_students.length : Int) - 0 + 0) =
      ((sB.assigned_students.length : Int) - 1 + 1) := by ring
  rw [hsz]

end Scheduler

namespace Scheduler

lemma sum_map_add_q (l : List LabSession) (f g : LabSession → ℚ) :
    (l.map (fun s => f s + g s)).sum = (l.map f).sum + (l.map g).sum := by
  induction l with
  | nil => simp
  | cons x t ih =>
    simp only [List.map_cons, List.sum_cons, ih]
    ring

lemma sum_support_zero (h : LabSession → ℚ) (l : List LabSession)
    (hl : ∀ s ∈ l, h s = 0) : (l.map h).sum = 0 := by
  apply List.sum_eq_zero
  intro x hx
  obtain ⟨s, hs, rfl⟩ := List.mem_map.mp hx
  exact hl s hs

lemma sum_one_support (h : LabSession → ℚ) {sB : LabSession} :
    ∀ (l : List LabSession), (l.map (fun s => s.session_id)).Nodup → sB ∈ l →
      (∀ s ∈ l, s.session_id ≠ sB.session_id → h s = 0) →
      (l.map h).sum = h sB := by
  intro l
  induction l with
  | nil => intro _ hB; cases hB
  | cons c t ih =>
    intro hnd hB h0
    rw [List.map_cons, List.nodup_cons] at hnd
    rw [List.map_cons, List.sum_cons]
    rcases List.mem_cons.mp hB with rfl | hBt
    · have hz : (t.map h).sum = 0 :=
        sum_support_zero h t (fun s hs => h0 s (List.mem_cons_of_mem _ hs)
          (fun he => hnd.1 (he ▸ List.mem_map_of_mem _ hs)))
      rw [hz, add_zero]
    · have hcs : c.session_id ≠ sB.session_id :=
        fun he => hnd.1 (he ▸ List.mem_map_of_mem _ hBt)
      rw [h0 c (List.mem_cons_self _ _) hcs, zero_add]
      exact ih hnd.2 hBt (fun s hs hne => h0 s (List.mem_cons_of_mem _ hs) hne)

lemma sum_two_support (h : LabSession → ℚ) {sA sB : LabSession} :
    ∀ (l : List LabSession), (l.map (fun s => s.session_id)).Nodup →
      sA ∈ l → sB ∈ l → sA.session_id ≠ sB.session_id →
      (∀ s ∈ l, s.session_id ≠ sA.session_id → s.session_id ≠ sB.session_id → h s = 0) →
      (l.map h).sum = h sA + h sB := by
  intro l
  induction l with
  | nil => intro _ hA; cases hA
  | cons c t ih =>
    intro hnd hA hB hAB h0
    rw [List.map_cons, List.nodup_cons] at hnd
    rw [List.map_cons, List.sum_cons]
    rcases List.mem_cons.mp hA with rfl | hAt
    · have hBt : sB ∈ t := by
        rcases List.mem_cons.mp hB with rfl | hbt
        · exact absurd rfl hAB
        · exact hbt
      rw [sum_one_support h t hnd.2 hBt (fun s hs hne => h0 s
        (List.mem_cons_of_mem _ hs)
        (fun he => hnd.1 (he ▸ List.mem_map_of_mem _ hs)) hne)]
    · rcases List.mem_cons.mp hB with rfl | hBt
      · rw [sum_one_support h t hnd.2 hAt (fun s hs hne => h0 s
          (List.mem_cons_of_mem _ hs) hne
          (fun he => hnd.1 (he ▸ List.mem_map_of_mem _ hs)))]
        ring
      · have hcA : c.session_id ≠ sA.session_id :=
          fun he => hnd.1 (he ▸ List.mem_map_of_mem _ hAt)
        have hcB : c.session_id ≠ sB.session_id :=
          fun he => hnd.1 (he ▸ List.mem_map_of_mem _ hBt)
        rw [h0 c (List.mem_cons_self _ _) hcA hcB, zero_add]
        exact ih hnd.2 hAt hBt hAB (fun s hs h1 h2 =>
          h0 s (List.mem_cons_of_mem _ hs) h1 h2)

/-- Exact effect of an accepted swap on the sum of all per-session
heterogeneity metrics: the two touched sessions contribute their hypothetical
after-metrics, every other session is untouched. -/
lemma totalDiversity_swapOutcome
    {st : Scheduler} {keyA keyB : String} {a b : Student} {sA sB : LabSession}
    (hW : st.WFcore)
    (ha : st.findStudent keyA = some a) (hb : st.findStudent keyB = some b)
    (hsAmem : sA ∈ st.sessions) (hsBmem : sB ∈ st.sessions)
    (hidAB : sA.session_id ≠ sB.session_id)
    (hmemA : sA.session_id ∈ a.assigned) (hmemB : sB.session_id ∈ b.assigned)
    (TA TB : Finset String) :
    totalDiversity (swapOutcome st keyA keyB a b sA sB TA TB) =
      totalDiversity st
        - (st._session_diversity sA none none + st._session_diversity sB none none)
        + (st._session_diversity sA (some a) (some b) +
            st._session_diversity sB (some b) (some a)) := by
  obtain ⟨pa, hpamem, hpa1, hpa2⟩ := findStudent_some ha
  obtain ⟨pb, hpbmem, hpb1, hpb2⟩ := findStudent_some hb
  have haid : a.student_id = keyA := by rw [← hpa2, hW.keyMatch pa hpamem, hpa1]
  have hbid : b.student_id = keyB := by rw [← hpb2, hW.keyMatch pb hpbmem, hpb1]
  have hrosterA : keyA ∈ sA.assigned_students := by
    have := (hW.bidir pa hpamem sA hsAmem).mp (by rw [hpa2]; exact hmemA)
    rwa [hpa1] at this
  have hrosterB : keyB ∈ sB.assigned_students := by
    have := (hW.bidir pb hpbmem sB hsBmem).mp (by rw [hpb2]; exact hmemB)
    rwa [hpb1] at this
  have h1 : totalDiversity (swapOutcome st keyA keyB a b sA sB TA TB) =
      (st.sessions.map (fun s => st._session_diversity
        (twoSessionUpd sA.session_id
          (fun r => (r.erase a.student_id) ++ [b.student_id]) sB.session_id
          (fun r => (r.erase b.student_id) ++ [a.student_id]) s) none none)).sum := by
    unfold totalDiversity
    rw [swapOutcome_sessions, List.map_map]
    congr 1
    refine List.map_congr_left (fun s _ => ?_)
    exact _session_diversity_swapOutcome st keyA keyB a b sA sB TA TB _ none none
  rw [h1]
  have hsplit : ∀ s ∈ st.sessions,
      st._session_diversity (twoSessionUpd sA.session_id
          (fun r => (r.erase a.student_id) ++ [b.student_id]) sB.session_id
          (fun r => (r.erase b.student_id) ++ [a.student_id]) s) none none =
        st._session_diversity s none none +
          (if s.session_id = sA.session_id then
            st._session_diversity sA (some a) (some b) -
              st._session_diversity sA none none
          else if s.session_id = sB.session_id then
            st._session_diversity sB (some b) (some a) -
              st._session_diversity sB none none
          else 0) := by
    intro s hs
    by_cases hs1 : s.session_id = sA.session_id
    · have hseq : s = sA := List.inj_on_of_nodup_map hW.sessIds hs hsAmem hs1
      subst hseq
      rw [if_pos hs1]
      have hupd : twoSessionUpd s.session_id
          (fun r => (r.erase a.student_id) ++ [b.student_id]) sB.session_id
          (fun r => (r.erase b.student_id) ++ [a.student_id]) s =
          { s with assigned_students := (s.assigned_students.erase keyA) ++ [keyB] } := by
        unfold twoSessionUpd
        rw [if_pos (by simp), haid, hbid]
      rw [hupd, diversity_newA hb haid hrosterA (hW.rosterNodup s hs)]
      ring
    · by_cases hs2 : s.session_id = sB.session_id
      · have hseq : s = sB := List.inj_on_of_nodup_map hW.sessIds hs hsBmem hs2
        subst hseq
        rw [if_neg hs1, if_pos hs2]
        have hupd : twoSessionUpd sA.session_id
            (fun r => (r.erase a.student_id) ++ [b.student_id]) s.session_id
            (fun r => (r.erase b.student_id) ++ [a.student_id]) s =
            { s with assigned_students := (s.assigned_students.erase keyB) ++ [keyA] } := by
          unfold twoSessionUpd
          rw [if_neg (by simp [hs1]), if_pos (by simp), haid, hbid]
        rw [hupd, diversity_newB ha hbid hrosterB (hW.rosterNodup s hs)]
        ring
      · rw [if_neg hs1, if_neg hs2]
        have hupd : twoSessionUpd sA.session_id
            (fun r => (r.erase a.student_id) ++ [b.student_id]) sB.session_id
            (fun r => (r.erase b.student_id) ++ [a.student_id]) s = s := by
          unfold twoSessionUpd
          rw [if_neg (by simp [hs1]), if_neg (by simp [hs2])]
        rw [hupd, add_zero]
  rw [List.map_congr_left hsplit, sum_map_add_q]
  have hsum2 : (st.sessions.map (fun s =>
      if s.session_id = sA.session_id then
        st._session_diversity sA (some a) (some b) - st._session_diversity sA none none
      else if s.session_id = sB.session_id then
        st._session_diversity sB (some b) (some a) - st._session_diversity sB none none
      else 0)).sum =
      (st._session_diversity sA (some a) (some b) -
        st._session_diversity sA none none) +
      (st._session_diversity sB (some b) (some a) -
        st._session_diversity sB none none) := by
    rw [sum_two_support _ st.sessions hW.sessIds hsAmem hsBmem hidAB
      (fun s _ hne1 hne2 => by rw [if_neg hne1, if_neg hne2])]
    rw [if_pos rfl, if_neg (Ne.symm hidAB), if_pos rfl]
  rw [hsum2]
  unfold totalDiversity
  ring

end Scheduler

namespace Scheduler

/-- An accepted swap genuinely changes the state: the first student's
assignment list loses a session id it contained. -/
lemma swapOutcome_ne {st : Scheduler} {keyA keyB : String} {a b : Student}
    {sA sB : LabSession} {TA TB : Finset String}
    (hW : st.WFcore) (ha : st.findStudent keyA = some a)
    (hidAB : sA.session_id ≠ sB.session_id)
    (hmemA : sA.session_id ∈ a.assigned) :
    swapOutcome st keyA keyB a b sA sB TA TB ≠ st := by
  obtain ⟨pa, hpamem, hpa1, hpa2⟩ := findStudent_some ha
  have hnodup : a.assigned.Nodup := by
    have := hW.assignedNodup pa hpamem
    rwa [hpa2] at this
  intro heq
  have h1 := findStudent_swapOutcome st keyA keyB a b sA sB TA TB keyA
  rw [heq, ha] at h1
  simp only [Option.map_some'] at h1
  rw [if_pos (by simp)] at h1
  have h2 : a = swapStuA sA sB TA a := Option.some_inj.mp h1
  have h3 : a.assigned = (a.assigned.erase sA.session_id) ++ [sB.session_id] :=
    congrArg Student.assigned h2
  have h4 : sA.session_id ∈ (a.assigned.erase sA.session_id) ++ [sB.session_id] :=
    h3 ▸ hmemA
  rcases List.mem_append.mp h4 with hin | hin
  · exact ((List.Nodup.mem_erase_iff hnodup).mp hin).1 rfl
  · exact hidAB (List.mem_singleton.mp hin)

/-- One swap trial never increases the total heterogeneity, relative to any
upper bound, while preserving well-formedness. -/
lemma WFcoreDiv_swapTrialStep (c : ℚ) :
    ∀ st keyA keyB sAId sBId,
      (WFcore st ∧ totalDiversity st ≤ c) →
      (∀ x, findStudent st keyA = some x → sAId ∈ x.assigned) →
      (∀ x, findStudent st keyB = some x → sBId ∈ x.assigned) →
      WFcore (swapTrial st keyA keyB sAId sBId) ∧
        totalDiversity (swapTrial st keyA keyB sAId sBId) ≤ c := by
  intro st keyA keyB sAId sBId hWD hmA hmB
  rcases swapTrial_cases hWD.1 hmA hmB with h |
    ⟨a, b, sA, sB, ha, hb, hsAm, hsBm, hAB, hidAB, hmemA, hmemB, hnotBb, hnotAa,
      hconfA, hconfB, himp, heq⟩
  · rw [h]
    exact hWD
  · rw [heq]
    refine ⟨WFcore_swapOutcome hWD.1 hAB ha hb hsAm hsBm hidAB hmemA hmemB hnotAa hnotBb
      (swapTakenA_sup hWD.1 ha hsBm) (swapTakenB_sup hWD.1 hb hsAm), ?_⟩
    rw [totalDiversity_swapOutcome hWD.1 ha hb hsAm hsBm hidAB hmemA hmemB]
    have h2 := hWD.2
    linarith

end Scheduler

/-! ## C1: the no-conflict invariant -/

/-- Counterexample to C1 as stated: a run whose input student carries two
mutually conflicting busy slots ends construction with the claimed invariant
already false — the code never compares busy slots against each other, it
only checks candidate and received sessions against existing slots. -/
theorem no_conflict_counterexample :
    conflictFreeSlots (stBad.studentSlots stuBad) = false ∧
      Scheduler.constructionState (randomStream 0) stBad = stBad ∧
      ¬ Scheduler.NoConfInv (Scheduler.constructionState (randomStream 0) stBad) := by
  refine ⟨by decide, by decide, ?_⟩
  intro h
  exact absurd (h ("a", stuBad) (by decide)) (by decide)

/-- C1 (amended). If every student's combined slot list (busy slots plus the
derived slots of assigned sessions) is pairwise conflict-free in the initial
well-formed state, then it stays conflict-free after construction and after
every optimizer trial; without the initial hypothesis the claim fails, since
busy-vs-busy pairs are never checked by the code. -/
theorem no_conflict_invariant (st : Scheduler) (r : Nat → Nat)
    (hW : st.WFcore) (hN : Scheduler.NoConfInv st) :
    Scheduler.NoConfInv (Scheduler.constructionState r st) ∧
      ∀ n, Scheduler.NoConfInv (Scheduler.optimizerState r st n) := by
  refine ⟨(Scheduler.preserve_constructionState _
    Scheduler.WFcoreNoConf_constructorStep r st ⟨hW, hN⟩).2, ?_⟩
  intro n
  exact (Scheduler.preserve_optimizerState _ Scheduler.WFcoreNoConf_constructorStep
    Scheduler.WFcoreNoConf_swapTrialStep r st n ⟨hW, hN⟩).2

/-- Witness for the amended C1 at a concrete conflict-free input. -/
theorem no_conflict_invariant_witness :
    stW.WFcore ∧ Scheduler.NoConfInv stW ∧
      (Scheduler.NoConfInv (Scheduler.constructionState (randomStream 0) stW) ∧
        ∀ n, Scheduler.NoConfInv (Scheduler.optimizerState (randomStream 0) stW n)) :=
  ⟨⟨by decide, by decide, by decide, by decide, by decide, by decide, by decide,
    by decide⟩, by unfold Scheduler.NoConfInv; decide,
    no_conflict_invariant stW (randomStream 0)
      ⟨by decide, by decide, by decide, by decide, by decide, by decide, by decide,
        by decide⟩ (by unfold Scheduler.NoConfInv; decide)⟩

/-! ## C8: the capacity invariant -/

/-- C8. Starting from a well-formed state whose rosters fit their capacities,
every roster still fits its capacity after construction and after each
optimizer trial; moreover a zero-capacity session has `remaining = 0`, its
occupancy ratio is treated as `1.0` (the first score component degenerates to
the occupancy weight), and a session without free seats is never a
constructor candidate. -/
theorem capacity_invariant (st : Scheduler) (r : Nat → Nat)
    (hW : st.WFcore) (hC : Scheduler.CapInv st) :
    Scheduler.CapInv (Scheduler.constructionState r st) ∧
      (∀ n, Scheduler.CapInv (Scheduler.optimizerState r st n)) ∧
      (∀ sess : LabSession, sess.capacity = 0 → sess.remaining = 0) ∧
      (∀ stu sess, sess.capacity = 0 → (st._score stu sess).1 = st.w_occupancy) ∧
      (∀ stu sess, sess.remaining ≤ 0 → sess ∉ st._candidate_sessions stu) := by
  refine ⟨(Scheduler.preserve_constructionState _
      Scheduler.WFcoreCap_constructorStep r st ⟨hW, hC⟩).2,
    fun n => (Scheduler.preserve_optimizerState _ Scheduler.WFcoreCap_constructorStep
      Scheduler.WFcoreCap_swapTrialStep r st n ⟨hW, hC⟩).2, ?_, ?_, ?_⟩
  · intro sess hcap
    unfold LabSession.remaining
    rw [hcap]
    have : (0 : Int) - (sess.assigned_students.length : Int) ≤ 0 := by
      have : (0 : Int) ≤ (sess.assigned_students.length : Int) := Int.ofNat_nonneg _
      omega
    exact max_eq_right this
  · intro stu sess hcap
    unfold Scheduler._score
    dsimp only
    rw [if_neg (by rw [hcap]; exact fun h => h rfl), one_mul]
  · intro stu sess hrem hmem
    have h := List.mem_filter.mp hmem
    have h2 := h.2
    simp only [Bool.and_eq_true, decide_eq_true_eq] at h2
    exact absurd h2.1.1 (not_lt.mpr hrem)

/-- Witness for C8 at a concrete state. -/
theorem capacity_invariant_witness :
    stW.WFcore ∧ Scheduler.CapInv stW ∧
      (Scheduler.CapInv (Scheduler.constructionState (randomStream 0) stW) ∧
        (∀ n, Scheduler.CapInv (Scheduler.optimizerState (randomStream 0) stW n)) ∧
        (∀ sess : LabSession, sess.capacity = 0 → sess.remaining = 0) ∧
        (∀ stu sess, sess.capacity = 0 → (stW._score stu sess).1 = stW.w_occupancy) ∧
        (∀ stu sess, sess.remaining ≤ 0 → sess ∉ stW._candidate_sessions stu)) :=
  ⟨⟨by decide, by decide, by decide, by decide, by decide, by decide, by decide,
    by decide⟩, by unfold Scheduler.CapInv; decide,
    capacity_invariant stW (randomStream 0)
      ⟨by decide, by decide, by decide, by decide, by decide, by decide, by decide,
        by decide⟩ (by unfold Scheduler.CapInv; decide)⟩

/-! ## C10: bidirectional roster consistency -/

/-- C10. From an initial state with unique session ids, unique student keys,
students stored under their own ids, and all assignment lists and rosters
empty, bidirectional consistency holds after construction and after every
optimizer trial: a session id is in a student's list exactly when the
student's id is on that session's roster, and no assignment list contains
duplicates. -/
theorem bidir_consistency (st : Scheduler) (r : Nat → Nat)
    (h1 : (st.sessions.map (fun s => s.session_id)).Nodup)
    (h2 : (st.students.map (fun p => p.1)).Nodup)
    (h3 : ∀ p ∈ st.students, p.2.student_id = p.1)
    (h4 : ∀ p ∈ st.students, p.2.assigned = [])
    (h5 : ∀ sess ∈ st.sessions, sess.assigned_students = []) :
    (∀ p ∈ (Scheduler.constructionState r st).students,
      ∀ sess ∈ (Scheduler.constructionState r st).sessions,
        (sess.session_id ∈ p.2.assigned ↔ p.2.student_id ∈ sess.assigned_students)) ∧
    (∀ p ∈ (Scheduler.constructionState r st).students, p.2.assigned.Nodup) ∧
    ∀ n,
      (∀ p ∈ (Scheduler.optimizerState r st n).students,
        ∀ sess ∈ (Scheduler.optimizerState r st n).sessions,
          (sess.session_id ∈ p.2.assigned ↔ p.2.student_id ∈ sess.assigned_students)) ∧
      (∀ p ∈ (Scheduler.optimizerState r st n).students, p.2.assigned.Nodup) := by
  have hW0 : st.WFcore := by
    refine ⟨h1, h2, h3, ?_, ?_, ?_, ?_, ?_⟩
    · intro p hp sid hsid
      rw [h4 p hp] at hsid
      cases hsid
    · intro p hp
      rw [h4 p hp]
      exact List.nodup_nil
    · intro sess hs
      rw [h5 sess hs]
      exact List.nodup_nil
    · intro p hp sess hs
      rw [h4 p hp, h5 sess hs]
      simp
    · intro p hp sid hsid
      rw [h4 p hp] at hsid
      cases hsid
  have hWc := Scheduler.preserve_constructionState _
    Scheduler.WFcore_constructorStep r st hW0
  have hWo : ∀ n, (Scheduler.optimizerState r st n).WFcore := fun n =>
    Scheduler.preserve_optimizerState _ Scheduler.WFcore_constructorStep
      Scheduler.WFcore_swapTrialStep r st n hW0
  refine ⟨?_, fun p hp => hWc.assignedNodup p hp, ?_⟩
  · intro p hp sess hs
    rw [hWc.keyMatch p hp]
    exact hWc.bidir p hp sess hs
  · intro n
    refine ⟨?_, fun p hp => (hWo n).assignedNodup p hp⟩
    intro p hp sess hs
    rw [(hWo n).keyMatch p hp]
    exact (hWo n).bidir p hp sess hs

/-- Witness for C10 at a concrete empty-roster input. -/
theorem bidir_consistency_witness :
    (stW.sessions.map (fun s => s.session_id)).Nodup ∧
      (∀ p ∈ stW.students, p.2.assigned = []) ∧
      ((∀ p ∈ (Scheduler.constructionState (randomStream 0) stW).students,
        ∀ sess ∈ (Scheduler.constructionState (randomStream 0) stW).sessions,
          (sess.session_id ∈ p.2.assigned ↔ p.2.student_id ∈ sess.assigned_students)) ∧
      (∀ p ∈ (Scheduler.constructionState (randomStream 0) stW).students,
        p.2.assigned.Nodup) ∧
      ∀ n,
        (∀ p ∈ (Scheduler.optimizerState (randomStream 0) stW n).students,
          ∀ sess ∈ (Scheduler.optimizerState (randomStream 0) stW n).sessions,
            (sess.session_id ∈ p.2.assigned ↔ p.2.student_id ∈ sess.assigned_students)) ∧
        (∀ p ∈ (Scheduler.optimizerState (randomStream 0) stW n).students,
          p.2.assigned.Nodup)) :=
  ⟨by decide, by decide,
    bidir_consistency stW (randomStream 0) (by decide) (by decide) (by decide)
      (by decide) (by decide)⟩

/-! ## C7: acceptance criterion and monotone improvement -/

/-- C7. A feasible swap trial (both lookups resolve, the sampled ids come
from the students' assignment lists, and `_can_swap` passes) changes the
state exactly when the summed hypothetical after-metric of the two touched
sessions is strictly below the summed before-metric; and the total of
per-session heterogeneity metrics over all sessions never increases from one
optimizer trial to the next. -/
theorem swap_accept_iff_diversity_drop
    (st : Scheduler) (r : Nat → Nat) (keyA keyB : String) (sAId sBId : Int)
    (a b : Student) (sA sB : LabSession)
    (hW : st.WFcore)
    (ha : st.findStudent keyA = some a) (hb : st.findStudent keyB = some b)
    (hsA : st.session_lookup sAId = some sA) (hsB : st.session_lookup sBId = some sB)
    (hmemA : sAId ∈ a.assigned) (hmemB : sBId ∈ b.assigned)
    (hcan : st._can_swap a sA b sB = true) :
    (st.swapTrial keyA keyB sAId sBId ≠ st ↔
      st._session_diversity sA (some a) (some b) +
          st._session_diversity sB (some b) (some a) <
        st._session_diversity sA none none + st._session_diversity sB none none) ∧
    (∀ n, Scheduler.totalDiversity (Scheduler.optimizerState r st (n + 1)) ≤
      Scheduler.totalDiversity (Scheduler.optimizerState r st n)) := by
  obtain ⟨hsAm, hsAid⟩ := Scheduler.session_lookup_some hsA
  obtain ⟨hsBm, hsBid⟩ := Scheduler.session_lookup_some hsB
  obtain ⟨hidAB, hHPa, hHPb, hconfA, hconfB, -, -⟩ := Scheduler.can_swap_elim hcan
  have hidne : ¬ (sAId == sBId) = true := by
    rw [← hsAid, ← hsBid]
    simpa using hidAB
  constructor
  · constructor
    · intro hne
      by_contra hnot
      apply hne
      unfold Scheduler.swapTrial
      rw [if_neg hidne, ha, hb, hsA, hsB]
      dsimp only
      rw [if_pos hcan, if_neg hnot]
    · intro himp
      have hmemA' : sA.session_id ∈ a.assigned := by rw [hsAid]; exact hmemA
      have hmemB' : sB.session_id ∈ b.assigned := by rw [hsBid]; exact hmemB
      have hprojA : st.projectIs sA.session_id sA.project_name = true := by
        unfold Scheduler.projectIs
        rw [Scheduler.session_lookup_eq_of_mem hW.sessIds hsAm]
        simp
      have hnotB : sA.session_id ∉ b.assigned := by
        intro hmem
        have hhp : st._has_project b sA.project_name (some sB.session_id) = true := by
          unfold Scheduler._has_project
          refine List.any_eq_true.mpr ⟨sA.session_id, hmem, ?_⟩
          rw [Bool.and_eq_true]
          exact ⟨by simp [Ne.symm hidAB], hprojA⟩
        rw [hhp] at hHPb
        cases hHPb
      have hAB : keyA ≠ keyB := by
        intro h
        rw [h, hb] at ha
        rw [Option.some_inj.mp ha] at hnotB
        exact hnotB hmemA'
      have htrial : st.swapTrial keyA keyB sAId sBId =
          st._perform_swap keyA keyB a sA b sB := by
        unfold Scheduler.swapTrial
        rw [if_neg hidne, ha, hb, hsA, hsB]
        dsimp only
        rw [if_pos hcan, if_pos himp]
      rw [htrial, Scheduler.performSwap_eq hAB hidAB ha hb hW.stuKeys]
      exact Scheduler.swapOutcome_ne hW ha hidAB hmemA'
  · intro n
    unfold Scheduler.optimizerState
    dsimp only
    by_cases hlen : (Scheduler.constructionState r st).activeStudentIds.length < 2
    · rw [if_pos hlen, if_pos hlen]
    · rw [if_neg hlen, if_neg hlen, Scheduler.runTrials_succ_last]
      generalize hq : Scheduler.runTrials r
        (Scheduler.constructionState r st).activeStudentIds n
        (Scheduler.constructionState r st, (Scheduler.orderedStudents r st 0).2) = q
      have hWq : q.1.WFcore := by
        rw [← hq]
        exact Scheduler.preserve_runTrials _ Scheduler.WFcore_swapTrialStep r _ n _
          (Scheduler.preserve_constructionState _ Scheduler.WFcore_constructorStep r st hW)
      exact (Scheduler.preserve_trialOnce
        (fun x => x.WFcore ∧ Scheduler.totalDiversity x ≤ Scheduler.totalDiversity q.1)
        (Scheduler.WFcoreDiv_swapTrialStep (Scheduler.totalDiversity q.1)) r _ q
        ⟨hWq, le_refl _⟩).2

/-- Witness for C7: the cross-class swap scenario is feasible, its acceptance
is equivalent to the strict diversity drop, and the total metric is monotone
along the trials. -/
theorem swap_accept_iff_diversity_drop_witness :
    stSwap._can_swap stuSwapA sessSwapA stuSwapB sessSwapB = true ∧
      ((stSwap.swapTrial "a" "b" 1 2 ≠ stSwap ↔
        stSwap._session_diversity sessSwapA (some stuSwapA) (some stuSwapB) +
            stSwap._session_diversity sessSwapB (some stuSwapB) (some stuSwapA) <
          stSwap._session_diversity sessSwapA none none +
            stSwap._session_diversity sessSwapB none none) ∧
      (∀ n, Scheduler.totalDiversity
          (Scheduler.optimizerState (randomStream 0) stSwap (n + 1)) ≤
        Scheduler.totalDiversity (Scheduler.optimizerState (randomStream 0) stSwap n))) :=
  ⟨by decide,
    swap_accept_iff_diversity_drop stSwap (randomStream 0) "a" "b" 1 2 stuSwapA stuSwapB
      sessSwapA sessSwapB
      ⟨by decide, by decide, by decide, by decide, by decide, by decide, by decide,
        by decide⟩
      (by decide) (by decide) (by decide) (by decide) (by decide) (by decide) (by decide)⟩
